import Mathlib

/-!
# Tetris rules engine: a shallow embedding and its verification

The definitions follow `tetromino.h`, `board.{h,cpp}`, `input.{h,cpp}` and
`game.{h,cpp}`.

Modelling conventions.

* C++ `int` is `Int`.  The score, the one `int` that play drives towards the
  32-bit range, is reduced by `wrapInt32` after every addition to it: signed
  overflow is undefined in C++ and wraps on the usual two's-complement
  targets.  Coordinates, indices, the line count, the level and the combo stay
  far from the range and carry no reduction.
* `std::array<std::array<sf::Color, 10>, 22>` is a function
  `Fin 22 → Fin 10 → Color`; every array access of the source is preceded by a
  bounds test or runs inside loop bounds, and the embedding carries the
  corresponding proof.
* A finite `float` is the rational it denotes.  Comparisons of floats are
  comparisons of these rationals; the float additions and the float
  subtraction in the timers of `update` round, and are the parameters `fadd`
  and `fsub` of the embedding, so that what is proved holds for the `float`
  arithmetic of the platform as for exact arithmetic.  The example tables
  `guidelineTables` take them exact, `float32Tables` rounds them to the
  nearest binary32 value.  The literal `0.05f` of the soft-drop interval and
  the powers in `gravityInterval` are read in exact arithmetic; the threshold
  `0.5f` and the interval `1.f` of level 1 are exact in binary32.
* `std::mt19937` together with `std::shuffle` is a stream of permutations of
  seven positions: each call to `shuffle` consumes the head of the stream and
  rearranges its argument by it.
* `tetromino.cpp` is not among the sources: the constant tables it defines
  (`TETROMINO_DATA`, the four `SRS_KICKS_*`) are a parameter `D : Tables` of
  every function that reads them; `D` also carries `fadd` and `fsub`.
* The gravity loop of `update` is a `while` loop on the accumulated time; it
  is run with a bound `fuel` on its iterations and `update` returns `none`
  when the bound is hit.
-/

namespace Tetris

/-! ## tetromino.h -/

/-- The seven kinds of `enum class TetrominoType` (the sentinel `Count` is not a kind). -/
inductive TetrominoType where
  | I | J | L | O | S | T | Z
  deriving DecidableEq, Repr

/-- The type `sf::Color`: four 8-bit channels, compared channel by channel. -/
structure Color where
  r : Nat
  g : Nat
  b : Nat
  a : Nat
  deriving DecidableEq, Repr

/-- The type `sf::Vector2i`. -/
structure Vector2i where
  x : Int
  y : Int
  deriving DecidableEq, Repr

/-- Component-wise sum, `operator+` of `sf::Vector2i`. -/
def Vector2i.add (p q : Vector2i) : Vector2i := ⟨p.x + q.x, p.y + q.y⟩

instance : Add Vector2i := ⟨Vector2i.add⟩

/-- The record `struct TetrominoData`: `rotations[state][cell]` and the display colour. -/
structure TetrominoData where
  rotations : Fin 4 → Fin 4 → Vector2i
  color : Color

/-- The record `struct KickData`: `offsets[from_state][attempt]`. -/
structure KickData where
  offsets : Fin 4 → Fin 5 → Vector2i

/-- The parameters of the embedding: the constant tables declared in
`tetromino.h` and defined in the absent `tetromino.cpp`, and the two rounding
operations of `float` that the timers of `Game::update` use, `fadd a b` for the
float sum `a + b` and `fsub a b` for the float difference `a - b`, as functions
on the rationals that finite floats denote. -/
structure Tables where
  TETROMINO_DATA : TetrominoType → TetrominoData
  SRS_KICKS_JLSTZ_CW : KickData
  SRS_KICKS_JLSTZ_CCW : KickData
  SRS_KICKS_I_CW : KickData
  SRS_KICKS_I_CCW : KickData
  fadd : ℚ → ℚ → ℚ
  fsub : ℚ → ℚ → ℚ

/-- The class `Tetromino`.  `m_rotation` is written only by the constructor and
by `setRotation`, which masks its argument with `3`, so it is carried as a
`Fin 4`. -/
structure Tetromino where
  m_type : TetrominoType
  m_pos : Vector2i
  m_rotation : Fin 4
  deriving DecidableEq

namespace Tetromino

/-- Modelled from the spec: the constructor `Tetromino(type)` of the absent
`tetromino.cpp`; a new piece has rotation state 0 (its position is set by the
caller before it is read). -/
def new (type : TetrominoType) : Tetromino := ⟨type, ⟨0, 0⟩, 0⟩

def type (p : Tetromino) : TetrominoType := p.m_type

def rotationState (p : Tetromino) : Int := p.m_rotation.val

def position (p : Tetromino) : Vector2i := p.m_pos

/-- Modelled from the spec: `Tetromino::color` of the absent `tetromino.cpp`,
the fixed display colour of the kind. -/
def color (D : Tables) (p : Tetromino) : Color := (D.TETROMINO_DATA p.m_type).color

/-- The reduction `state & 3` of a two's-complement `int`, as an index. -/
def maskRotation (state : Int) : Fin 4 := ⟨(state % 4).toNat, by omega⟩

/-- Modelled from the spec: `Tetromino::worldCellsAt` of the absent
`tetromino.cpp`; the four absolute cells are the anchor plus the static shape
offsets of (kind, rotation), the rotation taken modulo 4. -/
def worldCellsAt (D : Tables) (p : Tetromino) (pos : Vector2i) (rotation : Int) :
    List Vector2i :=
  List.ofFn fun i : Fin 4 => pos + (D.TETROMINO_DATA p.m_type).rotations (maskRotation rotation) i

/-- Modelled from the spec: `Tetromino::worldCells` of the absent
`tetromino.cpp`, the cells at the current position and rotation. -/
def worldCells (D : Tables) (p : Tetromino) : List Vector2i :=
  p.worldCellsAt D p.m_pos p.rotationState

def setPosition (p : Tetromino) (pos : Vector2i) : Tetromino := { p with m_pos := pos }

def setRotation (p : Tetromino) (state : Int) : Tetromino :=
  { p with m_rotation := maskRotation state }

end Tetromino

/-! ## board.h, board.cpp -/

def BOARD_COLS : Nat := 10

def BOARD_ROWS : Nat := 20

def BOARD_ROWS_TOTAL : Nat := 22

/-- The constant `sf::Color::Black`. -/
def EMPTY_COLOR : Color := ⟨0, 0, 0, 255⟩

/-- One row of the grid, `std::array<sf::Color, BOARD_COLS>`. -/
abbrev Row := Fin 10 → Color

/-- The class `Board`: `m_cells[row][col]`, row 0 the topmost hidden row. -/
structure Board where
  m_cells : Fin 22 → Row

/-- The row `row.fill(EMPTY_COLOR)`. -/
def emptyRow : Row := fun _ => EMPTY_COLOR

namespace Board

def reset (_b : Board) : Board := ⟨fun _ => emptyRow⟩

def isInBounds (_b : Board) (col row : Int) : Bool :=
  decide (col ≥ 0) && decide (col < BOARD_COLS) && decide (row ≥ 0) &&
    decide (row < BOARD_ROWS_TOTAL)

/-- The row index of a cell that passed `isInBounds`. -/
def rowIndex (b : Board) (col row : Int) (h : b.isInBounds col row = true) : Fin 22 :=
  ⟨row.toNat, by simp [isInBounds, BOARD_COLS, BOARD_ROWS_TOTAL] at h; omega⟩

/-- The column index of a cell that passed `isInBounds`. -/
def colIndex (b : Board) (col row : Int) (h : b.isInBounds col row = true) : Fin 10 :=
  ⟨col.toNat, by simp [isInBounds, BOARD_COLS, BOARD_ROWS_TOTAL] at h; omega⟩

/-- The read `m_cells[row][col]` at indices that passed `isInBounds`. -/
def cellAt (b : Board) (col row : Int) (h : b.isInBounds col row = true) : Color :=
  b.m_cells (b.rowIndex col row h) (b.colIndex col row h)

/-- The write `m_cells[row][col] = v` at indices that passed `isInBounds`. -/
def setCell (b : Board) (col row : Int) (h : b.isInBounds col row = true) (v : Color) : Board :=
  ⟨Function.update b.m_cells (b.rowIndex col row h)
    (Function.update (b.m_cells (b.rowIndex col row h)) (b.colIndex col row h) v)⟩

def isOccupied (b : Board) (col row : Int) : Bool :=
  if h : b.isInBounds col row = true then b.cellAt col row h != EMPTY_COLOR else true

def cellColor (b : Board) (col row : Int) : Color :=
  if h : b.isInBounds col row = true then b.cellAt col row h else EMPTY_COLOR

/-- The loop of `isValidPosition` over the cells, with its two early returns. -/
def validCells (b : Board) : List Vector2i → Bool
  | [] => true
  | c :: rest =>
    if h : b.isInBounds c.x c.y = true then
      if b.cellAt c.x c.y h != EMPTY_COLOR then false else validCells b rest
    else false

def isValidPosition (D : Tables) (b : Board) (piece : Tetromino) (testPos : Vector2i)
    (testRotation : Int) : Bool :=
  b.validCells (piece.worldCellsAt D testPos testRotation)

/-- The inner loop of `findFullRows`: no column of the row holds `EMPTY_COLOR`. -/
def rowFull (b : Board) (r : Fin 22) : Bool :=
  (List.finRange 10).all fun c => b.m_cells r c != EMPTY_COLOR

def findFullRows (b : Board) : List (Fin 22) :=
  (List.finRange 22).filter fun r => b.rowFull r

/-- The loop `for (r = row; r > 0; --r) m_cells[r] = m_cells[r - 1]`. -/
def shiftDown (cells : Fin 22 → Row) : (r : Nat) → r < 22 → Fin 22 → Row
  | 0, _ => cells
  | r + 1, h =>
    shiftDown (Function.update cells ⟨r + 1, h⟩ (cells ⟨r, by omega⟩)) r (by omega)

def clearRow (b : Board) (row : Fin 22) : Board :=
  ⟨Function.update (shiftDown b.m_cells row.val row.isLt) 0 emptyRow⟩

/-- The first loop of `lockPiece`: the colour is written into every in-bounds cell. -/
def writeCells (b : Board) (color : Color) : List Vector2i → Board
  | [] => b
  | c :: rest =>
    if h : b.isInBounds c.x c.y = true then writeCells (b.setCell c.x c.y h color) color rest
    else writeCells b color rest

/-- The call `std::sort(fullRows.begin(), fullRows.end(), std::greater<int>())`. -/
def sortDescending (rows : List (Fin 22)) : List (Fin 22) :=
  rows.insertionSort fun a b => a ≥ b

/-- The method `Board::lockPiece`: the board after the lock and the returned count. -/
def lockPiece (D : Tables) (b : Board) (piece : Tetromino) : Board × Int :=
  let written := b.writeCells (piece.color D) (piece.worldCells D)
  let fullRows := sortDescending written.findFullRows
  (fullRows.foldl clearRow written, (fullRows.length : Int))

/-- The loop of `ghostDropDistance`, `n` iterations remaining before `dist`
reaches `BOARD_ROWS_TOTAL`. -/
def ghostLoop (D : Tables) (b : Board) (piece : Tetromino) : Nat → Int → Int
  | 0, dist => dist
  | n + 1, dist =>
    if !b.isValidPosition D piece (piece.position + ⟨0, dist + 1⟩) piece.rotationState then dist
    else ghostLoop D b piece n (dist + 1)

def ghostDropDistance (D : Tables) (b : Board) (piece : Tetromino) : Int :=
  ghostLoop D b piece BOARD_ROWS_TOTAL 0

end Board

/-! ## input.h, input.cpp -/

/-- The actions of `enum class Action` (the sentinel `Count` is not an action). -/
inductive Action where
  | MoveLeft | MoveRight | SoftDrop | HardDrop | RotateCW | RotateCCW | Hold | Pause | Quit
  deriving DecidableEq, Repr

/-- The record `InputHandler::KeyState`. -/
structure KeyState where
  held : Bool := false
  justPressed : Bool := false
  firedThisFrame : Bool := false
  holdTimer : ℚ := 0
  dasActive : Bool := false
  dasTimer : ℚ := 0

/-- The class `InputHandler`: one `KeyState` per action. -/
structure InputHandler where
  m_states : Action → KeyState

/-- The keys of `sf::Keyboard::Key` that `bindingFor` names, `Unknown`, and
every other key by its code. -/
inductive Key where
  | Left | Right | Down | Space | Up | Z | C | P | Escape | Unknown
  | Other (code : Nat)
  deriving DecidableEq, Repr

/-- The events of `sf::Event` as `handleEvent` distinguishes them. -/
inductive Event where
  | KeyPressed (code : Key)
  | KeyReleased (code : Key)
  | Other
  deriving DecidableEq, Repr

/-- The actions in the order of their indices `0 .. ACTION_COUNT - 1`. -/
def allActions : List Action :=
  [.MoveLeft, .MoveRight, .SoftDrop, .HardDrop, .RotateCW, .RotateCCW, .Hold, .Pause, .Quit]

namespace InputHandler

/-- The constant `DAS_DELAY = 0.150f`. -/
def DAS_DELAY : ℚ := 3 / 20

/-- The constant `DAS_INTERVAL = 0.050f`. -/
def DAS_INTERVAL : ℚ := 1 / 20

def bindingFor : Action → Key
  | .MoveLeft => Key.Left
  | .MoveRight => Key.Right
  | .SoftDrop => Key.Down
  | .HardDrop => Key.Space
  | .RotateCW => Key.Up
  | .RotateCCW => Key.Z
  | .Hold => Key.C
  | .Pause => Key.P
  | .Quit => Key.Escape

def usesDAS (a : Action) : Bool :=
  decide (a = Action.MoveLeft) || decide (a = Action.MoveRight) || decide (a = Action.SoftDrop)

/-- The constructor `InputHandler()`: `m_states.fill(KeyState{})`. -/
def new : InputHandler := ⟨fun _ => {}⟩

/-- The body of the key-press loop of `handleEvent` for one action. -/
def pressStep (code : Key) (states : Action → KeyState) (a : Action) : Action → KeyState :=
  if code = bindingFor a ∧ ¬ (states a).held = true then
    Function.update states a
      { held := true, justPressed := true, firedThisFrame := true, holdTimer := 0,
        dasActive := false, dasTimer := 0 }
  else states

/-- The body of the key-release loop of `handleEvent` for one action. -/
def releaseStep (code : Key) (states : Action → KeyState) (a : Action) : Action → KeyState :=
  if code = bindingFor a then
    Function.update states a
      { states a with held := false, dasActive := false, holdTimer := 0, dasTimer := 0 }
  else states

def handleEvent (h : InputHandler) (event : Event) : InputHandler :=
  match event with
  | Event.KeyPressed code => ⟨allActions.foldl (pressStep code) h.m_states⟩
  | Event.KeyReleased code => ⟨allActions.foldl (releaseStep code) h.m_states⟩
  | Event.Other => h

/-- The body of the loop of `InputHandler::update` on the state `s` of one
action: the two per-frame flags are cleared and the auto-repeat timers of a
held movement key advance. -/
def stepKey (das : Bool) (s : KeyState) (dt : ℚ) : KeyState :=
  let s := { s with justPressed := false }
  let s := { s with firedThisFrame := false }
  if s.held && das then
    let s := { s with holdTimer := s.holdTimer + dt }
    if s.holdTimer ≥ DAS_DELAY then
      let s := { s with dasActive := true }
      let s := { s with dasTimer := s.dasTimer + dt }
      if s.dasTimer ≥ DAS_INTERVAL then
        let s := { s with firedThisFrame := true }
        { s with dasTimer := 0 }
      else s
    else s
  else s

/-- The method `InputHandler::update`. -/
def update (h : InputHandler) (dt : ℚ) : InputHandler :=
  ⟨allActions.foldl (fun states a => Function.update states a (stepKey (usesDAS a) (states a) dt))
    h.m_states⟩

def isJustPressed (h : InputHandler) (a : Action) : Bool := (h.m_states a).justPressed

def isActive (h : InputHandler) (a : Action) : Bool :=
  (h.m_states a).justPressed || (h.m_states a).firedThisFrame

def isHeld (h : InputHandler) (a : Action) : Bool := (h.m_states a).held

/-- The input part of one iteration of the loop of `main`: every polled event
goes through `handleEvent`, then `update(dt)` runs; `Game::update` reads the
handler this leaves. -/
def pollFrame (h : InputHandler) (events : List Event) (dt : ℚ) : InputHandler :=
  (events.foldl handleEvent h).update dt

end InputHandler

/-! ## game.h, game.cpp -/

inductive GameState where
  | Playing | Paused | GameOver
  deriving DecidableEq, Repr

/-- The value an `int` sum takes on a two's-complement target: the exact sum
reduced modulo `2^32` into the range `-2^31 .. 2^31 - 1`. -/
def wrapInt32 (x : Int) : Int := (x + 2147483648) % 4294967296 - 2147483648

/-- The record `struct ScoreState`.  Every addition to `score` in `game.cpp` is
followed by `wrapInt32`. -/
structure ScoreState where
  score : Int := 0
  level : Int := 1
  lines : Int := 0
  combo : Int := 0
  deriving DecidableEq, Repr

/-- The state of `std::mt19937` as far as `std::shuffle` reads it: the
permutations the coming shuffles will apply, in order. -/
abbrev Rng := Nat → Equiv.Perm (Fin 7)

/-- The class `Game`.  `m_current` is never null once `reset` has run, and
`m_bagIndex` is only ever set to 0 or incremented, so it is a `Nat`. -/
structure Game where
  m_board : Board
  m_current : Tetromino
  m_held : Option Tetromino
  m_holdUsed : Bool
  m_bag : Fin 14 → TetrominoType
  m_bagIndex : Nat
  m_rng : Rng
  m_score : ScoreState
  m_state : GameState
  m_gravityAccum : ℚ
  m_gravityInterval : ℚ
  m_lockTimer : ℚ
  m_lockDelay : ℚ
  m_onGround : Bool
  m_ghostRow : Int

/-- The table `LINE_MULTIPLIERS`. -/
def LINE_MULTIPLIERS : List Int := [0, 40, 100, 300, 1200]

/-- The array literal `{I, J, L, O, S, T, Z}` of `reset` and `refillBag`. -/
def sevenTypes : Fin 7 → TetrominoType :=
  fun i => [TetrominoType.I, .J, .L, .O, .S, .T, .Z].getD i.val .I

/-- The call `std::shuffle(a.begin(), a.end(), m_rng)`: the array is rearranged
by the next permutation of the generator, which is consumed. -/
def shuffle (rng : Rng) (a : Fin 7 → TetrominoType) : (Fin 7 → TetrominoType) × Rng :=
  (fun i => a (rng 0 i), fun n => rng (n + 1))

/-- The loop `for (i = 0; i < 7; ++i) m_bag[i] = src[i]`. -/
def copyFirstHalf (bag : Fin 14 → TetrominoType) (src : Fin 7 → TetrominoType) :
    Fin 14 → TetrominoType :=
  (List.finRange 7).foldl (fun b i => Function.update b ⟨i.val, by omega⟩ (src i)) bag

/-- The loop `for (i = 0; i < 7; ++i) m_bag[i + 7] = src[i]`. -/
def copySecondHalf (bag : Fin 14 → TetrominoType) (src : Fin 7 → TetrominoType) :
    Fin 14 → TetrominoType :=
  (List.finRange 7).foldl (fun b i => Function.update b ⟨i.val + 7, by omega⟩ (src i)) bag

/-- The loop `for (i = 0; i < 7; ++i) m_bag[i] = m_bag[i + 7]`. -/
def shiftSecondHalf (bag : Fin 14 → TetrominoType) : Fin 14 → TetrominoType :=
  (List.finRange 7).foldl
    (fun b i => Function.update b ⟨i.val, by omega⟩ (b ⟨i.val + 7, by omega⟩)) bag

namespace Game

/-- The method `Game::gravityInterval`, in exact arithmetic. -/
def gravityInterval (level : Int) : ℚ :=
  let level := if level ≤ 0 then 1 else level
  let level := if level > 20 then 20 else level
  let base : ℚ := 4 / 5 - ((level - 1 : Int) : ℚ) * (7 / 1000)
  base ^ (level - 1).toNat

def refillBag (g : Game) : Game :=
  let bag := shiftSecondHalf g.m_bag
  let fresh := shuffle g.m_rng sevenTypes
  { g with m_bag := copySecondHalf bag fresh.1, m_rng := fresh.2 }

/-- The statement `return m_bag[m_bagIndex++]` of `drawFromBag`, reached with
the index below 7: the kind read and the state after. -/
def takeSlot (g : Game) (h : g.m_bagIndex < 7) : TetrominoType × Game :=
  (g.m_bag ⟨g.m_bagIndex, by omega⟩, { g with m_bagIndex := g.m_bagIndex + 1 })

/-- The method `Game::drawFromBag`: the kind returned and the state after. -/
def drawFromBag (g : Game) : TetrominoType × Game :=
  if h : g.m_bagIndex ≥ 7 then takeSlot { refillBag g with m_bagIndex := 0 } (Nat.succ_pos 6)
  else takeSlot g (Nat.lt_of_not_le h)

/-- The loop `for (i = 0; i < 3; ++i) next[i] = m_bag[m_bagIndex + i]` of
`nextPieces` from index `i` on, `n` iterations left; `none` stands for a read
past the end of `m_bag`. -/
def peekLoop (g : Game) : Nat → Nat → Option (List TetrominoType)
  | 0, _ => some []
  | n + 1, i =>
    if h : g.m_bagIndex + i < 14 then
      (peekLoop g n (i + 1)).map fun rest => g.m_bag ⟨g.m_bagIndex + i, h⟩ :: rest
    else none

/-- The method `Game::nextPieces`: it is `const`, so it returns the three kinds
and no state. -/
def nextPieces (g : Game) : Option (List TetrominoType) := peekLoop g 3 0

def updateGhost (D : Tables) (g : Game) : Game :=
  { g with m_ghostRow := g.m_board.ghostDropDistance D g.m_current }

def spawnPiece (D : Tables) (g : Game) (type : TetrominoType) : Game :=
  let spawnCol : Int := BOARD_COLS / 2 - 1
  let g := { g with m_current := (Tetromino.new type).setPosition ⟨spawnCol, 1⟩ }
  let g := { g with m_lockTimer := 0, m_onGround := false }
  let g :=
    if !g.m_board.isValidPosition D g.m_current g.m_current.position 0 then
      { g with m_state := GameState.GameOver }
    else g
  updateGhost D g

def isOnGround (D : Tables) (g : Game) : Bool :=
  !g.m_board.isValidPosition D g.m_current (g.m_current.position + ⟨0, 1⟩)
    g.m_current.rotationState

/-- The body of `reset` up to, and not including, its last statement
`spawnPiece(drawFromBag())`: the fields are cleared and both halves of the bag
are filled, the second shuffle rearranging the array the first one left. -/
def resetFields (g : Game) : Game :=
  let g := { g with
    m_board := g.m_board.reset, m_held := none, m_holdUsed := false, m_score := {},
    m_state := GameState.Playing, m_gravityAccum := 0, m_gravityInterval := gravityInterval 1,
    m_lockTimer := 0, m_onGround := false, m_bagIndex := 0 }
  let first := shuffle g.m_rng sevenTypes
  let g := { g with m_bag := copyFirstHalf g.m_bag first.1, m_rng := first.2 }
  let second := shuffle g.m_rng first.1
  { g with m_bag := copySecondHalf g.m_bag second.1, m_rng := second.2 }

def reset (D : Tables) (g : Game) : Game :=
  let g := resetFields g
  let d := drawFromBag g
  spawnPiece D d.2 d.1

def tryMove (D : Tables) (g : Game) (dx dy : Int) : Game :=
  let newPos := g.m_current.position + ⟨dx, dy⟩
  if g.m_board.isValidPosition D g.m_current newPos g.m_current.rotationState then
    let g := { g with m_current := g.m_current.setPosition newPos }
    let g := if dy = 0 then { g with m_lockTimer := 0 } else g
    updateGhost D g
  else g

/-- The loop of `tryRotate` over the kick attempts `k, k+1, ..., 4`, `n` of them left. -/
def kickLoop (D : Tables) (g : Game) (kickData : KickData) (fromState : Fin 4) (toState : Int) :
    Nat → Nat → Game
  | 0, _ => g
  | n + 1, k =>
    if h : k < 5 then
      let kx := (kickData.offsets fromState ⟨k, h⟩).x
      let ky := (kickData.offsets fromState ⟨k, h⟩).y
      let testPos := g.m_current.position + ⟨kx, ky⟩
      if g.m_board.isValidPosition D g.m_current testPos toState then
        let g := { g with m_current := g.m_current.setPosition testPos }
        let g := { g with m_current := g.m_current.setRotation toState }
        let g := { g with m_lockTimer := 0 }
        updateGhost D g
      else kickLoop D g kickData fromState toState n (k + 1)
    else g

def tryRotate (D : Tables) (g : Game) (direction : Int) : Game :=
  let fromState := g.m_current.m_rotation
  let toState := Int.tmod (g.m_current.rotationState + direction + 4) 4
  if g.m_current.type = TetrominoType.O then g
  else
    let kickData :=
      if g.m_current.type = TetrominoType.I then
        (if direction > 0 then D.SRS_KICKS_I_CW else D.SRS_KICKS_I_CCW)
      else
        (if direction > 0 then D.SRS_KICKS_JLSTZ_CW else D.SRS_KICKS_JLSTZ_CCW)
    kickLoop D g kickData fromState toState 5 0

def addScore (g : Game) (lines : Int) : Game :=
  let g :=
    if lines > 0 ∧ lines ≤ 4 then
      let g := { g with m_score := { g.m_score with
        score := wrapInt32
          (g.m_score.score + LINE_MULTIPLIERS.getD lines.toNat 0 * g.m_score.level) } }
      let g := { g with m_score := { g.m_score with combo := g.m_score.combo + 1 } }
      { g with m_score := { g.m_score with
        score := wrapInt32 (g.m_score.score + 50 * g.m_score.combo * g.m_score.level) } }
    else { g with m_score := { g.m_score with combo := 0 } }
  let g := { g with m_score := { g.m_score with lines := g.m_score.lines + lines } }
  let newLevel := Int.tdiv g.m_score.lines 10 + 1
  if newLevel > g.m_score.level then
    { g with m_score := { g.m_score with level := newLevel },
             m_gravityInterval := gravityInterval newLevel }
  else g

def lockCurrent (D : Tables) (g : Game) : Game :=
  let locked := g.m_board.lockPiece D g.m_current
  let g := { g with m_board := locked.1 }
  let g := addScore g locked.2
  let g := { g with m_holdUsed := false }
  let d := drawFromBag g
  spawnPiece D d.2 d.1

def hardDrop (D : Tables) (g : Game) : Game :=
  let dist := g.m_board.ghostDropDistance D g.m_current
  let g := { g with m_current := g.m_current.setPosition (g.m_current.position + Vector2i.mk 0 dist) }
  let g := { g with m_score := { g.m_score with score := wrapInt32 (g.m_score.score + 2 * dist) } }
  lockCurrent D g

def activateHold (D : Tables) (g : Game) : Game :=
  if g.m_holdUsed then g
  else
    let g := { g with m_holdUsed := true }
    let currentType := g.m_current.type
    match g.m_held with
    | none =>
      let g := { g with m_held := some (Tetromino.new currentType) }
      let d := drawFromBag g
      spawnPiece D d.2 d.1
    | some held =>
      let swapType := held.type
      let g := { g with m_held := some (Tetromino.new currentType) }
      spawnPiece D g swapType

/-- The gravity loop of `update`, `while (m_gravityAccum >= effectiveInterval)`;
`none` when the loop is still running after `fuel` iterations. -/
def gravityLoop (D : Tables) (effectiveInterval : ℚ) : Nat → Game → Option Game
  | 0, g => if g.m_gravityAccum ≥ effectiveInterval then none else some g
  | fuel + 1, g =>
    if g.m_gravityAccum ≥ effectiveInterval then
      let g := { g with m_gravityAccum := D.fsub g.m_gravityAccum effectiveInterval }
      let below := g.m_current.position + ⟨0, 1⟩
      let g :=
        if g.m_board.isValidPosition D g.m_current below g.m_current.rotationState then
          updateGhost D { g with m_current := g.m_current.setPosition below }
        else g
      gravityLoop D effectiveInterval fuel g
    else some g

/-- The pause block of `update` (`if (input.isJustPressed(Action::Pause)) ...`): a
freshly triggered pause toggles Playing and Paused. -/
def pauseToggle (g : Game) (input : InputHandler) : Game :=
  if input.isJustPressed Action.Pause then
    (if g.m_state = GameState.Playing then { g with m_state := GameState.Paused }
     else if g.m_state = GameState.Paused then { g with m_state := GameState.Playing }
     else g)
  else g

/-- The input block of `update` up to the hard-drop test: the two lateral
moves, the two rotations and hold, in this order. -/
def applyInputs (D : Tables) (g : Game) (input : InputHandler) : Game :=
  let g := if input.isActive Action.MoveLeft then tryMove D g (-1) 0 else g
  let g := if input.isActive Action.MoveRight then tryMove D g 1 0 else g
  let g := if input.isJustPressed Action.RotateCW then tryRotate D g 1 else g
  let g := if input.isJustPressed Action.RotateCCW then tryRotate D g (-1) else g
  if input.isJustPressed Action.Hold then activateHold D g else g

/-- The local `effectiveInterval` of `update`: the gravity interval, clamped to
`0.05f` while soft-drop is held. -/
def effectiveInterval (g : Game) (input : InputHandler) : ℚ :=
  if input.isHeld Action.SoftDrop then min g.m_gravityInterval (1 / 20) else g.m_gravityInterval

/-- The state on entry to the gravity loop of `update`: the soft-drop point is
added and `dt` is accumulated. -/
def beforeGravity (D : Tables) (g : Game) (input : InputHandler) (dt : ℚ) : Game :=
  let g :=
    if input.isHeld Action.SoftDrop then
      { g with m_score := { g.m_score with score := wrapInt32 (g.m_score.score + 1) } }
    else g
  { g with m_gravityAccum := D.fadd g.m_gravityAccum dt }

/-- The lock-delay block of `update`, run on the state the gravity loop leaves. -/
def lockDelayStep (D : Tables) (g : Game) (dt : ℚ) : Game :=
  let g := { g with m_onGround := isOnGround D g }
  if g.m_onGround then
    let g := { g with m_lockTimer := D.fadd g.m_lockTimer dt }
    if g.m_lockTimer ≥ g.m_lockDelay then lockCurrent D g else g
  else { g with m_lockTimer := 0 }

/-- The method `Game::update`: the returned flag and the state after the call,
or `none` when the gravity loop has not ended within `fuel` iterations.  The
body is the sequence of the blocks above, in the order of the source. -/
def update (D : Tables) (fuel : Nat) (g : Game) (input : InputHandler) (dt : ℚ) :
    Option (Bool × Game) :=
  if input.isJustPressed Action.Quit then some (false, g)
  else
    let g := pauseToggle g input
    if g.m_state = GameState.GameOver then
      (if input.isJustPressed Action.HardDrop then some (true, reset D g) else some (true, g))
    else if g.m_state = GameState.Paused then some (true, g)
    else
      let g := applyInputs D g input
      if input.isJustPressed Action.HardDrop then some (true, hardDrop D g)
      else
        match gravityLoop D (effectiveInterval g input) fuel (beforeGravity D g input dt) with
        | none => none
        | some g => some (true, lockDelayStep D g dt)

end Game

/-! ## Reference definitions and concrete instances

`clearedBoard` states the intended effect of a line clear in the words of the
specification.  The remaining definitions are concrete tables and states on
which the functions above are evaluated. -/

/-- The board the specification asks of a line clear: the rows of `b` that are
not full, in their original top-to-bottom order, pushed to the bottom, with one
empty row at the top for every full row removed. -/
def clearedBoard (b : Board) : Board :=
  let kept := (List.finRange 22).filter fun r => !b.rowFull r
  let n := 22 - kept.length
  ⟨fun i => if i.val < n then emptyRow else b.m_cells (kept.getD (i.val - n) 0)⟩

namespace Game

/-- The kick table the specification assigns to a kind and a direction: the I
tables for the I kind, the shared tables for the others; clockwise for
direction `+1`, counter-clockwise otherwise. -/
def kickTableFor (D : Tables) (type : TetrominoType) (d : Int) : KickData :=
  if type = TetrominoType.I then (if d = 1 then D.SRS_KICKS_I_CW else D.SRS_KICKS_I_CCW)
  else (if d = 1 then D.SRS_KICKS_JLSTZ_CW else D.SRS_KICKS_JLSTZ_CCW)

/-- The state after `n` successive calls of `drawFromBag`. -/
def afterDraws : Nat → Game → Game
  | 0, g => g
  | n + 1, g => afterDraws n (drawFromBag g).2

/-- The kind returned by call number `n + 1` of `drawFromBag` from state `g`. -/
def nthDraw (g : Game) (n : Nat) : TetrominoType := (drawFromBag (afterDraws n g)).1

/-- The kinds returned by the first `n` calls of `drawFromBag` from state `g`. -/
def drawSeq (n : Nat) (g : Game) : List TetrominoType := (List.range n).map (nthDraw g)

/-- The kinds returned by calls `s + 1, ..., s + len` of `drawFromBag` from state `g`. -/
def window (g : Game) (s len : Nat) : List TetrominoType :=
  (List.range len).map fun j => nthDraw g (s + j)

/-- Entry `i` of the `m`-th group of seven kinds lying ahead of the buffer of
`g`: group 0 is the first half of `m_bag`, group 1 its second half, and group
`m + 2` is the array the `m`-th coming shuffle of `refillBag` produces. -/
def slot (g : Game) : Nat → Nat → TetrominoType
  | 0, i => if h : i < 7 then g.m_bag ⟨i, by omega⟩ else .I
  | 1, i => if h : i < 7 then g.m_bag ⟨i + 7, by omega⟩ else .I
  | m + 2, i => if h : i < 7 then sevenTypes (g.m_rng m ⟨i, h⟩) else .I

/-- The state `g'` has the bag, the cursor, the generator and the score of `g`. -/
def SameBagScore (g' g : Game) : Prop :=
  g'.m_bag = g.m_bag ∧ g'.m_bagIndex = g.m_bagIndex ∧ g'.m_rng = g.m_rng ∧ g'.m_score = g.m_score

/-- The cursor is between 1 and 7, no line count is negative and the level is
the one the line count determines. -/
def CursorLevelOK (g : Game) : Prop :=
  1 ≤ g.m_bagIndex ∧ g.m_bagIndex ≤ 7 ∧ 0 ≤ g.m_score.lines ∧
    g.m_score.level = g.m_score.lines / 10 + 1

/-- The phase is GameOver or the current piece stands on a valid placement. -/
def PieceOK (D : Tables) (g : Game) : Prop :=
  g.m_state = GameState.GameOver ∨
    g.m_board.isValidPosition D g.m_current g.m_current.position g.m_current.rotationState = true

/-- The line-clear award of the specification for `n` cleared rows at level `L`
with combo `c` before the lock: the table entry times the level plus the combo
bonus `50 * (c + 1) * L` when `n` is 1 to 4, nothing otherwise. -/
def lineAward (n L c : Int) : Int :=
  if 0 < n ∧ n ≤ 4 then [0, 40, 100, 300, 1200].getD n.toNat 0 * L + 50 * (c + 1) * L else 0

/-- The stored ghost offset is the drop distance of the current piece on the
current board. -/
def GhostOK (D : Tables) (g : Game) : Prop :=
  g.m_ghostRow = g.m_board.ghostDropDistance D g.m_current

/-- Each 7-slot half of the 14-slot buffer holds every kind exactly once. -/
def BagOK (g : Game) : Prop :=
  Function.Bijective (fun i : Fin 7 => g.m_bag ⟨i.val, by omega⟩) ∧
    Function.Bijective (fun i : Fin 7 => g.m_bag ⟨i.val + 7, by omega⟩)

/-- The level is at least 0, the combo at least -1 and the score an `int`. -/
def ScoreSane (s : ScoreState) : Prop :=
  0 ≤ s.level ∧ -1 ≤ s.combo ∧ -2147483648 ≤ s.score ∧ s.score ≤ 2147483647

/-- Score state `s'` has the line count, the level and the combo of `s`, and
when `s` is sane its score is that of `s` with at most `K` points added, as an
`int`. -/
def ScoreAdds (K : Int) (s s' : ScoreState) : Prop :=
  s'.lines = s.lines ∧ s'.level = s.level ∧ s'.combo = s.combo ∧
    (ScoreSane s → ∃ P : Int, 0 ≤ P ∧ P ≤ K ∧ s'.score = wrapInt32 (s.score + P))

/-- From score state `s` to `s'` neither the line count nor the level falls,
and when `s` is sane so is `s'`, and the score of `s'` is the score of `s` plus
a number of points `P`, as an `int`, where `P` is not negative and is at most
`K` plus the award for four rows at the level and combo of `s`. -/
def ScoreGrows (K : Int) (s s' : ScoreState) : Prop :=
  s.lines ≤ s'.lines ∧ s.level ≤ s'.level ∧
    (ScoreSane s → ScoreSane s' ∧ ∃ P : Int, 0 ≤ P ∧
      P ≤ K + (1200 + 50 * (s.combo + 1)) * s.level ∧ s'.score = wrapInt32 (s.score + P))

/-- A `Game` object as its default member initialisers leave it, before the
constructor body runs; `m_bag` and `m_current` have no initialiser and the
generator has been seeded, so all three are arbitrary. -/
def fresh (rng : Rng) (bag : Fin 14 → TetrominoType) (current : Tetromino) : Game where
  m_board := ⟨fun _ => emptyRow⟩
  m_current := current
  m_held := none
  m_holdUsed := false
  m_bag := bag
  m_bagIndex := 14
  m_rng := rng
  m_score := {}
  m_state := GameState.Playing
  m_gravityAccum := 0
  m_gravityInterval := 1
  m_lockTimer := 0
  m_lockDelay := 1 / 2
  m_onGround := false
  m_ghostRow := 0

/-- The states a run can be in between two calls of `update`: the state the
constructor leaves (`reset` on a fresh object), and every state a returning
call of `update` leaves from such a state, whatever the input and `dt`. -/
inductive Reachable (D : Tables) : Game → Prop where
  | construct (rng : Rng) (bag : Fin 14 → TetrominoType) (current : Tetromino) :
      Reachable D (reset D (fresh rng bag current))
  | step (g g' : Game) (fuel : Nat) (input : InputHandler) (dt : ℚ) (flag : Bool) :
      Reachable D g → update D fuel g input dt = some (flag, g') → Reachable D g'

end Game

/-- A shape or kick table from its rows of `(x, y)` pairs. -/
def tableOf {m n : Nat} (rows : List (List (Int × Int))) : Fin m → Fin n → Vector2i :=
  fun s i => ⟨((rows.getD s.val []).getD i.val (0, 0)).1, ((rows.getD s.val []).getD i.val (0, 0)).2⟩

/-- The guideline (SRS) shapes, with `y` growing downwards, and one colour per
kind: a concrete instance of `TETROMINO_DATA`. -/
def guidelineShapes : TetrominoType → TetrominoData
  | .I => ⟨tableOf [[(0,1),(1,1),(2,1),(3,1)], [(2,0),(2,1),(2,2),(2,3)],
                    [(0,2),(1,2),(2,2),(3,2)], [(1,0),(1,1),(1,2),(1,3)]], ⟨0, 255, 255, 255⟩⟩
  | .J => ⟨tableOf [[(0,0),(0,1),(1,1),(2,1)], [(1,0),(2,0),(1,1),(1,2)],
                    [(0,1),(1,1),(2,1),(2,2)], [(1,0),(1,1),(0,2),(1,2)]], ⟨0, 0, 255, 255⟩⟩
  | .L => ⟨tableOf [[(2,0),(0,1),(1,1),(2,1)], [(1,0),(1,1),(1,2),(2,2)],
                    [(0,1),(1,1),(2,1),(0,2)], [(0,0),(1,0),(1,1),(1,2)]], ⟨255, 165, 0, 255⟩⟩
  | .O => ⟨tableOf [[(1,0),(2,0),(1,1),(2,1)], [(1,0),(2,0),(1,1),(2,1)],
                    [(1,0),(2,0),(1,1),(2,1)], [(1,0),(2,0),(1,1),(2,1)]], ⟨255, 255, 0, 255⟩⟩
  | .S => ⟨tableOf [[(1,0),(2,0),(0,1),(1,1)], [(1,0),(1,1),(2,1),(2,2)],
                    [(1,1),(2,1),(0,2),(1,2)], [(0,0),(0,1),(1,1),(1,2)]], ⟨0, 255, 0, 255⟩⟩
  | .T => ⟨tableOf [[(1,0),(0,1),(1,1),(2,1)], [(1,0),(1,1),(2,1),(1,2)],
                    [(0,1),(1,1),(2,1),(1,2)], [(1,0),(0,1),(1,1),(1,2)]], ⟨128, 0, 128, 255⟩⟩
  | .Z => ⟨tableOf [[(0,0),(1,0),(1,1),(2,1)], [(2,0),(1,1),(2,1),(1,2)],
                    [(0,1),(1,1),(1,2),(2,2)], [(1,0),(0,1),(1,1),(0,2)]], ⟨255, 0, 0, 255⟩⟩

/-- The guideline (SRS) wall kicks with `y` growing downwards, a concrete
instance of the five tables of `tetromino.h`, with exact addition and
subtraction, which `float` agrees with whenever the exact result is a float. -/
def guidelineTables : Tables where
  TETROMINO_DATA := guidelineShapes
  SRS_KICKS_JLSTZ_CW := ⟨tableOf [[(0,0),(-1,0),(-1,-1),(0,2),(-1,2)],
    [(0,0),(1,0),(1,1),(0,-2),(1,-2)], [(0,0),(1,0),(1,-1),(0,2),(1,2)],
    [(0,0),(-1,0),(-1,1),(0,-2),(-1,-2)]]⟩
  SRS_KICKS_JLSTZ_CCW := ⟨tableOf [[(0,0),(1,0),(1,-1),(0,2),(1,2)],
    [(0,0),(1,0),(1,1),(0,-2),(1,-2)], [(0,0),(-1,0),(-1,-1),(0,2),(-1,2)],
    [(0,0),(-1,0),(-1,1),(0,-2),(-1,-2)]]⟩
  SRS_KICKS_I_CW := ⟨tableOf [[(0,0),(-2,0),(1,0),(-2,1),(1,-2)],
    [(0,0),(-1,0),(2,0),(-1,-2),(2,1)], [(0,0),(2,0),(-1,0),(2,-1),(-1,2)],
    [(0,0),(1,0),(-2,0),(1,2),(-2,-1)]]⟩
  SRS_KICKS_I_CCW := ⟨tableOf [[(0,0),(-1,0),(2,0),(-1,-2),(2,1)],
    [(0,0),(2,0),(-1,0),(2,-1),(-1,2)], [(0,0),(1,0),(-2,0),(1,2),(-2,-1)],
    [(0,0),(-2,0),(1,0),(-2,1),(1,-2)]]⟩
  fadd := fun a b => a + b
  fsub := fun a b => a - b

/-- The colour of the cells already on the example boards. -/
def grey : Color := ⟨128, 128, 128, 255⟩

/-- A board from the predicate that says which cells are occupied. -/
def boardOf (occupied : Nat → Nat → Bool) : Board :=
  ⟨fun r c => if occupied r.val c.val then grey else EMPTY_COLOR⟩

/-- Rows 18 to 21 are full but for column 0; above them are three rows that
are not full: row 17 holds columns 1 and 2, row 16 column 3, row 15 column 4. -/
def wellBoard : Board :=
  boardOf fun r c =>
    (decide (18 ≤ r) && decide (c ≠ 0)) || (decide (r = 17) && (decide (c = 1) || decide (c = 2)))
      || (decide (r = 16) && decide (c = 3)) || (decide (r = 15) && decide (c = 4))

/-- A vertical I piece (rotation 1) standing in column 0 on rows 18 to 21. -/
def wellPiece : Tetromino := ⟨.I, ⟨-2, 18⟩, 1⟩

/-- Rows 20 and 21 are full but for columns 4 and 5; row 19 holds column 0
only and row 18 column 1 only. -/
def pitBoard : Board :=
  boardOf fun r c =>
    (decide (20 ≤ r) && decide (c ≠ 4) && decide (c ≠ 5)) || (decide (r = 19) && decide (c = 0))
      || (decide (r = 18) && decide (c = 1))

/-- An O piece filling columns 4 and 5 of rows 20 and 21. -/
def pitPiece : Tetromino := ⟨.O, ⟨3, 20⟩, 0⟩

/-- The generator whose shuffles all leave their argument in place. -/
def identityRng : Rng := fun _ => Equiv.refl _

/-- The generator whose third shuffle rotates its argument by three places and
whose other shuffles leave theirs in place. -/
def rotatedRng : Rng := fun n => if n = 2 then Equiv.addLeft (3 : Fin 7) else Equiv.refl _

/-- The state the constructor leaves with the guideline tables and `identityRng`. -/
def startGame : Game :=
  Game.reset guidelineTables (Game.fresh identityRng (fun _ => .I) (Tetromino.new .I))

/-- A vertical T piece (rotation 1) against the left wall of an empty board. -/
def wallGame : Game := { startGame with m_current := ⟨.T, ⟨-1, 10⟩, 1⟩ }

/-- The handler state in which exactly the listed actions are held, freshly
pressed and firing in this frame. -/
def pressed (actions : List Action) : InputHandler :=
  ⟨fun a => if a ∈ actions then { held := true, justPressed := true, firedThisFrame := true }
    else {}⟩

/-- Every cell from row 2 down is occupied except columns 5 and 6, which form a
well two cells wide. -/
def towerBoard : Board :=
  boardOf fun r c => decide (2 ≤ r) && decide (c ≠ 5) && decide (c ≠ 6)

/-- A Playing state on `towerBoard`: the O piece sits at the spawn anchor, above
the well, a T piece is held and hold is available. -/
def towerGame : Game :=
  { startGame with
    m_board := towerBoard, m_current := ⟨.O, ⟨4, 1⟩, 0⟩, m_held := some (Tetromino.new .T),
    m_holdUsed := false }

/-- The state after `n` ticks from `startGame`, hard-drop freshly pressed in each. -/
def dropped : Nat → Game
  | 0 => startGame
  | n + 1 => Game.hardDrop guidelineTables (dropped n)

/-- One call of `update` on the guideline tables with the listed actions
pressed and `dt = 0`; the state is kept if the call does not return. -/
def tick (g : Game) (actions : List Action) : Game :=
  match Game.update guidelineTables 1 g (pressed actions) 0 with
  | some r => r.2
  | none => g

/-- The state after the constructor and one tick per entry of the script. -/
def played (script : List (List Action)) : Game := script.foldl tick startGame

/-- Ten ticks that complete the bottom row: the I piece is moved to the left
wall and dropped, the J piece is dropped where it spawns, the L piece is moved
to the right wall and dropped. -/
def firstLineScript : List (List Action) :=
  [[.MoveLeft], [.MoveLeft], [.MoveLeft], [.MoveLeft], [.HardDrop], [.HardDrop],
   [.MoveRight], [.MoveRight], [.MoveRight], [.HardDrop]]

/-- Modelled from the spec: the property of the absent shape table that a new
piece of any kind, at the spawn anchor with rotation state 0, lies on the grid. -/
def SpawnFits (D : Tables) : Prop :=
  ∀ t : TetrominoType, ∀ c ∈ (Tetromino.new t).worldCellsAt D ⟨4, 1⟩ 0,
    0 ≤ c.x ∧ c.x < 10 ∧ 0 ≤ c.y ∧ c.y < 22

/-- Columns 5 and 6 are occupied from row 3 down, all else is empty. -/
def stackedBoard : Board :=
  boardOf fun r c => decide (3 ≤ r) && (decide (c = 5) || decide (c = 6))

/-- A Paused state on `stackedBoard`: the O piece rests at the spawn anchor on
top of the stack and the lock timer stands at 0.45. -/
def pausedGame : Game :=
  { startGame with
    m_board := stackedBoard, m_current := ⟨.O, ⟨4, 1⟩, 0⟩, m_state := GameState.Paused,
    m_lockTimer := 9 / 20, m_onGround := true }

/-- Row 21 is occupied in every column but 9, and row 20 in column 0 only. -/
def lastGapBoard : Board :=
  boardOf fun r c => (decide (r = 21) && decide (c ≠ 9)) || (decide (r = 20) && decide (c = 0))

/-- A vertical I piece (rotation 1) standing in column 9 on rows 18 to 21. -/
def lastGapPiece : Tetromino := ⟨.I, ⟨7, 18⟩, 1⟩

/-- The board a sequence of `lockPiece` calls makes of the empty board. -/
def lockAll (D : Tables) (pieces : List Tetromino) : Board :=
  pieces.foldl (fun b p => (b.lockPiece D p).1) ⟨fun _ => emptyRow⟩

/-- Twenty pieces: three horizontal I pieces on each of rows 15 to 19 cover
columns 1 to 9, two on each of rows 20 and 21 cover columns 0 to 7, and an O
piece then fills columns 8 and 9 of rows 20 and 21. -/
def fiveRowScript : List Tetromino :=
  ([15, 16, 17, 18, 19].flatMap fun y =>
      [(⟨.I, ⟨1, y - 1⟩, 0⟩ : Tetromino), ⟨.I, ⟨5, y - 1⟩, 0⟩, ⟨.I, ⟨6, y - 1⟩, 0⟩]) ++
    [⟨.I, ⟨0, 19⟩, 0⟩, ⟨.I, ⟨4, 19⟩, 0⟩, ⟨.I, ⟨0, 20⟩, 0⟩, ⟨.I, ⟨4, 20⟩, 0⟩, ⟨.O, ⟨7, 20⟩, 0⟩]

/-- A vertical I piece (rotation 1) standing in column 0 on rows 17 to 20. -/
def fiveRowPiece : Tetromino := ⟨.I, ⟨-2, 17⟩, 1⟩

/-- The state `g` with the score replaced by `s`. -/
def withScore (g : Game) (s : Int) : Game := { g with m_score := { g.m_score with score := s } }

/-- The state `startGame` with the score at the largest `int`; ticks with
soft-drop held and `dt = 0` lead to it from `startGame`. -/
def maxScoreGame : Game := withScore startGame 2147483647

/-- The power `2 ^ e` for an integer exponent. -/
def pow2 (e : Int) : ℚ := if 0 ≤ e then (2 : ℚ) ^ e.toNat else 1 / (2 : ℚ) ^ (-e).toNat

/-- The number of halvings that take `n` below 2, at most `fuel` of them: the
position of the leading binary digit of `n` when `n < 2 ^ fuel`. -/
def log2Nat : Nat → Nat → Nat
  | 0, _ => 0
  | fuel + 1, n => if n < 2 then 0 else log2Nat fuel (n / 2) + 1

/-- The exponent `e` with `2 ^ e ≤ a < 2 ^ (e + 1)`, for `a` positive with
numerator and denominator below `2 ^ 256`. -/
def log2Floor (a : ℚ) : Int :=
  let e : Int := (log2Nat 256 a.num.toNat : Int) - (log2Nat 256 a.den : Int)
  if pow2 e ≤ a then e else e - 1

/-- The integer nearest to `x`, the even one of the two when `x` lies half way. -/
def roundHalfEven (x : ℚ) : Int :=
  let f : Int := x.num / (x.den : Int)
  let r : ℚ := x - (f : ℚ)
  if r < 1 / 2 then f else if 1 / 2 < r then f + 1 else if f % 2 = 0 then f else f + 1

/-- The IEEE 754 binary32 value nearest to `q`, ties to even (24 significant
bits, least exponent -126, subnormals included), for `q` below the overflow
threshold `2 ^ 128`. -/
def roundFloat32 (q : ℚ) : ℚ :=
  if q = 0 then 0
  else
    let a : ℚ := |q|
    let e : Int := max (log2Floor a) (-126)
    let quantum : ℚ := pow2 (e - 23)
    let m : ℚ := ((roundHalfEven (a / quantum) : Int) : ℚ) * quantum
    if q < 0 then -m else m

/-- The guideline tables with binary32 arithmetic in the timers: the float sum
and difference are the exact ones rounded to the nearest binary32 value. -/
def float32Tables : Tables :=
  { guidelineTables with
    fadd := fun a b => roundFloat32 (a + b)
    fsub := fun a b => roundFloat32 (a - b) }

/-- One call of `update` on `float32Tables` with no key held and the frame time
`dt`; the state is kept if the call does not return. -/
def floatTick (g : Game) (dt : ℚ) : Game :=
  match Game.update float32Tables 32 g (pressed []) dt with
  | some r => r.2
  | none => g

/-- The state after the constructor and two frames of 18.75 s and of 0.45f
(the binary32 value 7549747 / 16777216) on `float32Tables`: gravity has moved
the I piece down 19 rows to the floor in the second frame, and the lock timer
holds that frame time. -/
def restingGame : Game :=
  floatTick (floatTick (Game.reset float32Tables (Game.fresh identityRng (fun _ => .I)
    (Tetromino.new .I))) (75 / 4)) (7549747 / 16777216)

/-! ## Theorems -/

theorem wrapInt32_of_range (x : Int) (h1 : -2147483648 ≤ x) (h2 : x ≤ 2147483647) :
    wrapInt32 x = x := by
  unfold wrapInt32
  omega

theorem wrapInt32_add_wrap (a b : Int) : wrapInt32 (wrapInt32 a + b) = wrapInt32 (a + b) := by
  unfold wrapInt32
  omega

theorem wrapInt32_range (x : Int) : -2147483648 ≤ wrapInt32 x ∧ wrapInt32 x ≤ 2147483647 := by
  unfold wrapInt32
  omega

namespace Board

theorem isInBounds_iff (b : Board) (col row : Int) :
    b.isInBounds col row = true ↔ 0 ≤ col ∧ col < 10 ∧ 0 ≤ row ∧ row < 22 := by
  simp [isInBounds, BOARD_COLS, BOARD_ROWS_TOTAL, and_assoc]

theorem validCells_iff (b : Board) (cells : List Vector2i) :
    b.validCells cells = true ↔
      ∀ c ∈ cells, ∃ h : b.isInBounds c.x c.y = true, b.cellAt c.x c.y h = EMPTY_COLOR := by
  induction cells with
  | nil => simp [validCells]
  | cons c rest ih =>
    by_cases h : b.isInBounds c.x c.y = true
    · by_cases hc : b.cellAt c.x c.y h = EMPTY_COLOR
      · simp [validCells, h, hc, ih]
      · simp [validCells, h, hc]
    · simp [validCells, h]

theorem isOccupied_eq_false_iff (b : Board) (col row : Int) :
    b.isOccupied col row = false ↔
      ∃ h : b.isInBounds col row = true, b.cellAt col row h = EMPTY_COLOR := by
  by_cases h : b.isInBounds col row = true
  · simp [isOccupied, h]
  · simp [isOccupied, h]

theorem cellAt_empty_iff (b : Board) (col row : Int) :
    (∃ h : b.isInBounds col row = true, b.cellAt col row h = EMPTY_COLOR) ↔
      ∃ r : Fin 22, ∃ k : Fin 10, (r.val : Int) = row ∧ (k.val : Int) = col ∧
        b.m_cells r k = EMPTY_COLOR := by
  constructor
  · rintro ⟨h, hc⟩
    have hb := (b.isInBounds_iff col row).1 h
    refine ⟨b.rowIndex col row h, b.colIndex col row h, ?_, ?_, hc⟩
    · simp only [rowIndex]; omega
    · simp only [colIndex]; omega
  · rintro ⟨r, k, hr, hk, hc⟩
    have h : b.isInBounds col row = true := by
      rw [isInBounds_iff]; have := r.isLt; have := k.isLt; omega
    refine ⟨h, ?_⟩
    have e1 : b.rowIndex col row h = r := by
      apply Fin.ext; simp only [rowIndex]; omega
    have e2 : b.colIndex col row h = k := by
      apply Fin.ext; simp only [colIndex]; omega
    simp only [cellAt, e1, e2, hc]

/-- C3. `isValidPosition` is true exactly when each of the 4 cells of the piece
at the tested position and rotation is a cell `(k, r)` of the grid
`[0,10) x [0,22)` that is empty on the board; equivalently, exactly when
`isOccupied` is false for all 4 cells.  A cell with a negative column or row, a
column of 10 or more, or a row of 22 or more makes it false. -/
theorem isValidPosition_iff_cells_in_bounds_and_empty (D : Tables) (b : Board)
    (piece : Tetromino) (testPos : Vector2i) (testRotation : Int) :
    (piece.worldCellsAt D testPos testRotation).length = 4 ∧
    (b.isValidPosition D piece testPos testRotation = true ↔
      ∀ c ∈ piece.worldCellsAt D testPos testRotation,
        ∃ r : Fin 22, ∃ k : Fin 10, (r.val : Int) = c.y ∧ (k.val : Int) = c.x ∧
          b.m_cells r k = EMPTY_COLOR) ∧
    (b.isValidPosition D piece testPos testRotation = true ↔
      ∀ c ∈ piece.worldCellsAt D testPos testRotation, b.isOccupied c.x c.y = false) ∧
    (∀ c ∈ piece.worldCellsAt D testPos testRotation,
      (c.x < 0 ∨ c.y < 0 ∨ 10 ≤ c.x ∨ 22 ≤ c.y) →
        b.isOccupied c.x c.y = true ∧ b.isValidPosition D piece testPos testRotation = false) := by
  have key : b.isValidPosition D piece testPos testRotation = true ↔
      ∀ c ∈ piece.worldCellsAt D testPos testRotation,
        ∃ h : b.isInBounds c.x c.y = true, b.cellAt c.x c.y h = EMPTY_COLOR :=
    b.validCells_iff _
  refine ⟨by simp [Tetromino.worldCellsAt], ?_, ?_, ?_⟩
  · rw [key]
    exact forall₂_congr fun c _ => b.cellAt_empty_iff c.x c.y
  · rw [key]
    exact forall₂_congr fun c _ => (b.isOccupied_eq_false_iff c.x c.y).symm
  · intro c hc hout
    have hnb : ¬ b.isInBounds c.x c.y = true := by
      rw [isInBounds_iff]; omega
    refine ⟨by simp [isOccupied, hnb], ?_⟩
    cases hv : b.isValidPosition D piece testPos testRotation with
    | false => rfl
    | true => exact absurd (key.1 hv c hc).1 hnb

/-- C1 (the code at a failing input). A vertical I piece completes rows 18 to 21
of `wellBoard`. `lockPiece` returns 4, yet the board it leaves is not the board
of the remaining rows: rows 20 and 21 are still full, and the contents of rows
17 and 15 are gone (the row that held columns 1 and 2 is nowhere, row 19
holds what was row 16). -/
theorem lockPiece_four_rows_drift :
    (wellBoard.writeCells (wellPiece.color guidelineTables)
        (wellPiece.worldCells guidelineTables)).findFullRows = [18, 19, 20, 21] ∧
    (lockPiece guidelineTables wellBoard wellPiece).2 = 4 ∧
    (lockPiece guidelineTables wellBoard wellPiece).1.findFullRows = [20, 21] ∧
    (∀ r : Fin 22, (lockPiece guidelineTables wellBoard wellPiece).1.m_cells r 1
        = EMPTY_COLOR ∨ (lockPiece guidelineTables wellBoard wellPiece).1.rowFull r = true) ∧
    (clearedBoard (wellBoard.writeCells (wellPiece.color guidelineTables)
        (wellPiece.worldCells guidelineTables))).m_cells 21 1 ≠ EMPTY_COLOR ∧
    (clearedBoard (wellBoard.writeCells (wellPiece.color guidelineTables)
        (wellPiece.worldCells guidelineTables))).findFullRows = [] ∧
    (lockPiece guidelineTables wellBoard wellPiece).1.m_cells ≠
      (clearedBoard (wellBoard.writeCells (wellPiece.color guidelineTables)
        (wellPiece.worldCells guidelineTables))).m_cells := by
  refine ⟨by decide, by decide, by decide, by decide, by decide, by decide, ?_⟩
  intro h
  have h2 := congrFun (congrFun h 21) 0
  revert h2
  decide

/-- C2 (the code at a failing input). An O piece completes the adjacent rows 20
and 21 of `pitBoard`. After `lockPiece` row 21 still has all 10 columns
occupied, and row 19 of the board as written, which was not full, has been
removed in its place: row 20 now holds what was row 18 and no row holds what
was row 19. -/
theorem lockPiece_adjacent_rows_skip :
    (pitBoard.writeCells (pitPiece.color guidelineTables)
        (pitPiece.worldCells guidelineTables)).findFullRows = [20, 21] ∧
    (lockPiece guidelineTables pitBoard pitPiece).2 = 2 ∧
    (lockPiece guidelineTables pitBoard pitPiece).1.rowFull 21 = true ∧
    (∀ c : Fin 10, (lockPiece guidelineTables pitBoard pitPiece).1.m_cells 21 c ≠ EMPTY_COLOR) ∧
    (pitBoard.writeCells (pitPiece.color guidelineTables)
        (pitPiece.worldCells guidelineTables)).rowFull 19 = false ∧
    (lockPiece guidelineTables pitBoard pitPiece).1.m_cells 20 =
      (pitBoard.writeCells (pitPiece.color guidelineTables)
        (pitPiece.worldCells guidelineTables)).m_cells 18 ∧
    (∀ r : Fin 22, (lockPiece guidelineTables pitBoard pitPiece).1.m_cells r ≠
      (pitBoard.writeCells (pitPiece.color guidelineTables)
        (pitPiece.worldCells guidelineTables)).m_cells 19) := by
  refine ⟨by decide, by decide, by decide, by decide, by decide, by decide, ?_⟩
  intro r h
  have h0 := congrFun h 0
  revert h0
  revert r
  decide

end Board

namespace Game

theorem kickLoop_first_valid (D : Tables) (g : Game) (kd : KickData) (fromState : Fin 4)
    (toState : Int) (k0 : Fin 5)
    (hv : g.m_board.isValidPosition D g.m_current
      (g.m_current.position + kd.offsets fromState k0) toState = true) :
    ∀ n k, n + k = 5 → k ≤ k0.val →
      (∀ j : Fin 5, k ≤ j.val → j < k0 → g.m_board.isValidPosition D g.m_current
        (g.m_current.position + kd.offsets fromState j) toState = false) →
      kickLoop D g kd fromState toState n k =
        updateGhost D { g with
          m_current := (g.m_current.setPosition
            (g.m_current.position + kd.offsets fromState k0)).setRotation toState,
          m_lockTimer := 0 } := by
  intro n
  induction n with
  | zero => intro k hk hle; have := k0.isLt; omega
  | succ n ih =>
    intro k hk hle hmin
    have hk5 : k < 5 := by omega
    by_cases hkk : k = k0.val
    · have e : (⟨k, hk5⟩ : Fin 5) = k0 := Fin.ext hkk
      simp only [kickLoop, hk5, dite_true, e]
      rw [if_pos hv]
    · have hlt : (⟨k, hk5⟩ : Fin 5) < k0 := by
        simp only [Fin.lt_def]; omega
      have hf := hmin ⟨k, hk5⟩ (le_refl _) hlt
      simp only [kickLoop, hk5, dite_true]
      rw [if_neg (by simpa using hf)]
      exact ih (k + 1) (by omega) (by omega) (fun j hj hjlt => hmin j (by omega) hjlt)

theorem kickLoop_none_valid (D : Tables) (g : Game) (kd : KickData) (fromState : Fin 4)
    (toState : Int)
    (hnone : ∀ j : Fin 5, g.m_board.isValidPosition D g.m_current
      (g.m_current.position + kd.offsets fromState j) toState = false) :
    ∀ n k, kickLoop D g kd fromState toState n k = g := by
  intro n
  induction n with
  | zero => intro k; rfl
  | succ n ih =>
    intro k
    by_cases hk5 : k < 5
    · simp only [kickLoop, hk5, dite_true]
      rw [if_neg (by simpa using hnone ⟨k, hk5⟩)]
      exact ih (k + 1)
    · simp only [kickLoop, hk5, dite_false]

theorem tryRotate_eq_kickLoop (D : Tables) (g : Game) (d : Int) (hd : d = 1 ∨ d = -1)
    (hO : g.m_current.m_type ≠ TetrominoType.O) :
    tryRotate D g d =
      kickLoop D g (kickTableFor D g.m_current.m_type d) g.m_current.m_rotation
        ((g.m_current.m_rotation.val + d) % 4) 5 0 := by
  have hto : Int.tmod (g.m_current.rotationState + d + 4) 4
      = ((g.m_current.m_rotation.val : Int) + d) % 4 := by
    have := g.m_current.m_rotation.isLt
    simp only [Tetromino.rotationState]
    rw [Int.tmod_eq_emod (by omega) (by omega)]
    omega
  have hkd : (if g.m_current.type = TetrominoType.I then
        (if d > 0 then D.SRS_KICKS_I_CW else D.SRS_KICKS_I_CCW)
      else (if d > 0 then D.SRS_KICKS_JLSTZ_CW else D.SRS_KICKS_JLSTZ_CCW))
      = kickTableFor D g.m_current.m_type d := by
    rcases hd with rfl | rfl <;> simp [kickTableFor, Tetromino.type]
  simp only [tryRotate, hto, hkd]
  rw [if_neg (by simpa [Tetromino.type] using hO)]

/-- C4. For a direction `d` of `+1` or `-1`, with `from` the current rotation,
`to = (from + d) mod 4` and the kick table chosen by kind and direction: when
the piece is not the O kind and `k0` is the smallest attempt in `0..4` whose
placement `position + kick[from][k0]` with rotation `to` is valid, `tryRotate`
puts the piece at that placement with rotation `to` and sets the lock timer to
0; when no attempt is valid, or the piece is the O kind, the whole game state
is unchanged. -/
theorem tryRotate_applies_first_valid_kick (D : Tables) (g : Game) (d : Int)
    (hd : d = 1 ∨ d = -1) :
    (g.m_current.m_type = TetrominoType.O → tryRotate D g d = g) ∧
    (g.m_current.m_type ≠ TetrominoType.O →
      (∀ k0 : Fin 5,
        g.m_board.isValidPosition D g.m_current
          (g.m_current.m_pos + (kickTableFor D g.m_current.m_type d).offsets
            g.m_current.m_rotation k0) ((g.m_current.m_rotation.val + d) % 4) = true →
        (∀ j : Fin 5, j < k0 → g.m_board.isValidPosition D g.m_current
          (g.m_current.m_pos + (kickTableFor D g.m_current.m_type d).offsets
            g.m_current.m_rotation j) ((g.m_current.m_rotation.val + d) % 4) = false) →
        (tryRotate D g d).m_current.m_pos =
            g.m_current.m_pos + (kickTableFor D g.m_current.m_type d).offsets
              g.m_current.m_rotation k0 ∧
          ((tryRotate D g d).m_current.m_rotation.val : Int)
            = (g.m_current.m_rotation.val + d) % 4 ∧
          (tryRotate D g d).m_current.m_type = g.m_current.m_type ∧
          (tryRotate D g d).m_lockTimer = 0) ∧
      ((∀ j : Fin 5, g.m_board.isValidPosition D g.m_current
          (g.m_current.m_pos + (kickTableFor D g.m_current.m_type d).offsets
            g.m_current.m_rotation j) ((g.m_current.m_rotation.val + d) % 4) = false) →
        tryRotate D g d = g)) := by
  refine ⟨fun hO => by simp [tryRotate, Tetromino.type, hO], fun hO => ⟨?_, ?_⟩⟩
  · intro k0 hv hmin
    rw [tryRotate_eq_kickLoop D g d hd hO,
      kickLoop_first_valid D g _ _ _ k0 hv 5 0 rfl (Nat.zero_le _) (fun j _ hj => hmin j hj)]
    refine ⟨rfl, ?_, rfl, rfl⟩
    have := g.m_current.m_rotation.isLt
    simp only [updateGhost, Tetromino.setRotation, Tetromino.maskRotation]
    omega
  · intro hnone
    rw [tryRotate_eq_kickLoop D g d hd hO]
    exact kickLoop_none_valid D g _ _ _ hnone 5 0

/-- Witness for C4: the vertical T piece of `wallGame` cannot turn clockwise in
place against the left wall (attempt 0 is invalid); attempt 1 is valid, and
`tryRotate` moves the piece one column to the right with rotation 2. -/
theorem tryRotate_wall_kick_witness :
    ((1 : Int) = 1 ∨ (1 : Int) = -1) ∧
    wallGame.m_current.m_type ≠ TetrominoType.O ∧
    wallGame.m_board.isValidPosition guidelineTables wallGame.m_current
      (wallGame.m_current.m_pos + (kickTableFor guidelineTables wallGame.m_current.m_type
        1).offsets wallGame.m_current.m_rotation 0) ((wallGame.m_current.m_rotation.val + 1) % 4)
      = false ∧
    (tryRotate guidelineTables wallGame 1).m_current.m_pos = ⟨0, 10⟩ ∧
    ((tryRotate guidelineTables wallGame 1).m_current.m_rotation.val : Int) = 2 ∧
    (tryRotate guidelineTables wallGame 1).m_current.m_type = TetrominoType.T ∧
    (tryRotate guidelineTables wallGame 1).m_lockTimer = 0 := by
  refine ⟨Or.inl rfl, by decide, by decide, ?_⟩
  exact ((tryRotate_applies_first_valid_kick guidelineTables wallGame 1 (Or.inl rfl)).2
    (by decide)).1 1 (by decide) (by decide)

theorem finRange_seven : List.finRange 7 = [0, 1, 2, 3, 4, 5, 6] := by decide

theorem copySecondHalf_apply (bag : Fin 14 → TetrominoType) (src : Fin 7 → TetrominoType)
    (j : Fin 14) :
    copySecondHalf bag src j = if h : 7 ≤ j.val then src ⟨j.val - 7, by omega⟩ else bag j := by
  simp only [copySecondHalf, finRange_seven, List.foldl]
  fin_cases j <;> simp [Function.update]

theorem copyFirstHalf_apply (bag : Fin 14 → TetrominoType) (src : Fin 7 → TetrominoType)
    (j : Fin 14) :
    copyFirstHalf bag src j = if h : j.val < 7 then src ⟨j.val, h⟩ else bag j := by
  simp only [copyFirstHalf, finRange_seven, List.foldl]
  fin_cases j <;> simp [Function.update]

theorem shiftSecondHalf_apply (bag : Fin 14 → TetrominoType) (j : Fin 14) :
    shiftSecondHalf bag j = if h : j.val < 7 then bag ⟨j.val + 7, by omega⟩ else bag j := by
  simp only [shiftSecondHalf, finRange_seven, List.foldl]
  fin_cases j <;> simp [Function.update]

theorem drawFromBag_of_lt (g : Game) (h : g.m_bagIndex < 7) :
    drawFromBag g = (g.m_bag ⟨g.m_bagIndex, by omega⟩, { g with m_bagIndex := g.m_bagIndex + 1 }) := by
  simp [drawFromBag, takeSlot, Nat.not_le.2 h]

theorem drawFromBag_of_ge (g : Game) (h : 7 ≤ g.m_bagIndex) :
    drawFromBag g = ((refillBag g).m_bag 0, { refillBag g with m_bagIndex := 1 }) := by
  simp [drawFromBag, takeSlot, h]

theorem slot_after_draw_of_lt (g : Game) (h : g.m_bagIndex < 7) (m i : Nat) :
    slot (drawFromBag g).2 m i = slot g m i := by
  rw [drawFromBag_of_lt g h]
  match m with
  | 0 => rfl
  | 1 => rfl
  | m + 2 => rfl

theorem slot_after_draw_of_ge (g : Game) (h : 7 ≤ g.m_bagIndex) (m i : Nat) :
    slot (drawFromBag g).2 m i = slot g (m + 1) i := by
  rw [drawFromBag_of_ge g h]
  by_cases hi : i < 7
  · match m with
    | 0 =>
      simp only [slot, hi, dite_true, refillBag, copySecondHalf_apply, shiftSecondHalf_apply]
      simp [hi, Nat.not_le.2 hi]
    | 1 =>
      simp only [slot, hi, dite_true, refillBag, copySecondHalf_apply, shuffle]
      simp
    | m + 2 => simp [slot, hi, refillBag, shuffle]
  · match m with
    | 0 => simp [slot, hi]
    | 1 => simp [slot, hi]
    | m + 2 => simp [slot, hi]

/-- Call number `n + 1` of `drawFromBag` returns entry `(cursor + n) mod 7` of
group `(cursor + n) / 7`. -/
theorem nthDraw_eq_slot (n : Nat) : ∀ g : Game, g.m_bagIndex ≤ 7 →
    nthDraw g n = slot g ((g.m_bagIndex + n) / 7) ((g.m_bagIndex + n) % 7) := by
  induction n with
  | zero =>
    intro g hg
    by_cases h : g.m_bagIndex < 7
    · simp only [nthDraw, afterDraws, drawFromBag_of_lt g h, Nat.add_zero]
      rw [Nat.div_eq_of_lt h, Nat.mod_eq_of_lt h]
      simp [slot, h]
    · have h7 : g.m_bagIndex = 7 := by omega
      have h0 : (0 : Nat) < 7 := by decide
      simp only [nthDraw, afterDraws, drawFromBag_of_ge g (by omega), Nat.add_zero, h7]
      simp only [refillBag, copySecondHalf_apply, shiftSecondHalf_apply]
      simp [slot]
  | succ n ih =>
    intro g hg
    have e : nthDraw g (n + 1) = nthDraw (drawFromBag g).2 n := rfl
    by_cases h : g.m_bagIndex < 7
    · rw [e, ih _ (by rw [drawFromBag_of_lt g h]; exact h), slot_after_draw_of_lt g h]
      have : (drawFromBag g).2.m_bagIndex = g.m_bagIndex + 1 := by rw [drawFromBag_of_lt g h]
      rw [this]
      congr 2 <;> omega
    · have h7 : g.m_bagIndex = 7 := by omega
      have hi : (drawFromBag g).2.m_bagIndex = 1 := by rw [drawFromBag_of_ge g (by omega)]
      rw [e, ih _ (by omega), slot_after_draw_of_ge g (by omega), hi, h7]
      congr 1 <;> omega

theorem sevenTypes_bijective : Function.Bijective sevenTypes := by
  constructor
  · intro a b h
    fin_cases a <;> fin_cases b <;> first | rfl | (exact absurd h (by decide))
  · intro t
    cases t
    · exact ⟨0, rfl⟩
    · exact ⟨1, rfl⟩
    · exact ⟨2, rfl⟩
    · exact ⟨3, rfl⟩
    · exact ⟨4, rfl⟩
    · exact ⟨5, rfl⟩
    · exact ⟨6, rfl⟩

theorem resetFields_bagIndex (g : Game) : (resetFields g).m_bagIndex = 0 := rfl

theorem slot_resetFields_bijective (g : Game) (m : Nat) :
    Function.Bijective fun i : Fin 7 => slot (resetFields g) m i.val := by
  match m with
  | 0 =>
    have e : (fun i : Fin 7 => slot (resetFields g) 0 i.val)
        = sevenTypes ∘ (g.m_rng 0) := by
      funext i
      have hi := i.isLt
      simp only [slot, hi, dite_true, resetFields, copySecondHalf_apply, copyFirstHalf_apply,
        shuffle]
      simp [Nat.not_le.2 hi, hi]
    rw [e]
    exact sevenTypes_bijective.comp (g.m_rng 0).bijective
  | 1 =>
    have e : (fun i : Fin 7 => slot (resetFields g) 1 i.val)
        = sevenTypes ∘ (g.m_rng 0) ∘ (g.m_rng 1) := by
      funext i
      have hi := i.isLt
      simp only [slot, hi, dite_true, resetFields, copySecondHalf_apply, shuffle]
      simp
    rw [e]
    exact sevenTypes_bijective.comp ((g.m_rng 0).bijective.comp (g.m_rng 1).bijective)
  | m + 2 =>
    have e : (fun i : Fin 7 => slot (resetFields g) (m + 2) i.val)
        = sevenTypes ∘ (g.m_rng (m + 2)) := by
      funext i
      have hi := i.isLt
      simp [slot, hi, resetFields, shuffle]
    rw [e]
    exact sevenTypes_bijective.comp (g.m_rng (m + 2)).bijective

theorem nthDraw_resetFields (g : Game) (n : Nat) :
    nthDraw (resetFields g) n = slot (resetFields g) (n / 7) (n % 7) := by
  have := nthDraw_eq_slot n (resetFields g) (by simp [resetFields_bagIndex])
  simpa [resetFields_bagIndex] using this

theorem window_seven_eq_ofFn (g : Game) (k : Nat) :
    window (resetFields g) (7 * k) 7
      = List.ofFn fun i : Fin 7 => slot (resetFields g) k i.val := by
  rw [List.ofFn_eq_map]
  simp only [window]
  rw [← List.map_coe_finRange 7, List.map_map]
  apply List.map_congr_left
  intro i _
  have hi := i.isLt
  simp only [Function.comp, nthDraw_resetFields]
  congr 1
  · omega
  · omega

theorem window_add (g : Game) (s a b : Nat) :
    window g s (a + b) = window g s a ++ window g (s + a) b := by
  simp only [window, List.range_add, List.map_append, List.map_map]
  congr 1
  apply List.map_congr_left
  intro j _
  simp [Function.comp, Nat.add_assoc]

theorem count_window_seven (g : Game) (k : Nat) (t : TetrominoType) :
    (window (resetFields g) (7 * k) 7).count t = 1 := by
  rw [window_seven_eq_ofFn]
  have hb := slot_resetFields_bijective g k
  apply List.count_eq_one_of_mem (List.nodup_ofFn.2 hb.1)
  rw [List.mem_ofFn]
  exact hb.2 t

theorem SameBagScore.rfl' (g : Game) : SameBagScore g g := ⟨rfl, rfl, rfl, rfl⟩

theorem SameBagScore.trans {a b c : Game} (h1 : SameBagScore a b) (h2 : SameBagScore b c) :
    SameBagScore a c :=
  ⟨h1.1.trans h2.1, h1.2.1.trans h2.2.1, h1.2.2.1.trans h2.2.2.1, h1.2.2.2.trans h2.2.2.2⟩

theorem updateGhost_same (D : Tables) (g : Game) : SameBagScore (updateGhost D g) g :=
  ⟨rfl, rfl, rfl, rfl⟩

theorem spawnPiece_same (D : Tables) (g : Game) (t : TetrominoType) :
    SameBagScore (spawnPiece D g t) g := by
  unfold spawnPiece
  simp only []
  split_ifs <;> exact ⟨rfl, rfl, rfl, rfl⟩

theorem tryMove_same (D : Tables) (g : Game) (dx dy : Int) :
    SameBagScore (tryMove D g dx dy) g := by
  unfold tryMove
  simp only []
  split_ifs <;> exact ⟨rfl, rfl, rfl, rfl⟩

theorem kickLoop_same (D : Tables) (g : Game) (kd : KickData) (fromState : Fin 4)
    (toState : Int) : ∀ n k, SameBagScore (kickLoop D g kd fromState toState n k) g := by
  intro n
  induction n with
  | zero => intro k; exact ⟨rfl, rfl, rfl, rfl⟩
  | succ n ih =>
    intro k
    unfold kickLoop
    simp only []
    split_ifs
    · exact ⟨rfl, rfl, rfl, rfl⟩
    · exact ih (k + 1)
    · exact ⟨rfl, rfl, rfl, rfl⟩

theorem tryRotate_same (D : Tables) (g : Game) (d : Int) :
    SameBagScore (tryRotate D g d) g := by
  unfold tryRotate
  simp only []
  split_ifs <;> first | exact ⟨rfl, rfl, rfl, rfl⟩ | exact kickLoop_same D g _ _ _ 5 0

theorem gravityLoop_same (D : Tables) (eff : ℚ) :
    ∀ (fuel : Nat) (g g' : Game), gravityLoop D eff fuel g = some g' →
      SameBagScore g' g := by
  intro fuel
  induction fuel with
  | zero =>
    intro g g' h
    unfold gravityLoop at h
    split_ifs at h
    cases h
    exact ⟨rfl, rfl, rfl, rfl⟩
  | succ fuel ih =>
    intro g g' h
    unfold gravityLoop at h
    simp only [] at h
    split_ifs at h
    · have r := ih _ _ h
      exact r
    · have r := ih _ _ h
      exact r
    · cases h; exact ⟨rfl, rfl, rfl, rfl⟩

theorem drawFromBag_cursor (g : Game) :
    1 ≤ (drawFromBag g).2.m_bagIndex ∧ (drawFromBag g).2.m_bagIndex ≤ 7 ∧
      (drawFromBag g).2.m_score = g.m_score := by
  by_cases h : g.m_bagIndex < 7
  · rw [drawFromBag_of_lt g h]
    exact ⟨Nat.succ_pos _, h, rfl⟩
  · rw [drawFromBag_of_ge g (by omega)]
    exact ⟨le_refl _, (by norm_num : (1 : Nat) ≤ 7), rfl⟩

theorem CursorLevelOK.of_same {g' g : Game} (hs : SameBagScore g' g) (h : CursorLevelOK g) :
    CursorLevelOK g' := by
  unfold CursorLevelOK
  rw [hs.2.1, hs.2.2.2]
  exact h

theorem drawFromBag_ok (g : Game) (h0 : 0 ≤ g.m_score.lines)
    (hl : g.m_score.level = g.m_score.lines / 10 + 1) : CursorLevelOK (drawFromBag g).2 := by
  have hd := drawFromBag_cursor g
  unfold CursorLevelOK
  rw [hd.2.2]
  exact ⟨hd.1, hd.2.1, h0, hl⟩

theorem addScore_bagIndex (g : Game) (n : Int) : (addScore g n).m_bagIndex = g.m_bagIndex := by
  unfold addScore
  simp only []
  split_ifs <;> rfl

theorem addScore_lines (g : Game) (n : Int) :
    (addScore g n).m_score.lines = g.m_score.lines + n := by
  unfold addScore
  simp only []
  split_ifs <;> rfl

theorem addScore_level (g : Game) (n : Int) :
    (addScore g n).m_score.level =
      if Int.tdiv (g.m_score.lines + n) 10 + 1 > g.m_score.level then
        Int.tdiv (g.m_score.lines + n) 10 + 1
      else g.m_score.level := by
  unfold addScore
  simp only []
  split_ifs <;> rfl

theorem addScore_levelOK (g : Game) (n : Int) (hn : 0 ≤ n) (h0 : 0 ≤ g.m_score.lines)
    (hl : g.m_score.level = g.m_score.lines / 10 + 1) :
    0 ≤ (addScore g n).m_score.lines ∧
      (addScore g n).m_score.level = (addScore g n).m_score.lines / 10 + 1 := by
  rw [addScore_lines, addScore_level, Int.tdiv_eq_ediv (by omega) (by decide)]
  refine ⟨by omega, ?_⟩
  split_ifs with h
  · rfl
  · omega

theorem lockPiece_count_nonneg (D : Tables) (b : Board) (p : Tetromino) :
    0 ≤ (b.lockPiece D p).2 := by
  simp [Board.lockPiece]

theorem lockCurrent_ok (D : Tables) (g : Game) (h : CursorLevelOK g) :
    CursorLevelOK (lockCurrent D g) := by
  unfold lockCurrent
  simp only []
  obtain ⟨_, _, h0, hl⟩ := h
  refine CursorLevelOK.of_same (spawnPiece_same D _ _) ?_
  have ha := addScore_levelOK { g with m_board := (g.m_board.lockPiece D g.m_current).1 }
      (g.m_board.lockPiece D g.m_current).2 (lockPiece_count_nonneg D _ _) h0 hl
  exact drawFromBag_ok _ ha.1 ha.2

theorem hardDrop_ok (D : Tables) (g : Game) (h : CursorLevelOK g) :
    CursorLevelOK (hardDrop D g) := by
  unfold hardDrop
  simp only []
  exact lockCurrent_ok D _ h

theorem activateHold_ok (D : Tables) (g : Game) (h : CursorLevelOK g) :
    CursorLevelOK (activateHold D g) := by
  unfold activateHold
  split_ifs
  · exact h
  · simp only []
    cases hh : g.m_held with
    | none =>
      simp only []
      refine CursorLevelOK.of_same (spawnPiece_same D _ _) ?_
      exact drawFromBag_ok _ h.2.2.1 h.2.2.2
    | some held =>
      simp only []
      exact CursorLevelOK.of_same (spawnPiece_same D _ _) h

theorem reset_ok (D : Tables) (g : Game) : CursorLevelOK (reset D g) := by
  unfold reset
  simp only []
  refine CursorLevelOK.of_same (spawnPiece_same D _ _) ?_
  rw [drawFromBag_of_lt (resetFields g) (by simp [resetFields_bagIndex])]
  refine ⟨?_, ?_, ?_, ?_⟩
  · simp [resetFields_bagIndex]
  · simp [resetFields_bagIndex]
  · simp [resetFields]
  · simp [resetFields]

theorem pauseToggle_same (g : Game) (input : InputHandler) :
    SameBagScore (pauseToggle g input) g := by
  unfold pauseToggle
  split_ifs <;> exact ⟨rfl, rfl, rfl, rfl⟩

theorem applyInputs_ok (D : Tables) (g : Game) (input : InputHandler) (h : CursorLevelOK g) :
    CursorLevelOK (applyInputs D g input) := by
  unfold applyInputs
  simp only []
  have h1 : CursorLevelOK (if input.isActive Action.MoveLeft then tryMove D g (-1) 0 else g) := by
    split_ifs
    · exact CursorLevelOK.of_same (tryMove_same D g _ _) h
    · exact h
  generalize (if input.isActive Action.MoveLeft then tryMove D g (-1) 0 else g) = g1 at h1 ⊢
  have h2 : CursorLevelOK (if input.isActive Action.MoveRight then tryMove D g1 1 0 else g1) := by
    split_ifs
    · exact CursorLevelOK.of_same (tryMove_same D g1 _ _) h1
    · exact h1
  generalize (if input.isActive Action.MoveRight then tryMove D g1 1 0 else g1) = g2 at h2 ⊢
  have h3 : CursorLevelOK (if input.isJustPressed Action.RotateCW then tryRotate D g2 1 else g2) := by
    split_ifs
    · exact CursorLevelOK.of_same (tryRotate_same D g2 _) h2
    · exact h2
  generalize (if input.isJustPressed Action.RotateCW then tryRotate D g2 1 else g2) = g3 at h3 ⊢
  have h4 : CursorLevelOK
      (if input.isJustPressed Action.RotateCCW then tryRotate D g3 (-1) else g3) := by
    split_ifs
    · exact CursorLevelOK.of_same (tryRotate_same D g3 _) h3
    · exact h3
  generalize (if input.isJustPressed Action.RotateCCW then tryRotate D g3 (-1) else g3) = g4
    at h4 ⊢
  split_ifs
  · exact activateHold_ok D g4 h4
  · exact h4

theorem beforeGravity_ok (D : Tables) (g : Game) (input : InputHandler) (dt : ℚ) (h : CursorLevelOK g) :
    CursorLevelOK (beforeGravity D g input dt) := by
  unfold beforeGravity
  simp only []
  split_ifs <;> exact h

theorem lockDelayStep_ok (D : Tables) (g : Game) (dt : ℚ) (h : CursorLevelOK g) :
    CursorLevelOK (lockDelayStep D g dt) := by
  unfold lockDelayStep
  simp only []
  split_ifs
  · exact lockCurrent_ok D _ h
  · exact h
  · exact h

/-- Every returning call of `update` keeps the cursor within `1..7` and the
level equal to `lines / 10 + 1`. -/
theorem update_ok (D : Tables) (fuel : Nat) (g g' : Game) (input : InputHandler) (dt : ℚ)
    (flag : Bool) (h : CursorLevelOK g) (hu : update D fuel g input dt = some (flag, g')) :
    CursorLevelOK g' := by
  have hp : CursorLevelOK (pauseToggle g input) :=
    CursorLevelOK.of_same (pauseToggle_same g input) h
  unfold update at hu
  simp only [] at hu
  split_ifs at hu
  · cases hu; exact h
  · cases hu; exact reset_ok D _
  · cases hu; exact hp
  · cases hu; exact hp
  · cases hu; exact hardDrop_ok D _ (applyInputs_ok D _ input hp)
  · cases hg : gravityLoop D (effectiveInterval (applyInputs D (pauseToggle g input) input) input)
        fuel (beforeGravity D (applyInputs D (pauseToggle g input) input) input dt) with
    | none => rw [hg] at hu; cases hu
    | some g2 =>
      rw [hg] at hu
      cases hu
      have hb := beforeGravity_ok D _ input dt (applyInputs_ok D _ input hp)
      exact lockDelayStep_ok D g2 dt (CursorLevelOK.of_same (gravityLoop_same D _ fuel _ g2 hg) hb)

theorem reachable_ok (D : Tables) (g : Game) (h : Reachable D g) : CursorLevelOK g := by
  induction h with
  | construct rng bag current => exact reset_ok D _
  | step g g' fuel input dt flag _ hu ih => exact update_ok D fuel g g' input dt flag ih hu

theorem drawFromBag_congr {g1 g2 : Game} (hb : g1.m_bag = g2.m_bag)
    (hi : g1.m_bagIndex = g2.m_bagIndex) (hr : g1.m_rng = g2.m_rng) :
    (drawFromBag g1).1 = (drawFromBag g2).1 ∧ (drawFromBag g1).2.m_bag = (drawFromBag g2).2.m_bag ∧
      (drawFromBag g1).2.m_bagIndex = (drawFromBag g2).2.m_bagIndex ∧
      (drawFromBag g1).2.m_rng = (drawFromBag g2).2.m_rng := by
  by_cases h : g1.m_bagIndex < 7
  · rw [drawFromBag_of_lt g1 h, drawFromBag_of_lt g2 (hi ▸ h)]
    have e : (⟨g1.m_bagIndex, by omega⟩ : Fin 14) = ⟨g2.m_bagIndex, by omega⟩ := Fin.ext hi
    exact ⟨by simp only [hb, e], hb, by simp only [hi], hr⟩
  · rw [drawFromBag_of_ge g1 (by omega), drawFromBag_of_ge g2 (by omega)]
    simp only [refillBag, hb, hr, and_self]

theorem nthDraw_congr (n : Nat) : ∀ g1 g2 : Game, g1.m_bag = g2.m_bag →
    g1.m_bagIndex = g2.m_bagIndex → g1.m_rng = g2.m_rng → nthDraw g1 n = nthDraw g2 n := by
  induction n with
  | zero => intro g1 g2 hb hi hr; exact (drawFromBag_congr hb hi hr).1
  | succ n ih =>
    intro g1 g2 hb hi hr
    have h := drawFromBag_congr hb hi hr
    exact ih _ _ h.2.1 h.2.2.1 h.2.2.2

theorem spawnPiece_type (D : Tables) (g : Game) (t : TetrominoType) :
    (spawnPiece D g t).m_current.m_type = t := by
  unfold spawnPiece
  simp only []
  split_ifs <;> rfl

/-- The first kind drawn since a reset is the piece `reset` spawns. -/
theorem reset_current_type (D : Tables) (g : Game) :
    (reset D g).m_current.m_type = nthDraw (resetFields g) 0 := by
  unfold reset
  simp only []
  rw [spawnPiece_type]
  rfl

/-- Call `n + 1` of `drawFromBag` after `reset` has returned is call `n + 2`
since the bag was filled. -/
theorem nthDraw_reset (D : Tables) (g : Game) (n : Nat) :
    nthDraw (reset D g) n = nthDraw (resetFields g) (n + 1) := by
  have hs := spawnPiece_same D (drawFromBag (resetFields g)).2 (drawFromBag (resetFields g)).1
  exact nthDraw_congr n _ _ hs.1 hs.2.1 hs.2.2.1

/-- C6. Whatever permutations the shuffles yield, the kinds returned by
`drawFromBag` since a reset (the first of them is the piece `reset` itself
spawns) split into consecutive groups of 7, draws `7k+1 .. 7k+7`, each holding
every kind exactly once; consequently two consecutive occurrences of a kind
have at most 12 other pieces between them. -/
theorem draws_split_into_bags (D : Tables) (g : Game) :
    (reset D g).m_current.m_type = nthDraw (resetFields g) 0 ∧
    (∀ n, nthDraw (reset D g) n = nthDraw (resetFields g) (n + 1)) ∧
    (∀ k : Nat, ∀ t : TetrominoType,
      ((List.range 7).map fun i => nthDraw (resetFields g) (7 * k + i)).count t = 1) ∧
    (∀ (i j : Nat) (t : TetrominoType), i < j →
      nthDraw (resetFields g) i = t → nthDraw (resetFields g) j = t →
      (∀ m, i < m → m < j → nthDraw (resetFields g) m ≠ t) → j - i - 1 ≤ 12) := by
  refine ⟨reset_current_type D g, nthDraw_reset D g, fun k t => count_window_seven g k t, ?_⟩
  intro i j t hij hi hj hnone
  by_contra hgap
  obtain ⟨p, hp⟩ := (slot_resetFields_bijective g (i / 7 + 1)).2 t
  have hp7 := p.isLt
  have hm := nthDraw_resetFields g (7 * (i / 7 + 1) + p.val)
  have e1 : (7 * (i / 7 + 1) + p.val) / 7 = i / 7 + 1 := by omega
  have e2 : (7 * (i / 7 + 1) + p.val) % 7 = p.val := by omega
  rw [e1, e2] at hm
  exact hnone (7 * (i / 7 + 1) + p.val) (by omega) (by omega) (hm.trans hp)

set_option maxRecDepth 100000 in
/-- C5 as stated fails. With `rotatedRng`, whose third shuffle rotates the
kinds by three places, the 14 draws numbered 4 to 17 since the reset (the
piece `reset` spawns is draw 1, so these are calls 3 to 16 of `drawFromBag`
after `reset` has returned) are O S T Z, I J L O S T Z, O S T: the O kind comes
three times and the I kind once. -/
theorem window_of_fourteen_not_twice :
    window (reset guidelineTables (fresh rotatedRng (fun _ => .I) (Tetromino.new .I))) 2 14
      = [.O, .S, .T, .Z, .I, .J, .L, .O, .S, .T, .Z, .O, .S, .T] ∧
    (window (reset guidelineTables (fresh rotatedRng (fun _ => .I) (Tetromino.new .I))) 2
      14).count .O = 3 ∧
    (window (reset guidelineTables (fresh rotatedRng (fun _ => .I) (Tetromino.new .I))) 2
      14).count .I = 1 ∧
    (window (resetFields (fresh rotatedRng (fun _ => .I) (Tetromino.new .I))) 3 14).count .O
      = 3 := by
  decide!

theorem count_window_fourteen_bounds (g : Game) (s : Nat) (t : TetrominoType) :
    1 ≤ (window (resetFields g) s 14).count t ∧ (window (resetFields g) s 14).count t ≤ 3 := by
  have hr : s % 7 < 7 := Nat.mod_lt _ (by decide)
  have hs : s = 7 * (s / 7) + s % 7 := (Nat.div_add_mod s 7).symm
  have hw : window (resetFields g) s 14
      = window (resetFields g) s (7 - s % 7)
        ++ (window (resetFields g) (7 * (s / 7 + 1)) 7
          ++ window (resetFields g) (7 * (s / 7 + 2)) (s % 7)) := by
    have h1 := window_add (resetFields g) s (7 - s % 7) (7 + s % 7)
    have h2 := window_add (resetFields g) (7 * (s / 7 + 1)) 7 (s % 7)
    rw [show 7 - s % 7 + (7 + s % 7) = 14 by omega,
      show s + (7 - s % 7) = 7 * (s / 7 + 1) by omega] at h1
    rw [show 7 * (s / 7 + 1) + 7 = 7 * (s / 7 + 2) by omega] at h2
    rw [h1, h2]
  have hA : (window (resetFields g) s (7 - s % 7)).count t ≤ 1 := by
    have h1 := window_add (resetFields g) (7 * (s / 7)) (s % 7) (7 - s % 7)
    rw [show s % 7 + (7 - s % 7) = 7 by omega, ← hs] at h1
    have h2 := count_window_seven g (s / 7) t
    rw [h1, List.count_append] at h2
    omega
  have hC : (window (resetFields g) (7 * (s / 7 + 2)) (s % 7)).count t ≤ 1 := by
    have h1 := window_add (resetFields g) (7 * (s / 7 + 2)) (s % 7) (7 - s % 7)
    rw [show s % 7 + (7 - s % 7) = 7 by omega] at h1
    have h2 := count_window_seven g (s / 7 + 2) t
    rw [h1, List.count_append] at h2
    omega
  rw [hw, List.count_append, List.count_append, count_window_seven]
  omega

/-- C5, amended. Whatever permutations the shuffles yield, every window of 14
consecutive draws that starts at a bag boundary (draws `7k+1 .. 7k+14` since
the reset, draw 1 being the piece `reset` itself spawns) holds each of the 7
kinds exactly twice; a window of 14 consecutive draws that starts anywhere
holds each kind at least once and at most three times. -/
theorem aligned_window_of_fourteen_twice (D : Tables) (g : Game) (t : TetrominoType) :
    (reset D g).m_current.m_type = nthDraw (resetFields g) 0 ∧
    (∀ n, nthDraw (reset D g) n = nthDraw (resetFields g) (n + 1)) ∧
    (∀ s : Nat, (window (resetFields g) s 14).length = 14) ∧
    (∀ k : Nat, (window (resetFields g) (7 * k) 14).count t = 2) ∧
    (∀ s : Nat, 1 ≤ (window (resetFields g) s 14).count t ∧
      (window (resetFields g) s 14).count t ≤ 3) := by
  refine ⟨reset_current_type D g, nthDraw_reset D g, fun s => by simp [window], ?_,
    fun s => count_window_fourteen_bounds g s t⟩
  intro k
  have e : 7 * k + 7 = 7 * (k + 1) := by ring
  rw [show (14 : Nat) = 7 + 7 from rfl, window_add, List.count_append, e,
    count_window_seven, count_window_seven]

theorem nthDraw_in_buffer (g : Game) (n : Nat) (hg : g.m_bagIndex ≤ 7)
    (hn : g.m_bagIndex + n < 14) : nthDraw g n = g.m_bag ⟨g.m_bagIndex + n, hn⟩ := by
  rw [nthDraw_eq_slot n g hg]
  by_cases h : g.m_bagIndex + n < 7
  · rw [Nat.div_eq_of_lt h, Nat.mod_eq_of_lt h]
    simp [slot, h]
  · have e1 : (g.m_bagIndex + n) / 7 = 1 := by omega
    have e2 : (g.m_bagIndex + n) % 7 < 7 := Nat.mod_lt _ (by decide)
    rw [e1]
    simp only [slot, e2, dite_true]
    congr 1
    apply Fin.ext
    simp only []
    omega

theorem nextPieces_of_cursor_le (g : Game) (hg : g.m_bagIndex ≤ 7) :
    nextPieces g = some [nthDraw g 0, nthDraw g 1, nthDraw g 2] := by
  have h0 : g.m_bagIndex + 0 < 14 := by omega
  have h1 : g.m_bagIndex + 1 < 14 := by omega
  have h2 : g.m_bagIndex + 2 < 14 := by omega
  rw [nthDraw_in_buffer g 0 hg h0, nthDraw_in_buffer g 1 hg h1, nthDraw_in_buffer g 2 hg h2]
  simp [nextPieces, peekLoop, h1, h2]
  omega

/-- C7. In every reachable state the cursor is at most 7 and `nextPieces`, a
pure read of the buffer, returns in order exactly the three kinds the next
three calls of `drawFromBag` return, whether or not a refill falls between
those draws. -/
theorem nextPieces_eq_next_three_draws (D : Tables) (g : Game) (h : Reachable D g) :
    g.m_bagIndex ≤ 7 ∧ nextPieces g = some (drawSeq 3 g) ∧
      drawSeq 3 g = [nthDraw g 0, nthDraw g 1, nthDraw g 2] := by
  have hg := (reachable_ok D g h).2.1
  refine ⟨hg, ?_, rfl⟩
  rw [nextPieces_of_cursor_le g hg]
  rfl

theorem update_hardDrop_pressed (D : Tables) (fuel : Nat) (g : Game) (dt : ℚ)
    (hs : g.m_state = GameState.Playing) :
    update D fuel g (pressed [Action.HardDrop]) dt = some (true, hardDrop D g) := by
  simp [update, pauseToggle, applyInputs, pressed, InputHandler.isJustPressed,
    InputHandler.isActive, hs]

theorem update_hold_hardDrop_pressed (D : Tables) (fuel : Nat) (g : Game) (dt : ℚ)
    (hs : g.m_state = GameState.Playing) :
    update D fuel g (pressed [Action.Hold, Action.HardDrop]) dt
      = some (true, hardDrop D (activateHold D g)) := by
  simp [update, pauseToggle, applyInputs, pressed, InputHandler.isJustPressed,
    InputHandler.isActive, hs]

theorem reachable_hardDrop (D : Tables) (g : Game) (h : Reachable D g)
    (hs : g.m_state = GameState.Playing) : Reachable D (hardDrop D g) :=
  Reachable.step g _ 0 (pressed [Action.HardDrop]) 0 true h (update_hardDrop_pressed D 0 g 0 hs)

set_option maxRecDepth 100000 in
theorem dropped_playing : ∀ n : Fin 6, (dropped n.val).m_state = GameState.Playing := by
  decide!

theorem reachable_dropped : ∀ n : Nat, n ≤ 6 → Reachable guidelineTables (dropped n) := by
  intro n
  induction n with
  | zero => intro _; exact Reachable.construct _ _ _
  | succ n ih =>
    intro hn
    exact reachable_hardDrop _ _ (ih (by omega)) (dropped_playing ⟨n, by omega⟩)

set_option maxRecDepth 100000 in
set_option maxHeartbeats 2000000 in
/-- Witness for C7: six hard drops after the constructor the cursor is at 7, so
the next draw refills the bag; `nextPieces` still returns the kinds of the next
three draws, I, J and L. -/
theorem nextPieces_across_refill_witness :
    Reachable guidelineTables (dropped 6) ∧ (dropped 6).m_bagIndex = 7 ∧
    nextPieces (dropped 6) = some (drawSeq 3 (dropped 6)) ∧
    drawSeq 3 (dropped 6) = [TetrominoType.I, TetrominoType.J, TetrominoType.L] := by
  have hr : Reachable guidelineTables (dropped 6) := reachable_dropped 6 (le_refl _)
  have h1 : (dropped 6).m_bagIndex = 7 := by decide!
  have h3 : drawSeq 3 (dropped 6) = [TetrominoType.I, TetrominoType.J, TetrominoType.L] := by
    decide!
  have h := nextPieces_eq_next_three_draws guidelineTables (dropped 6) hr
  exact And.intro hr (And.intro h1 (And.intro h.2.1 h3))

theorem reachable_tick (g : Game) (actions : List Action)
    (h : Reachable guidelineTables g) : Reachable guidelineTables (tick g actions) := by
  unfold tick
  cases hu : update guidelineTables 1 g (pressed actions) 0 with
  | none => exact h
  | some r => exact Reachable.step g r.2 1 (pressed actions) 0 r.1 h hu

theorem reachable_foldl_tick (script : List (List Action)) :
    ∀ g : Game, Reachable guidelineTables g → Reachable guidelineTables (script.foldl tick g) := by
  induction script with
  | nil => intro g h; exact h
  | cons a rest ih => intro g h; exact ih _ (reachable_tick g a h)

theorem reachable_played (script : List (List Action)) :
    Reachable guidelineTables (played script) :=
  reachable_foldl_tick script _ (Reachable.construct _ _ _)

set_option maxRecDepth 100000 in
set_option maxHeartbeats 2000000 in
/-- C10 (the code at a failing input). In `towerGame` the O piece is in play, a T
piece is held and the spawn cells of T are blocked. A tick with hold and
hard-drop both freshly pressed: the hold spawns the T piece on an invalid
placement and sets the phase to GameOver, with board and score untouched; the
same call of `update` then goes on to hard-drop: it locks the blocked T piece
into the board, clears a row and adds 90 points. With hold alone pressed the
call goes on to add `dt` to the gravity accumulator and to the lock timer. -/
theorem hold_blocked_spawn_still_processed :
    towerGame.m_state = GameState.Playing ∧
    towerGame.m_board.isValidPosition guidelineTables towerGame.m_current
      towerGame.m_current.m_pos 0 = true ∧
    (activateHold guidelineTables towerGame).m_state = GameState.GameOver ∧
    (activateHold guidelineTables towerGame).m_current = ⟨.T, ⟨4, 1⟩, 0⟩ ∧
    (activateHold guidelineTables towerGame).m_board.m_cells = towerBoard.m_cells ∧
    (activateHold guidelineTables towerGame).m_board.m_cells 2 5 = EMPTY_COLOR ∧
    (activateHold guidelineTables towerGame).m_score
      = { score := 0, level := 1, lines := 0, combo := 0 } ∧
    (∀ (fuel : Nat) (dt : ℚ),
      update guidelineTables fuel towerGame (pressed [Action.Hold, Action.HardDrop]) dt
        = some (true, hardDrop guidelineTables (activateHold guidelineTables towerGame))) ∧
    (hardDrop guidelineTables (activateHold guidelineTables towerGame)).m_state
      = GameState.GameOver ∧
    (hardDrop guidelineTables (activateHold guidelineTables towerGame)).m_score
      = { score := 90, level := 1, lines := 1, combo := 1 } ∧
    (hardDrop guidelineTables (activateHold guidelineTables towerGame)).m_board.m_cells 2 5
      ≠ EMPTY_COLOR ∧
    (update guidelineTables 1 towerGame (pressed [Action.Hold]) (1 / 60)).map
        (fun r => (r.2.m_state, r.2.m_gravityAccum, r.2.m_lockTimer))
      = some (GameState.GameOver, 1 / 60, 1 / 60) := by
  refine ⟨by decide!, by decide!, by decide!, by decide!, by decide!, by decide!, by decide!,
    fun fuel dt => update_hold_hardDrop_pressed guidelineTables fuel towerGame dt (by decide!),
    by decide!, by decide!, by decide!, by decide!⟩

end Game

theorem Vector2i.add_def (p q : Vector2i) : p + q = ⟨p.x + q.x, p.y + q.y⟩ := rfl

namespace Board

theorem worldCellsAt_shift (D : Tables) (p : Tetromino) (pos : Vector2i) (rot j : Int) :
    p.worldCellsAt D (pos + ⟨0, j⟩) rot
      = (p.worldCellsAt D pos rot).map fun c => (⟨c.x, c.y + j⟩ : Vector2i) := by
  simp only [Tetromino.worldCellsAt, List.map_ofFn]
  congr 1
  funext i
  simp only [Vector2i.add_def, Function.comp]
  congr 1 <;> omega

theorem worldCellsAt_ne_nil (D : Tables) (p : Tetromino) (pos : Vector2i) (rot : Int) :
    ∃ c rest, p.worldCellsAt D pos rot = c :: rest := by
  simp [Tetromino.worldCellsAt, List.ofFn_succ]

theorem isValidPosition_shift_iff (D : Tables) (b : Board) (p : Tetromino) (pos : Vector2i)
    (rot j : Int) :
    b.isValidPosition D p (pos + ⟨0, j⟩) rot = true ↔
      ∀ c ∈ p.worldCellsAt D pos rot,
        ∃ h : b.isInBounds c.x (c.y + j) = true, b.cellAt c.x (c.y + j) h = EMPTY_COLOR := by
  unfold isValidPosition
  rw [validCells_iff, worldCellsAt_shift]
  simp only [List.mem_map, forall_exists_index, and_imp, forall_apply_eq_imp_iff₂]

/-- A placement 23 rows down is never valid when the placements 1 row down is:
the rows of the grid are 22. -/
theorem not_valid_twenty_three (D : Tables) (b : Board) (p : Tetromino) (pos : Vector2i)
    (rot : Int) (h1 : b.isValidPosition D p (pos + ⟨0, 1⟩) rot = true) :
    b.isValidPosition D p (pos + ⟨0, 23⟩) rot = false := by
  obtain ⟨c, rest, hc⟩ := worldCellsAt_ne_nil D p pos rot
  cases hv : b.isValidPosition D p (pos + ⟨0, 23⟩) rot with
  | false => rfl
  | true =>
    have hm : c ∈ p.worldCellsAt D pos rot := by rw [hc]; exact List.mem_cons_self _ _
    obtain ⟨hb1, _⟩ := (isValidPosition_shift_iff D b p pos rot 1).1 h1 c hm
    obtain ⟨hb2, _⟩ := (isValidPosition_shift_iff D b p pos rot 23).1 hv c hm
    rw [isInBounds_iff] at hb1 hb2
    omega

theorem ghostLoop_spec (D : Tables) (b : Board) (piece : Tetromino) :
    ∀ (n : Nat) (dist : Int), 0 ≤ dist → dist + n = 22 →
      (∀ j : Int, 1 ≤ j → j ≤ dist →
        b.isValidPosition D piece (piece.position + ⟨0, j⟩) piece.rotationState = true) →
      dist ≤ ghostLoop D b piece n dist ∧ ghostLoop D b piece n dist ≤ 22 ∧
      (∀ j : Int, 1 ≤ j → j ≤ ghostLoop D b piece n dist →
        b.isValidPosition D piece (piece.position + ⟨0, j⟩) piece.rotationState = true) ∧
      b.isValidPosition D piece (piece.position + ⟨0, ghostLoop D b piece n dist + 1⟩)
        piece.rotationState = false := by
  intro n
  induction n with
  | zero =>
    intro dist h0 hn hall
    have hd : dist = 22 := by omega
    subst hd
    refine ⟨le_refl _, le_refl _, hall, ?_⟩
    exact not_valid_twenty_three D b piece _ _ (hall 1 (le_refl _) (by decide))
  | succ n ih =>
    intro dist h0 hn hall
    by_cases hv : b.isValidPosition D piece (piece.position + ⟨0, dist + 1⟩)
        piece.rotationState = true
    · have e : ghostLoop D b piece (n + 1) dist = ghostLoop D b piece n (dist + 1) := by
        simp [ghostLoop, hv]
      rw [e]
      have := ih (dist + 1) (by omega) (by push_cast at hn ⊢; omega) (by
        intro j hj1 hj2
        by_cases hj : j ≤ dist
        · exact hall j hj1 hj
        · have : j = dist + 1 := by omega
          rw [this]; exact hv)
      exact ⟨by omega, this.2.1, this.2.2.1, this.2.2.2⟩
    · have hf : b.isValidPosition D piece (piece.position + ⟨0, dist + 1⟩)
          piece.rotationState = false := by simpa using hv
      have e : ghostLoop D b piece (n + 1) dist = dist := by
        simp [ghostLoop, hf]
      rw [e]
      exact ⟨le_refl _, by omega, hall, hf⟩

/-- C19. For every board and every piece, valid or not where it stands,
`d = ghostDropDistance(piece)` satisfies `0 <= d <= 22`; the placement at
`position + (0, j)` is valid for every `j` with `1 <= j <= d`, the placement at
`position + (0, d + 1)` is invalid, and so `d` is the largest `k` such that all
placements `1 .. k` rows down are valid. -/
theorem ghostDropDistance_is_largest_fall (D : Tables) (b : Board) (piece : Tetromino) :
    0 ≤ b.ghostDropDistance D piece ∧ b.ghostDropDistance D piece ≤ 22 ∧
    (∀ j : Int, 1 ≤ j → j ≤ b.ghostDropDistance D piece →
      b.isValidPosition D piece (piece.position + ⟨0, j⟩) piece.rotationState = true) ∧
    b.isValidPosition D piece (piece.position + ⟨0, b.ghostDropDistance D piece + 1⟩)
      piece.rotationState = false ∧
    (∀ k : Int, (∀ j : Int, 1 ≤ j → j ≤ k →
      b.isValidPosition D piece (piece.position + ⟨0, j⟩) piece.rotationState = true) →
      k ≤ b.ghostDropDistance D piece) := by
  have h := ghostLoop_spec D b piece 22 0 (le_refl _) (by norm_num) (by intro j h1 h2; omega)
  have hd : b.ghostDropDistance D piece = ghostLoop D b piece 22 0 := rfl
  rw [hd]
  refine ⟨h.1, h.2.1, h.2.2.1, h.2.2.2, ?_⟩
  intro k hk
  by_contra hlt
  have hv := hk (ghostLoop D b piece 22 0 + 1) (by omega) (by omega)
  rw [h.2.2.2] at hv
  exact Bool.false_ne_true hv

end Board

namespace Board

theorem setCell_apply (b : Board) (col row : Int) (h : b.isInBounds col row = true) (v : Color)
    (r : Fin 22) (k : Fin 10) :
    (b.setCell col row h v).m_cells r k
      = if (r.val : Int) = row ∧ (k.val : Int) = col then v else b.m_cells r k := by
  have hb := (b.isInBounds_iff col row).1 h
  have er : (r.val : Int) = row ↔ r = b.rowIndex col row h := by
    rw [Fin.ext_iff]; simp only [rowIndex]; omega
  have ek : (k.val : Int) = col ↔ k = b.colIndex col row h := by
    rw [Fin.ext_iff]; simp only [colIndex]; omega
  rw [if_congr (and_congr er ek) rfl rfl]
  simp only [setCell, Function.update_apply]
  by_cases h1 : r = b.rowIndex col row h
  · rw [if_pos h1]
    by_cases h2 : k = b.colIndex col row h
    · rw [if_pos ⟨h1, h2⟩, h2, Function.update_same]
    · rw [if_neg (fun e => h2 e.2), Function.update_noteq h2, h1]
  · rw [if_neg h1, if_neg (fun e => h1 e.1)]

/-- The first loop of `lockPiece` sets exactly the listed cells that lie on the
grid and leaves every other cell as it was. -/
theorem writeCells_apply (color : Color) : ∀ (cells : List Vector2i) (b : Board) (r : Fin 22)
    (k : Fin 10),
    (b.writeCells color cells).m_cells r k
      = if (∃ c ∈ cells, c.y = (r.val : Int) ∧ c.x = (k.val : Int)) then color
        else b.m_cells r k := by
  intro cells
  induction cells with
  | nil => intro b r k; simp [writeCells]
  | cons c rest ih =>
    intro b r k
    by_cases hr : ∃ c ∈ rest, c.y = (r.val : Int) ∧ c.x = (k.val : Int)
    · have hr' : ∃ c' ∈ c :: rest, c'.y = (r.val : Int) ∧ c'.x = (k.val : Int) := by
        obtain ⟨c', hm, hc'⟩ := hr
        exact ⟨c', List.mem_cons_of_mem _ hm, hc'⟩
      rw [if_pos hr']
      by_cases h : b.isInBounds c.x c.y = true
      · rw [writeCells, dif_pos h, ih, if_pos hr]
      · rw [writeCells, dif_neg h, ih, if_pos hr]
    · by_cases h : b.isInBounds c.x c.y = true
      · rw [writeCells, dif_pos h, ih, if_neg hr, setCell_apply]
        by_cases hc : (r.val : Int) = c.y ∧ (k.val : Int) = c.x
        · rw [if_pos hc, if_pos ⟨c, List.mem_cons_self _ _, hc.1.symm, hc.2.symm⟩]
        · rw [if_neg hc, if_neg]
          rintro ⟨c', hm, hc'⟩
          rcases List.mem_cons.1 hm with e | hm'
          · subst e; exact hc ⟨hc'.1.symm, hc'.2.symm⟩
          · exact hr ⟨c', hm', hc'⟩
      · rw [writeCells, dif_neg h, ih, if_neg hr, if_neg]
        rintro ⟨c', hm, hc'⟩
        rcases List.mem_cons.1 hm with e | hm'
        · subst e
          apply h
          rw [isInBounds_iff]
          have := r.isLt; have := k.isLt
          omega
        · exact hr ⟨c', hm', hc'⟩

theorem worldCells_setPosition (D : Tables) (piece : Tetromino) (pos : Vector2i) :
    (piece.setPosition pos).worldCells D = piece.worldCellsAt D pos piece.rotationState := rfl

theorem vector2i_add_zero (p : Vector2i) : p + ⟨0, 0⟩ = p := by
  simp [Vector2i.add_def]

theorem isValidPosition_iff_cellAt (D : Tables) (b : Board) (piece : Tetromino)
    (testPos : Vector2i) (testRotation : Int) :
    b.isValidPosition D piece testPos testRotation = true ↔
      ∀ c ∈ piece.worldCellsAt D testPos testRotation,
        ∃ h : b.isInBounds c.x c.y = true, b.cellAt c.x c.y h = EMPTY_COLOR :=
  b.validCells_iff _

/-- The placement a piece reaches by falling `ghostDropDistance` rows is valid
when the placement it falls from is. -/
theorem isValidPosition_at_ghost (D : Tables) (b : Board) (piece : Tetromino)
    (hv : b.isValidPosition D piece piece.position piece.rotationState = true) :
    b.isValidPosition D piece (piece.position + ⟨0, b.ghostDropDistance D piece⟩)
      piece.rotationState = true := by
  have h := ghostLoop_spec D b piece 22 0 (le_refl _) (by norm_num) (by intro j h1 h2; omega)
  have hd : b.ghostDropDistance D piece = ghostLoop D b piece 22 0 := rfl
  rw [hd]
  by_cases h0 : ghostLoop D b piece 22 0 = 0
  · rw [h0, vector2i_add_zero]; exact hv
  · exact h.2.2.1 _ (by omega) (le_refl _)

end Board

namespace Game

theorem isValidPosition_congr (D : Tables) (b : Board) (p q : Tetromino) (pos : Vector2i)
    (r1 r2 : Int) (ht : p.m_type = q.m_type)
    (hr : Tetromino.maskRotation r1 = Tetromino.maskRotation r2) :
    b.isValidPosition D p pos r1 = b.isValidPosition D q pos r2 := by
  simp only [Board.isValidPosition, Tetromino.worldCellsAt, ht, hr]

theorem maskRotation_val (x : Int) :
    Tetromino.maskRotation ((Tetromino.maskRotation x).val : Int) = Tetromino.maskRotation x := by
  apply Fin.ext
  simp only [Tetromino.maskRotation]
  omega

theorem spawnPiece_pieceOK (D : Tables) (g : Game) (t : TetrominoType) :
    PieceOK D (spawnPiece D g t) := by
  unfold spawnPiece
  simp only []
  split_ifs with h
  · exact Or.inl rfl
  · right
    simpa using h

theorem tryMove_pieceOK (D : Tables) (g : Game) (dx dy : Int) (h : PieceOK D g) :
    PieceOK D (tryMove D g dx dy) := by
  unfold tryMove
  simp only []
  split_ifs with hv h0
  · exact Or.inr hv
  · exact Or.inr hv
  · exact h

theorem kickLoop_pieceOK (D : Tables) (g : Game) (kd : KickData) (fromState : Fin 4)
    (toState : Int) (h : PieceOK D g) :
    ∀ n k, PieceOK D (kickLoop D g kd fromState toState n k) := by
  intro n
  induction n with
  | zero => intro k; exact h
  | succ n ih =>
    intro k
    unfold kickLoop
    simp only []
    split_ifs with hk hv
    · right
      rw [← hv]
      exact isValidPosition_congr D _ _ _ _ _ _ rfl (maskRotation_val toState)
    · exact ih (k + 1)
    · exact h

theorem tryRotate_pieceOK (D : Tables) (g : Game) (d : Int) (h : PieceOK D g) :
    PieceOK D (tryRotate D g d) := by
  unfold tryRotate
  simp only []
  split_ifs <;> first | exact h | exact kickLoop_pieceOK D g _ _ _ h 5 0

theorem lockCurrent_pieceOK (D : Tables) (g : Game) : PieceOK D (lockCurrent D g) :=
  spawnPiece_pieceOK D _ _

theorem hardDrop_pieceOK (D : Tables) (g : Game) : PieceOK D (hardDrop D g) :=
  spawnPiece_pieceOK D _ _

theorem reset_pieceOK (D : Tables) (g : Game) : PieceOK D (reset D g) :=
  spawnPiece_pieceOK D _ _

theorem activateHold_pieceOK (D : Tables) (g : Game) (h : PieceOK D g) :
    PieceOK D (activateHold D g) := by
  unfold activateHold
  split_ifs
  · exact h
  · simp only []
    cases g.m_held with
    | none => exact spawnPiece_pieceOK D _ _
    | some held => exact spawnPiece_pieceOK D _ _

theorem pauseToggle_pieceOK (D : Tables) (g : Game) (input : InputHandler) (h : PieceOK D g) :
    PieceOK D (pauseToggle g input) := by
  unfold pauseToggle
  split_ifs with hp h1 h2
  · rcases h with h | h
    · rw [h1] at h; cases h
    · exact Or.inr h
  · rcases h with h | h
    · rw [h2] at h; cases h
    · exact Or.inr h
  · exact h
  · exact h

theorem applyInputs_pieceOK (D : Tables) (g : Game) (input : InputHandler) (h : PieceOK D g) :
    PieceOK D (applyInputs D g input) := by
  unfold applyInputs
  simp only []
  have h1 : PieceOK D (if input.isActive Action.MoveLeft then tryMove D g (-1) 0 else g) := by
    split_ifs
    · exact tryMove_pieceOK D g _ _ h
    · exact h
  generalize (if input.isActive Action.MoveLeft then tryMove D g (-1) 0 else g) = g1 at h1 ⊢
  have h2 : PieceOK D (if input.isActive Action.MoveRight then tryMove D g1 1 0 else g1) := by
    split_ifs
    · exact tryMove_pieceOK D g1 _ _ h1
    · exact h1
  generalize (if input.isActive Action.MoveRight then tryMove D g1 1 0 else g1) = g2 at h2 ⊢
  have h3 : PieceOK D (if input.isJustPressed Action.RotateCW then tryRotate D g2 1 else g2) := by
    split_ifs
    · exact tryRotate_pieceOK D g2 _ h2
    · exact h2
  generalize (if input.isJustPressed Action.RotateCW then tryRotate D g2 1 else g2) = g3 at h3 ⊢
  have h4 : PieceOK D
      (if input.isJustPressed Action.RotateCCW then tryRotate D g3 (-1) else g3) := by
    split_ifs
    · exact tryRotate_pieceOK D g3 _ h3
    · exact h3
  generalize (if input.isJustPressed Action.RotateCCW then tryRotate D g3 (-1) else g3) = g4
    at h4 ⊢
  split_ifs
  · exact activateHold_pieceOK D g4 h4
  · exact h4

theorem beforeGravity_pieceOK (D : Tables) (g : Game) (input : InputHandler) (dt : ℚ)
    (h : PieceOK D g) : PieceOK D (beforeGravity D g input dt) := by
  unfold beforeGravity
  simp only []
  split_ifs <;> exact h

theorem gravityLoop_pieceOK (D : Tables) (eff : ℚ) :
    ∀ (fuel : Nat) (g g' : Game), PieceOK D g → gravityLoop D eff fuel g = some g' →
      PieceOK D g' := by
  intro fuel
  induction fuel with
  | zero =>
    intro g g' h hg
    unfold gravityLoop at hg
    split_ifs at hg
    cases hg
    exact h
  | succ fuel ih =>
    intro g g' h hg
    unfold gravityLoop at hg
    simp only [] at hg
    split_ifs at hg with ha hv
    · refine ih _ _ ?_ hg
      exact Or.inr hv
    · refine ih _ _ ?_ hg
      exact h
    · cases hg; exact h

theorem lockDelayStep_pieceOK (D : Tables) (g : Game) (dt : ℚ) (h : PieceOK D g) :
    PieceOK D (lockDelayStep D g dt) := by
  unfold lockDelayStep
  simp only []
  split_ifs
  · exact lockCurrent_pieceOK D _
  · exact h
  · exact h

theorem update_pieceOK (D : Tables) (fuel : Nat) (g g' : Game) (input : InputHandler) (dt : ℚ)
    (flag : Bool) (h : PieceOK D g) (hu : update D fuel g input dt = some (flag, g')) :
    PieceOK D g' := by
  have hp : PieceOK D (pauseToggle g input) := pauseToggle_pieceOK D g input h
  unfold update at hu
  simp only [] at hu
  split_ifs at hu
  · cases hu; exact h
  · cases hu; exact reset_pieceOK D _
  · cases hu; exact hp
  · cases hu; exact hp
  · cases hu; exact hardDrop_pieceOK D _
  · cases hg : gravityLoop D (effectiveInterval (applyInputs D (pauseToggle g input) input) input)
        fuel (beforeGravity D (applyInputs D (pauseToggle g input) input) input dt) with
    | none => rw [hg] at hu; cases hu
    | some g2 =>
      rw [hg] at hu
      cases hu
      have hb := beforeGravity_pieceOK D _ input dt (applyInputs_pieceOK D _ input hp)
      exact lockDelayStep_pieceOK D g2 dt (gravityLoop_pieceOK D _ fuel _ g2 hb hg)

theorem reachable_pieceOK (D : Tables) (g : Game) (h : Reachable D g) : PieceOK D g := by
  induction h with
  | construct rng bag current => exact reset_pieceOK D _
  | step g g' fuel input dt flag _ hu ih => exact update_pieceOK D fuel g g' input dt flag ih hu

/-- C11. In every state reachable from the constructor by calls of `update`,
with any inputs and any `dt`, a phase of Playing or Paused implies that the
placement of the current piece, its position and rotation, is valid on the
board according to `isValidPosition`. -/
theorem current_piece_valid_unless_game_over (D : Tables) (g : Game) (h : Reachable D g)
    (hs : g.m_state = GameState.Playing ∨ g.m_state = GameState.Paused) :
    g.m_board.isValidPosition D g.m_current g.m_current.position g.m_current.rotationState
      = true := by
  rcases reachable_pieceOK D g h with hover | hv
  · rcases hs with hs | hs <;> rw [hover] at hs <;> cases hs
  · exact hv

end Game

namespace Game

theorem spawnPiece_current (D : Tables) (g : Game) (t : TetrominoType) :
    (spawnPiece D g t).m_current = ⟨t, ⟨4, 1⟩, 0⟩ := by
  unfold spawnPiece
  simp only []
  split_ifs <;> rfl

theorem spawnPiece_board (D : Tables) (g : Game) (t : TetrominoType) :
    (spawnPiece D g t).m_board = g.m_board := by
  unfold spawnPiece
  simp only []
  split_ifs <;> rfl

theorem spawnPiece_held (D : Tables) (g : Game) (t : TetrominoType) :
    (spawnPiece D g t).m_held = g.m_held := by
  unfold spawnPiece
  simp only []
  split_ifs <;> rfl

theorem spawnPiece_holdUsed (D : Tables) (g : Game) (t : TetrominoType) :
    (spawnPiece D g t).m_holdUsed = g.m_holdUsed := by
  unfold spawnPiece
  simp only []
  split_ifs <;> rfl

theorem spawnPiece_gravityAccum (D : Tables) (g : Game) (t : TetrominoType) :
    (spawnPiece D g t).m_gravityAccum = g.m_gravityAccum := by
  unfold spawnPiece
  simp only []
  split_ifs <;> rfl

theorem spawnPiece_lockTimer (D : Tables) (g : Game) (t : TetrominoType) :
    (spawnPiece D g t).m_lockTimer = 0 := by
  unfold spawnPiece
  simp only []
  split_ifs <;> rfl

theorem tryMove_holdUsed (D : Tables) (g : Game) (dx dy : Int) :
    (tryMove D g dx dy).m_holdUsed = g.m_holdUsed := by
  unfold tryMove
  simp only []
  split_ifs <;> rfl

theorem kickLoop_holdUsed (D : Tables) (g : Game) (kd : KickData) (fromState : Fin 4)
    (toState : Int) : ∀ n k, (kickLoop D g kd fromState toState n k).m_holdUsed = g.m_holdUsed := by
  intro n
  induction n with
  | zero => intro k; rfl
  | succ n ih =>
    intro k
    unfold kickLoop
    simp only []
    split_ifs
    · rfl
    · exact ih (k + 1)
    · rfl

theorem tryRotate_holdUsed (D : Tables) (g : Game) (d : Int) :
    (tryRotate D g d).m_holdUsed = g.m_holdUsed := by
  unfold tryRotate
  simp only []
  split_ifs <;> first | rfl | exact kickLoop_holdUsed D g _ _ _ 5 0

theorem activateHold_of_used (D : Tables) (g : Game) (h : g.m_holdUsed = true) :
    activateHold D g = g := by
  unfold activateHold
  rw [if_pos h]

theorem activateHold_of_held (D : Tables) (g : Game) (held : Tetromino)
    (h : g.m_holdUsed = false) (hh : g.m_held = some held) :
    activateHold D g
      = spawnPiece D { g with m_holdUsed := true, m_held := some (Tetromino.new g.m_current.type) }
          held.type := by
  unfold activateHold
  rw [if_neg (by simp [h])]
  simp only [hh]

theorem activateHold_of_none (D : Tables) (g : Game) (h : g.m_holdUsed = false)
    (hh : g.m_held = none) :
    activateHold D g
      = spawnPiece D
          (drawFromBag
            { g with m_holdUsed := true, m_held := some (Tetromino.new g.m_current.type) }).2
          (drawFromBag
            { g with m_holdUsed := true, m_held := some (Tetromino.new g.m_current.type) }).1 := by
  unfold activateHold
  rw [if_neg (by simp [h])]
  simp only [hh]

theorem drawFromBag_fields (g : Game) :
    (drawFromBag g).2.m_board = g.m_board ∧ (drawFromBag g).2.m_held = g.m_held ∧
      (drawFromBag g).2.m_holdUsed = g.m_holdUsed ∧ (drawFromBag g).2.m_score = g.m_score ∧
      (drawFromBag g).2.m_current = g.m_current ∧ (drawFromBag g).2.m_state = g.m_state ∧
      (drawFromBag g).2.m_gravityAccum = g.m_gravityAccum ∧
      (drawFromBag g).2.m_lockTimer = g.m_lockTimer := by
  by_cases h : g.m_bagIndex < 7
  · rw [drawFromBag_of_lt g h]
    exact ⟨rfl, rfl, rfl, rfl, rfl, rfl, rfl, rfl⟩
  · rw [drawFromBag_of_ge g (by omega)]
    exact ⟨rfl, rfl, rfl, rfl, rfl, rfl, rfl, rfl⟩

theorem activateHold_holdUsed (D : Tables) (g : Game) : (activateHold D g).m_holdUsed = true := by
  by_cases h : g.m_holdUsed = true
  · rw [activateHold_of_used D g h, h]
  · have hf : g.m_holdUsed = false := by simpa using h
    cases hh : g.m_held with
    | none =>
      rw [activateHold_of_none D g hf hh, spawnPiece_holdUsed, (drawFromBag_fields _).2.2.1]
    | some held =>
      rw [activateHold_of_held D g held hf hh, spawnPiece_holdUsed]

theorem lockCurrent_holdUsed (D : Tables) (g : Game) : (lockCurrent D g).m_holdUsed = false := by
  unfold lockCurrent
  simp only []
  rw [spawnPiece_holdUsed, (drawFromBag_fields _).2.2.1]

/-- C12. `activateHold` called while the hold-used flag is set returns the game
state unchanged, every field of it; a call with the flag clear sets the flag;
`lockCurrent` (and so `hardDrop`) always clears it; moves and rotations leave
it as it is. So of two holds with no lock in between only the first changes the
state. -/
theorem hold_is_locked_out_until_next_lock (D : Tables) (g : Game) :
    (g.m_holdUsed = true → activateHold D g = g) ∧
    (g.m_holdUsed = false → (activateHold D g).m_holdUsed = true) ∧
    (lockCurrent D g).m_holdUsed = false ∧
    (hardDrop D g).m_holdUsed = false ∧
    activateHold D (activateHold D g) = activateHold D g ∧
    (∀ dx dy : Int, activateHold D (tryMove D (activateHold D g) dx dy)
      = tryMove D (activateHold D g) dx dy) ∧
    (∀ d : Int, activateHold D (tryRotate D (activateHold D g) d)
      = tryRotate D (activateHold D g) d) := by
  refine ⟨activateHold_of_used D g, fun _ => activateHold_holdUsed D g, lockCurrent_holdUsed D g,
    lockCurrent_holdUsed D _, activateHold_of_used D _ (activateHold_holdUsed D g), ?_, ?_⟩
  · intro dx dy
    exact activateHold_of_used D _ (by rw [tryMove_holdUsed, activateHold_holdUsed])
  · intro d
    exact activateHold_of_used D _ (by rw [tryRotate_holdUsed, activateHold_holdUsed])

/-- C13. With the hold-used flag clear: if a piece is held, `activateHold` makes
the held kind the former current kind and the current piece the formerly held
kind at the spawn anchor (column 4, row 1) with rotation 0, and leaves the bag
buffer, the cursor, the generator, the board and the score unchanged; if
nothing is held, the held kind becomes the former current kind, the current
piece is the kind one call of `drawFromBag` returns (the bag is left as that
one call leaves it), at the spawn anchor with rotation 0, and board and score
are unchanged. -/
theorem activateHold_swaps_or_draws (D : Tables) (g : Game) (h : g.m_holdUsed = false) :
    (∀ held : Tetromino, g.m_held = some held →
      (activateHold D g).m_held.map Tetromino.type = some g.m_current.type ∧
      (activateHold D g).m_current = ⟨held.type, ⟨4, 1⟩, 0⟩ ∧
      (activateHold D g).m_bag = g.m_bag ∧
      (activateHold D g).m_bagIndex = g.m_bagIndex ∧
      (activateHold D g).m_rng = g.m_rng ∧
      (activateHold D g).m_board = g.m_board ∧
      (activateHold D g).m_score = g.m_score) ∧
    (g.m_held = none →
      (activateHold D g).m_held.map Tetromino.type = some g.m_current.type ∧
      (activateHold D g).m_current = ⟨(drawFromBag g).1, ⟨4, 1⟩, 0⟩ ∧
      (activateHold D g).m_bag = (drawFromBag g).2.m_bag ∧
      (activateHold D g).m_bagIndex = (drawFromBag g).2.m_bagIndex ∧
      (activateHold D g).m_rng = (drawFromBag g).2.m_rng ∧
      (activateHold D g).m_board = g.m_board ∧
      (activateHold D g).m_score = g.m_score) := by
  constructor
  · intro held hh
    rw [activateHold_of_held D g held h hh]
    have hs := spawnPiece_same D
      { g with m_holdUsed := true, m_held := some (Tetromino.new g.m_current.type) } held.type
    refine ⟨?_, spawnPiece_current D _ _, hs.1, hs.2.1, hs.2.2.1, spawnPiece_board D _ _,
      hs.2.2.2⟩
    rw [spawnPiece_held]
    rfl
  · intro hh
    rw [activateHold_of_none D g h hh]
    have hs := spawnPiece_same D
      (drawFromBag
        { g with m_holdUsed := true, m_held := some (Tetromino.new g.m_current.type) }).2
      (drawFromBag
        { g with m_holdUsed := true, m_held := some (Tetromino.new g.m_current.type) }).1
    have hc := @drawFromBag_congr
      { g with m_holdUsed := true, m_held := some (Tetromino.new g.m_current.type) } g rfl rfl rfl
    have hf := drawFromBag_fields
      { g with m_holdUsed := true, m_held := some (Tetromino.new g.m_current.type) }
    refine ⟨?_, ?_, hs.1.trans hc.2.1, hs.2.1.trans hc.2.2.1, hs.2.2.1.trans hc.2.2.2, ?_, ?_⟩
    · rw [spawnPiece_held, hf.2.1]
      rfl
    · rw [spawnPiece_current, hc.1]
    · rw [spawnPiece_board, hf.1]
    · rw [hs.2.2.2, hf.2.2.2.1]

end Game

namespace Game

theorem addScore_score (g : Game) (n : Int) :
    (addScore g n).m_score.score
      = if 0 < n ∧ n ≤ 4 then
          wrapInt32 (g.m_score.score + lineAward n g.m_score.level g.m_score.combo)
        else g.m_score.score := by
  unfold addScore lineAward
  simp only []
  by_cases hc : n > 0 ∧ n ≤ 4
  · have hc' : 0 < n ∧ n ≤ 4 := hc
    simp only [hc, hc', and_self, if_true, LINE_MULTIPLIERS]
    split_ifs <;> simp only [] <;> rw [wrapInt32_add_wrap] <;> congr 1 <;> ring
  · have hc' : ¬ (0 < n ∧ n ≤ 4) := hc
    simp only [hc, hc', if_false]
    split_ifs <;> rfl

theorem addScore_gravityAccum (g : Game) (n : Int) :
    (addScore g n).m_gravityAccum = g.m_gravityAccum := by
  unfold addScore
  simp only []
  split_ifs <;> rfl

theorem addScore_board (g : Game) (n : Int) : (addScore g n).m_board = g.m_board := by
  unfold addScore
  simp only []
  split_ifs <;> rfl

theorem addScore_bag (g : Game) (n : Int) :
    (addScore g n).m_bag = g.m_bag ∧ (addScore g n).m_bagIndex = g.m_bagIndex ∧
      (addScore g n).m_rng = g.m_rng := by
  unfold addScore
  simp only []
  split_ifs <;> exact ⟨rfl, rfl, rfl⟩

theorem tryMove_gravityAccum (D : Tables) (g : Game) (dx dy : Int) :
    (tryMove D g dx dy).m_gravityAccum = g.m_gravityAccum := by
  unfold tryMove
  simp only []
  split_ifs <;> rfl

theorem kickLoop_gravityAccum (D : Tables) (g : Game) (kd : KickData) (fromState : Fin 4)
    (toState : Int) :
    ∀ n k, (kickLoop D g kd fromState toState n k).m_gravityAccum = g.m_gravityAccum := by
  intro n
  induction n with
  | zero => intro k; rfl
  | succ n ih =>
    intro k
    unfold kickLoop
    simp only []
    split_ifs
    · rfl
    · exact ih (k + 1)
    · rfl

theorem tryRotate_gravityAccum (D : Tables) (g : Game) (d : Int) :
    (tryRotate D g d).m_gravityAccum = g.m_gravityAccum := by
  unfold tryRotate
  simp only []
  split_ifs <;> first | rfl | exact kickLoop_gravityAccum D g _ _ _ 5 0

theorem activateHold_gravityAccum (D : Tables) (g : Game) :
    (activateHold D g).m_gravityAccum = g.m_gravityAccum := by
  by_cases h : g.m_holdUsed = true
  · rw [activateHold_of_used D g h]
  · have hf : g.m_holdUsed = false := by simpa using h
    cases hh : g.m_held with
    | none =>
      rw [activateHold_of_none D g hf hh, spawnPiece_gravityAccum,
        (drawFromBag_fields _).2.2.2.2.2.2.1]
    | some held =>
      rw [activateHold_of_held D g held hf hh, spawnPiece_gravityAccum]

theorem lockCurrent_gravityAccum (D : Tables) (g : Game) :
    (lockCurrent D g).m_gravityAccum = g.m_gravityAccum := by
  unfold lockCurrent
  simp only []
  rw [spawnPiece_gravityAccum, (drawFromBag_fields _).2.2.2.2.2.2.1]
  exact addScore_gravityAccum _ _

theorem hardDrop_gravityAccum (D : Tables) (g : Game) :
    (hardDrop D g).m_gravityAccum = g.m_gravityAccum := by
  unfold hardDrop
  simp only []
  rw [lockCurrent_gravityAccum]

theorem applyInputs_gravityAccum (D : Tables) (g : Game) (input : InputHandler) :
    (applyInputs D g input).m_gravityAccum = g.m_gravityAccum := by
  unfold applyInputs
  simp only []
  have h1 : (if input.isActive Action.MoveLeft then tryMove D g (-1) 0 else g).m_gravityAccum
      = g.m_gravityAccum := by
    split_ifs
    · exact tryMove_gravityAccum D g _ _
    · rfl
  generalize (if input.isActive Action.MoveLeft then tryMove D g (-1) 0 else g) = g1 at h1 ⊢
  have h2 : (if input.isActive Action.MoveRight then tryMove D g1 1 0 else g1).m_gravityAccum
      = g.m_gravityAccum := by
    split_ifs
    · rw [tryMove_gravityAccum, h1]
    · exact h1
  generalize (if input.isActive Action.MoveRight then tryMove D g1 1 0 else g1) = g2 at h2 ⊢
  have h3 : (if input.isJustPressed Action.RotateCW then tryRotate D g2 1
      else g2).m_gravityAccum = g.m_gravityAccum := by
    split_ifs
    · rw [tryRotate_gravityAccum, h2]
    · exact h2
  generalize (if input.isJustPressed Action.RotateCW then tryRotate D g2 1 else g2) = g3 at h3 ⊢
  have h4 : (if input.isJustPressed Action.RotateCCW then tryRotate D g3 (-1)
      else g3).m_gravityAccum = g.m_gravityAccum := by
    split_ifs
    · rw [tryRotate_gravityAccum, h3]
    · exact h3
  generalize (if input.isJustPressed Action.RotateCCW then tryRotate D g3 (-1) else g3) = g4
    at h4 ⊢
  split_ifs
  · rw [activateHold_gravityAccum, h4]
  · exact h4

theorem hardDrop_lockTimer (D : Tables) (g : Game) : (hardDrop D g).m_lockTimer = 0 := by
  unfold hardDrop lockCurrent
  simp only []
  rw [spawnPiece_lockTimer]

theorem pauseToggle_clock (g : Game) (input : InputHandler) :
    (pauseToggle g input).m_gravityAccum = g.m_gravityAccum ∧
      (pauseToggle g input).m_lockTimer = g.m_lockTimer := by
  unfold pauseToggle
  split_ifs <;> exact ⟨rfl, rfl⟩

/-- An `update` call made in the Playing phase with hard-drop freshly triggered
returns for every `fuel`, and the state it returns has the gravity accumulator
it started with and a lock timer that is 0 or the one it started with. -/
theorem update_hardDrop_skips_timers (D : Tables) (fuel : Nat) (g : Game) (input : InputHandler)
    (dt : ℚ) (hs : g.m_state = GameState.Playing)
    (hd : input.isJustPressed Action.HardDrop = true) :
    ∃ flag g', update D fuel g input dt = some (flag, g') ∧
      g'.m_gravityAccum = g.m_gravityAccum ∧
      (g'.m_lockTimer = 0 ∨ g'.m_lockTimer = g.m_lockTimer) := by
  have hp := pauseToggle_clock g input
  unfold update
  simp only []
  split_ifs with hq h1 h2
  · exact ⟨false, g, rfl, rfl, Or.inr rfl⟩
  · exfalso
    revert h1
    unfold pauseToggle
    split_ifs <;> simp [hs]
  · exact ⟨true, _, rfl, hp.1, Or.inr hp.2⟩
  · refine ⟨true, _, rfl, ?_, Or.inl (hardDrop_lockTimer D _)⟩
    rw [hardDrop_gravityAccum, applyInputs_gravityAccum, hp.1]

theorem update_hardDrop_of_playing (D : Tables) (fuel : Nat) (g : Game) (input : InputHandler)
    (dt : ℚ) (hs : g.m_state = GameState.Playing)
    (hq : input.isJustPressed Action.Quit = false)
    (hp : input.isJustPressed Action.Pause = false)
    (hd : input.isJustPressed Action.HardDrop = true) :
    update D fuel g input dt = some (true, hardDrop D (applyInputs D g input)) := by
  have e : pauseToggle g input = g := by simp [pauseToggle, hp]
  simp [update, e, hs, hq, hd]

end Game

namespace Game

theorem spawn_after_draw (D : Tables) (X g : Game) (hb : X.m_bag = g.m_bag)
    (hi : X.m_bagIndex = g.m_bagIndex) (hr : X.m_rng = g.m_rng) :
    (spawnPiece D (drawFromBag X).2 (drawFromBag X).1).m_current
        = ⟨(drawFromBag g).1, ⟨4, 1⟩, 0⟩ ∧
      (spawnPiece D (drawFromBag X).2 (drawFromBag X).1).m_bag = (drawFromBag g).2.m_bag ∧
      (spawnPiece D (drawFromBag X).2 (drawFromBag X).1).m_bagIndex
        = (drawFromBag g).2.m_bagIndex ∧
      (spawnPiece D (drawFromBag X).2 (drawFromBag X).1).m_rng = (drawFromBag g).2.m_rng ∧
      (spawnPiece D (drawFromBag X).2 (drawFromBag X).1).m_board = X.m_board ∧
      (spawnPiece D (drawFromBag X).2 (drawFromBag X).1).m_score = X.m_score := by
  have hc := drawFromBag_congr hb hi hr
  have hs := spawnPiece_same D (drawFromBag X).2 (drawFromBag X).1
  have hf := drawFromBag_fields X
  refine ⟨?_, hs.1.trans hc.2.1, hs.2.1.trans hc.2.2.1, hs.2.2.1.trans hc.2.2.2, ?_, ?_⟩
  · rw [spawnPiece_current, hc.1]
  · rw [spawnPiece_board, hf.1]
  · rw [hs.2.2.2, hf.2.2.2.1]

theorem lockCurrent_form (D : Tables) (g : Game) :
    ∃ X : Game, lockCurrent D g = spawnPiece D (drawFromBag X).2 (drawFromBag X).1 ∧
      X.m_bag = g.m_bag ∧ X.m_bagIndex = g.m_bagIndex ∧ X.m_rng = g.m_rng ∧
      X.m_board = (g.m_board.lockPiece D g.m_current).1 ∧
      X.m_score.score
        = if 0 < (g.m_board.lockPiece D g.m_current).2 ∧ (g.m_board.lockPiece D g.m_current).2 ≤ 4
          then wrapInt32 (g.m_score.score
            + lineAward (g.m_board.lockPiece D g.m_current).2 g.m_score.level g.m_score.combo)
          else g.m_score.score := by
  refine ⟨_, rfl, ?_, ?_, ?_, ?_, ?_⟩
  · exact (addScore_bag { g with m_board := (g.m_board.lockPiece D g.m_current).1 } _).1
  · exact (addScore_bag { g with m_board := (g.m_board.lockPiece D g.m_current).1 } _).2.1
  · exact (addScore_bag { g with m_board := (g.m_board.lockPiece D g.m_current).1 } _).2.2
  · exact addScore_board { g with m_board := (g.m_board.lockPiece D g.m_current).1 } _
  · exact addScore_score { g with m_board := (g.m_board.lockPiece D g.m_current).1 }
      (g.m_board.lockPiece D g.m_current).2

/-- What `lockCurrent` leaves: the board of `lockPiece`, the score with the
line-clear award added as an `int`, and the piece and bag of one call of
`drawFromBag`. -/
theorem lockCurrent_facts (D : Tables) (g : Game) :
    (lockCurrent D g).m_board = (g.m_board.lockPiece D g.m_current).1 ∧
    (lockCurrent D g).m_score.score
      = (if 0 < (g.m_board.lockPiece D g.m_current).2 ∧ (g.m_board.lockPiece D g.m_current).2 ≤ 4
          then wrapInt32 (g.m_score.score
            + lineAward (g.m_board.lockPiece D g.m_current).2 g.m_score.level g.m_score.combo)
          else g.m_score.score) ∧
    (lockCurrent D g).m_current = ⟨(drawFromBag g).1, ⟨4, 1⟩, 0⟩ ∧
    (lockCurrent D g).m_bag = (drawFromBag g).2.m_bag ∧
    (lockCurrent D g).m_bagIndex = (drawFromBag g).2.m_bagIndex ∧
    (lockCurrent D g).m_rng = (drawFromBag g).2.m_rng := by
  obtain ⟨X, hX, hb, hi, hr, hboard, hscore⟩ := lockCurrent_form D g
  have h := spawn_after_draw D X g hb hi hr
  rw [hX]
  refine ⟨h.2.2.2.2.1.trans hboard, ?_, h.1, h.2.1, h.2.2.1, h.2.2.2.1⟩
  rw [h.2.2.2.2.2, hscore]

theorem hardDrop_form (D : Tables) (g : Game) :
    ∃ g1 : Game, hardDrop D g = lockCurrent D g1 ∧
      g1.m_bag = g.m_bag ∧ g1.m_bagIndex = g.m_bagIndex ∧ g1.m_rng = g.m_rng ∧
      g1.m_board = g.m_board ∧
      g1.m_current = g.m_current.setPosition
        (g.m_current.position + ⟨0, g.m_board.ghostDropDistance D g.m_current⟩) ∧
      g1.m_score.score
        = wrapInt32 (g.m_score.score + 2 * g.m_board.ghostDropDistance D g.m_current) ∧
      g1.m_score.level = g.m_score.level ∧ g1.m_score.combo = g.m_score.combo :=
  ⟨_, rfl, rfl, rfl, rfl, rfl, rfl, rfl, rfl, rfl⟩

/-- The score after `hardDrop` is the score before plus 2 per row dropped plus
the line-clear award, as an `int`. -/
theorem hardDrop_score (D : Tables) (g : Game) :
    ∃ g1 : Game, hardDrop D g = lockCurrent D g1 ∧ g1.m_board = g.m_board ∧
      g1.m_current = g.m_current.setPosition
        (g.m_current.position + ⟨0, g.m_board.ghostDropDistance D g.m_current⟩) ∧
      (hardDrop D g).m_score.score
        = wrapInt32 (g.m_score.score + 2 * g.m_board.ghostDropDistance D g.m_current
            + lineAward (g1.m_board.lockPiece D g1.m_current).2 g.m_score.level
                g.m_score.combo) := by
  obtain ⟨g1, e, -, -, -, hboard, hcur, hscore, hlevel, hcombo⟩ := hardDrop_form D g
  refine ⟨g1, e, hboard, hcur, ?_⟩
  rw [e, (lockCurrent_facts D g1).2.1, hscore, hlevel, hcombo]
  split_ifs with hc
  · rw [wrapInt32_add_wrap]
  · have h0 : lineAward (g1.m_board.lockPiece D g1.m_current).2 g.m_score.level g.m_score.combo
        = 0 := by
      unfold lineAward
      rw [if_neg hc]
    rw [h0, add_zero]

end Game

namespace Game

set_option maxRecDepth 100000 in
set_option maxHeartbeats 2000000 in
/-- Witness for C11: after the ten ticks of `firstLineScript` the phase is
Playing, the O piece stands at the spawn anchor and its placement is valid. -/
theorem current_piece_valid_witness :
    Reachable guidelineTables (played firstLineScript) ∧
    (played firstLineScript).m_state = GameState.Playing ∧
    (played firstLineScript).m_current = ⟨.O, ⟨4, 1⟩, 0⟩ ∧
    (played firstLineScript).m_board.isValidPosition guidelineTables
      (played firstLineScript).m_current (played firstLineScript).m_current.position
      (played firstLineScript).m_current.rotationState = true := by
  have hr : Reachable guidelineTables (played firstLineScript) := reachable_played _
  have hs : (played firstLineScript).m_state = GameState.Playing := by decide!
  have hc : (played firstLineScript).m_current = ⟨.O, ⟨4, 1⟩, 0⟩ := by decide!
  exact And.intro hr (And.intro hs (And.intro hc
    (current_piece_valid_unless_game_over guidelineTables (played firstLineScript) hr
      (Or.inl hs))))

set_option maxRecDepth 100000 in
set_option maxHeartbeats 2000000 in
/-- Witness for C13: in `towerGame` the O piece is current, a T piece is held and
hold is available; `activateHold` holds the O kind and puts the T kind at the
spawn anchor, with bag, board and score as before. In `startGame` nothing is
held; `activateHold` holds the I kind and spawns the J kind that `drawFromBag`
returns, moving the cursor from 1 to 2. -/
theorem activateHold_witness :
    towerGame.m_holdUsed = false ∧ towerGame.m_held = some (Tetromino.new .T) ∧
    (activateHold guidelineTables towerGame).m_held.map Tetromino.type = some .O ∧
    (activateHold guidelineTables towerGame).m_current = ⟨.T, ⟨4, 1⟩, 0⟩ ∧
    (activateHold guidelineTables towerGame).m_bagIndex = 1 ∧
    (activateHold guidelineTables towerGame).m_board = towerGame.m_board ∧
    startGame.m_holdUsed = false ∧ startGame.m_held = none ∧
    (activateHold guidelineTables startGame).m_held.map Tetromino.type = some .I ∧
    (activateHold guidelineTables startGame).m_current = ⟨.J, ⟨4, 1⟩, 0⟩ ∧
    (activateHold guidelineTables startGame).m_bagIndex = 2 := by
  have h1 := (activateHold_swaps_or_draws guidelineTables towerGame (by decide!)).1
    (Tetromino.new .T) (by decide!)
  have h2 := (activateHold_swaps_or_draws guidelineTables startGame (by decide!)).2 (by decide!)
  exact ⟨by decide!, by decide!, by decide!, by decide!, by decide!, h1.2.2.2.2.2.1,
    by decide!, by decide!, by decide!, by decide!, by decide!⟩

end Game

namespace InputHandler

/-- One call of `update` steps the key state of every action once. -/
theorem update_states (h : InputHandler) (dt : ℚ) (a : Action) :
    (h.update dt).m_states a = stepKey (usesDAS a) (h.m_states a) dt := by
  cases a <;> simp [update, allActions, Function.update]

theorem stepKey_justPressed (das : Bool) (s : KeyState) (dt : ℚ) :
    (stepKey das s dt).justPressed = false := by
  simp only [stepKey]
  split_ifs <;> rfl

theorem update_isJustPressed (h : InputHandler) (dt : ℚ) (a : Action) :
    (h.update dt).isJustPressed a = false := by
  simp only [isJustPressed, update_states, stepKey_justPressed]

end InputHandler

namespace InputHandler

/-- A key-press event for the key of an action that is not held writes the
pressed state to that action. -/
theorem handleEvent_press_states (h : InputHandler) (a : Action)
    (hh : (h.m_states a).held = false) :
    (h.handleEvent (Event.KeyPressed (bindingFor a))).m_states a
      = (⟨true, true, true, 0, false, 0⟩ : KeyState) := by
  cases a <;> simp [handleEvent, allActions, pressStep, bindingFor, Function.update, hh]

theorem stepKey_pressed_not_fired (das : Bool) (dt : ℚ) (hdt : dt < DAS_DELAY) :
    (stepKey das (⟨true, true, true, 0, false, 0⟩ : KeyState) dt).firedThisFrame = false := by
  simp only [stepKey]
  split_ifs with h1 h2 h3
  · exact absurd h2 (by simp only [zero_add, ge_iff_le, not_le]; exact hdt)
  · exact absurd h2 (by simp only [zero_add, ge_iff_le, not_le]; exact hdt)
  · rfl
  · rfl

end InputHandler

namespace InputHandler

set_option maxRecDepth 100000 in
set_option maxHeartbeats 2000000 in
/-- C17 (evaluation of the code). Right after `handleEvent` for the key of an
action that was not held, `isJustPressed(action)` is true; but `update(dt)`
clears the flag of every action, so in the handler that `Game::update` reads
after `handleEvent`, then `update(dt)`, `isJustPressed` is false for every
action, every handler state, every list of events and every `dt`, and
`isActive` is false too on the frame of the press whenever `dt < 0.15`.  For
instance, pressing Space in a new handler with `dt = 1/60` leaves
`isJustPressed(HardDrop)` and `isActive(HardDrop)` false, and the game tick that
reads this handler does not drop the piece: the I piece is still at the spawn
anchor and nothing was drawn from the bag. -/
theorem fresh_press_cleared_before_game_tick :
    (∀ (h : InputHandler) (a : Action), (h.m_states a).held = false →
      (h.handleEvent (Event.KeyPressed (bindingFor a))).isJustPressed a = true) ∧
    (∀ (h : InputHandler) (events : List Event) (dt : ℚ) (a : Action),
      (pollFrame h events dt).isJustPressed a = false) ∧
    (∀ (h : InputHandler) (a : Action) (dt : ℚ), (h.m_states a).held = false → dt < DAS_DELAY →
      (pollFrame h [Event.KeyPressed (bindingFor a)] dt).isActive a = false) ∧
    (new.m_states Action.HardDrop).held = false ∧
    (new.handleEvent (Event.KeyPressed Key.Space)).isJustPressed Action.HardDrop = true ∧
    (pollFrame new [Event.KeyPressed Key.Space] (1 / 60)).isJustPressed Action.HardDrop = false ∧
    (pollFrame new [Event.KeyPressed Key.Space] (1 / 60)).isActive Action.HardDrop = false ∧
    (Game.update guidelineTables 1 startGame
        (pollFrame new [Event.KeyPressed Key.Space] (1 / 60)) (1 / 60)).map
      (fun r => (r.1, r.2.m_current, r.2.m_bagIndex, r.2.m_score.score))
      = some (true, ⟨.I, ⟨4, 1⟩, 0⟩, 1, 0) ∧
    (Game.update guidelineTables 1 startGame (pressed [Action.HardDrop]) (1 / 60)).map
      (fun r => (r.1, r.2.m_current, r.2.m_bagIndex, r.2.m_score.score))
      = some (true, ⟨.J, ⟨4, 1⟩, 0⟩, 2, 38) := by
  refine ⟨?_, ?_, ?_, by decide!, by decide!, by decide!, by decide!, by decide!, by decide!⟩
  · intro h a hh
    simp only [isJustPressed, handleEvent_press_states h a hh]
  · intro h events dt a
    exact update_isJustPressed _ dt a
  · intro h a dt hh hdt
    simp only [isActive, pollFrame, List.foldl_cons, List.foldl_nil, update_states,
      handleEvent_press_states h a hh, stepKey_justPressed, stepKey_pressed_not_fired _ dt hdt,
      Bool.or_self]

end InputHandler

namespace Game

set_option maxRecDepth 100000 in
set_option maxHeartbeats 2000000 in
/-- C15 (evaluation of the code). In the Playing state `startGame` (I piece at
the spawn anchor `(4, 1)` on an empty board, score 0) with soft-drop held:
a tick with `dt = 1/100` leaves the piece where it is (0 rows advanced) and a
tick with `dt = 1/10` moves it to `(4, 3)` (2 rows advanced); both add exactly 1
to the score.  In neither tick is there a hard drop or a lock: the piece is the
same I piece and nothing was drawn from the bag. -/
theorem softDrop_adds_one_point_per_tick :
    startGame.m_state = GameState.Playing ∧
    (pressed [Action.SoftDrop]).isHeld Action.SoftDrop = true ∧
    (pressed [Action.SoftDrop]).isJustPressed Action.HardDrop = false ∧
    (startGame.m_current, startGame.m_bagIndex, startGame.m_score.score)
      = (⟨.I, ⟨4, 1⟩, 0⟩, 1, 0) ∧
    (update guidelineTables 5 startGame (pressed [Action.SoftDrop]) (1 / 100)).map
      (fun r => (r.1, r.2.m_state, r.2.m_current, r.2.m_bagIndex, r.2.m_score.score))
      = some (true, GameState.Playing, ⟨.I, ⟨4, 1⟩, 0⟩, 1, 1) ∧
    (update guidelineTables 5 startGame (pressed [Action.SoftDrop]) (1 / 10)).map
      (fun r => (r.1, r.2.m_state, r.2.m_current, r.2.m_bagIndex, r.2.m_score.score))
      = some (true, GameState.Playing, ⟨.I, ⟨4, 3⟩, 0⟩, 1, 1) := by
  refine ⟨by decide!, by decide!, by decide!, by decide!, by decide!, by decide!⟩

end Game

namespace Game

theorem spawnPiece_state (D : Tables) (g : Game) (t : TetrominoType) :
    (spawnPiece D g t).m_state
      = if g.m_board.isValidPosition D ⟨t, ⟨4, 1⟩, 0⟩ ⟨4, 1⟩ 0 = true then g.m_state
        else GameState.GameOver := by
  unfold spawnPiece
  simp only []
  split_ifs with h1 h2 h2
  · exact absurd h2 (by simpa using h1)
  · rfl
  · rfl
  · exact absurd (by simpa using h1) h2

/-- On a board with no occupied cell a placement is valid as soon as its cells
lie on the grid. -/
theorem isValidPosition_of_empty (D : Tables) (b : Board) (piece : Tetromino) (pos : Vector2i)
    (rot : Int) (hb : ∀ r k, b.m_cells r k = EMPTY_COLOR)
    (hin : ∀ c ∈ piece.worldCellsAt D pos rot, 0 ≤ c.x ∧ c.x < 10 ∧ 0 ≤ c.y ∧ c.y < 22) :
    b.isValidPosition D piece pos rot = true := by
  rw [Board.isValidPosition_iff_cellAt]
  intro c hc
  exact ⟨(b.isInBounds_iff c.x c.y).2 (hin c hc), hb _ _⟩

theorem resetFields_facts (g : Game) :
    (∀ r k, (resetFields g).m_board.m_cells r k = EMPTY_COLOR) ∧
    (resetFields g).m_score = {} ∧ (resetFields g).m_held = none ∧
    (resetFields g).m_holdUsed = false ∧ (resetFields g).m_gravityAccum = 0 ∧
    (resetFields g).m_state = GameState.Playing :=
  ⟨fun _ _ => rfl, rfl, rfl, rfl, rfl, rfl⟩

theorem reset_form (D : Tables) (g : Game) :
    ∃ X : Game, reset D g = spawnPiece D X (X.m_bag 0) ∧ X.m_bag = (resetFields g).m_bag ∧
      X.m_bagIndex = 1 ∧ X.m_board = (resetFields g).m_board ∧ X.m_score = {} ∧
      X.m_held = none ∧ X.m_holdUsed = false ∧ X.m_gravityAccum = 0 ∧
      X.m_state = GameState.Playing := by
  refine ⟨{ resetFields g with m_bagIndex := 1 }, ?_, rfl, rfl, rfl, rfl, rfl, rfl, rfl, rfl⟩
  unfold reset
  simp only []
  rw [drawFromBag_of_lt (resetFields g) (by simp [resetFields_bagIndex])]
  rfl

theorem reset_facts (D : Tables) (g : Game) :
    (∀ r k, (reset D g).m_board.m_cells r k = EMPTY_COLOR) ∧
    (reset D g).m_score = {} ∧ (reset D g).m_held = none ∧ (reset D g).m_holdUsed = false ∧
    (reset D g).m_gravityAccum = 0 ∧ (reset D g).m_lockTimer = 0 ∧
    (reset D g).m_bag = (resetFields g).m_bag ∧ (reset D g).m_bagIndex = 1 ∧
    (reset D g).m_current = ⟨(reset D g).m_bag 0, ⟨4, 1⟩, 0⟩ ∧
    (SpawnFits D → (reset D g).m_state = GameState.Playing) := by
  obtain ⟨X, e, hbag, hidx, hboard, hscore, hheld, hused, hacc, hstate⟩ := reset_form D g
  have hs := spawnPiece_same D X (X.m_bag 0)
  rw [e]
  refine ⟨?_, ?_, ?_, ?_, ?_, spawnPiece_lockTimer D _ _, ?_, ?_, ?_, ?_⟩
  · intro r k
    rw [spawnPiece_board, hboard]
    rfl
  · rw [hs.2.2.2, hscore]
  · rw [spawnPiece_held, hheld]
  · rw [spawnPiece_holdUsed, hused]
  · rw [spawnPiece_gravityAccum, hacc]
  · rw [hs.1, hbag]
  · rw [hs.2.1, hidx]
  · rw [spawnPiece_current, hs.1]
  · intro hfit
    rw [spawnPiece_state, if_pos, hstate]
    apply isValidPosition_of_empty
    · intro r k
      rw [hboard]
      rfl
    · exact hfit (X.m_bag 0)

theorem bag_halves_of_resetFields (g : Game) :
    Function.Bijective (fun i : Fin 7 => (resetFields g).m_bag ⟨i.val, by omega⟩) ∧
    Function.Bijective (fun i : Fin 7 => (resetFields g).m_bag ⟨i.val + 7, by omega⟩) := by
  have h0 := slot_resetFields_bijective g 0
  have h1 := slot_resetFields_bijective g 1
  have e0 : (fun i : Fin 7 => slot (resetFields g) 0 i.val)
      = fun i : Fin 7 => (resetFields g).m_bag ⟨i.val, by omega⟩ := by
    funext i
    simp [slot, i.isLt]
  have e1 : (fun i : Fin 7 => slot (resetFields g) 1 i.val)
      = fun i : Fin 7 => (resetFields g).m_bag ⟨i.val + 7, by omega⟩ := by
    funext i
    simp [slot, i.isLt]
  rw [e0] at h0
  rw [e1] at h1
  exact ⟨h0, h1⟩

end Game

namespace Game

/-- C16. For every GameOver state, whatever its board, score, held piece and
bag, an `update` call with hard-drop freshly triggered and quit not triggered
returns `true` with a state in which every board cell is empty, score, lines and
combo are 0 and level is 1, nothing is held, the hold-used flag is clear, the
gravity accumulator and the lock timer are 0, each half of the bag holds every
kind once, the cursor is 1 and the current piece is the first bag entry at the
spawn anchor `(4, 1)` in rotation state 0; the phase is Playing, given that the
shape table places every new piece at the spawn anchor on the grid. -/
theorem gameOver_hardDrop_restarts (D : Tables) (fuel : Nat) (g : Game) (input : InputHandler)
    (dt : ℚ) (hfit : SpawnFits D) (hs : g.m_state = GameState.GameOver)
    (hd : input.isJustPressed Action.HardDrop = true)
    (hq : input.isJustPressed Action.Quit = false) :
    ∃ g' : Game, update D fuel g input dt = some (true, g') ∧
      (∀ r k, g'.m_board.m_cells r k = EMPTY_COLOR) ∧
      g'.m_score.score = 0 ∧ g'.m_score.level = 1 ∧ g'.m_score.lines = 0 ∧
      g'.m_score.combo = 0 ∧ g'.m_held = none ∧ g'.m_holdUsed = false ∧
      g'.m_gravityAccum = 0 ∧ g'.m_lockTimer = 0 ∧
      Function.Bijective (fun i : Fin 7 => g'.m_bag ⟨i.val, by omega⟩) ∧
      Function.Bijective (fun i : Fin 7 => g'.m_bag ⟨i.val + 7, by omega⟩) ∧
      g'.m_bagIndex = 1 ∧ g'.m_current = ⟨g'.m_bag 0, ⟨4, 1⟩, 0⟩ ∧
      g'.m_state = GameState.Playing := by
  have ep : pauseToggle g input = g := by
    unfold pauseToggle
    split_ifs with h1 h2 h3
    · rw [hs] at h2; cases h2
    · rw [hs] at h3; cases h3
    · rfl
    · rfl
  have eu : update D fuel g input dt = some (true, reset D g) := by
    unfold update
    simp only [hq, ep, hs, hd, if_true, Bool.false_eq_true, if_false]
  have hf := reset_facts D g
  have hb := bag_halves_of_resetFields g
  refine ⟨reset D g, eu, hf.1, ?_, ?_, ?_, ?_, hf.2.2.1, hf.2.2.2.1, hf.2.2.2.2.1,
    hf.2.2.2.2.2.1, ?_, ?_, hf.2.2.2.2.2.2.2.1, hf.2.2.2.2.2.2.2.2.1,
    hf.2.2.2.2.2.2.2.2.2 hfit⟩
  · rw [hf.2.1]
  · rw [hf.2.1]
  · rw [hf.2.1]
  · rw [hf.2.1]
  · rw [hf.2.2.2.2.2.2.1]; exact hb.1
  · rw [hf.2.2.2.2.2.2.1]; exact hb.2

theorem spawnFits_guidelineTables : SpawnFits guidelineTables := by
  intro t
  cases t <;> decide!

set_option maxRecDepth 100000 in
set_option maxHeartbeats 2000000 in
/-- Witness for C16: the guideline shapes place every new piece on the grid;
the state `towerGame` after a hold is GameOver with a filled board, and a tick
with hard-drop freshly pressed restarts it: the phase is Playing, the board is
empty, the score is 0 at level 1, the cursor is 1 and the current piece is the
I piece, first of the new bag, at the spawn anchor. -/
theorem gameOver_hardDrop_restarts_witness :
    SpawnFits guidelineTables ∧
    (activateHold guidelineTables towerGame).m_state = GameState.GameOver ∧
    (activateHold guidelineTables towerGame).m_board.m_cells 21 0 ≠ EMPTY_COLOR ∧
    (∃ g' : Game,
      update guidelineTables 0 (activateHold guidelineTables towerGame)
        (pressed [Action.HardDrop]) (1 / 60) = some (true, g') ∧
      (∀ r k, g'.m_board.m_cells r k = EMPTY_COLOR) ∧
      g'.m_score.score = 0 ∧ g'.m_score.level = 1 ∧ g'.m_score.lines = 0 ∧
      g'.m_score.combo = 0 ∧ g'.m_held = none ∧ g'.m_holdUsed = false ∧
      g'.m_gravityAccum = 0 ∧ g'.m_lockTimer = 0 ∧
      Function.Bijective (fun i : Fin 7 => g'.m_bag ⟨i.val, by omega⟩) ∧
      Function.Bijective (fun i : Fin 7 => g'.m_bag ⟨i.val + 7, by omega⟩) ∧
      g'.m_bagIndex = 1 ∧ g'.m_current = ⟨g'.m_bag 0, ⟨4, 1⟩, 0⟩ ∧
      g'.m_state = GameState.Playing) ∧
    (update guidelineTables 0 (activateHold guidelineTables towerGame)
        (pressed [Action.HardDrop]) (1 / 60)).map
      (fun r => (r.2.m_state, r.2.m_current, r.2.m_bagIndex, r.2.m_score.score))
      = some (GameState.Playing, ⟨.I, ⟨4, 1⟩, 0⟩, 1, 0) := by
  have hfit : SpawnFits guidelineTables := spawnFits_guidelineTables
  exact ⟨hfit, by decide!, by decide!,
    gameOver_hardDrop_restarts guidelineTables 0 (activateHold guidelineTables towerGame)
      (pressed [Action.HardDrop]) (1 / 60) hfit (by decide!) (by decide!) (by decide!),
    by decide!⟩

end Game

namespace Game

theorem spawnPiece_state_or (D : Tables) (g : Game) (t : TetrominoType) :
    (spawnPiece D g t).m_state = g.m_state ∨ (spawnPiece D g t).m_state = GameState.GameOver := by
  rw [spawnPiece_state]
  split_ifs
  · exact Or.inl rfl
  · exact Or.inr rfl

theorem tryMove_state (D : Tables) (g : Game) (dx dy : Int) :
    (tryMove D g dx dy).m_state = g.m_state := by
  unfold tryMove
  simp only []
  split_ifs <;> rfl

theorem kickLoop_state (D : Tables) (kickData : KickData) (fromState : Fin 4) (toState : Int) :
    ∀ (n k : Nat) (g : Game), (kickLoop D g kickData fromState toState n k).m_state = g.m_state := by
  intro n
  induction n with
  | zero => intro k g; rfl
  | succ n ih =>
    intro k g
    unfold kickLoop
    simp only []
    split_ifs
    · rfl
    · exact ih _ _
    · rfl

theorem tryRotate_state (D : Tables) (g : Game) (direction : Int) :
    (tryRotate D g direction).m_state = g.m_state := by
  unfold tryRotate
  simp only []
  split_ifs <;> first | rfl | exact kickLoop_state D _ _ _ _ _ _

theorem addScore_state (g : Game) (n : Int) : (addScore g n).m_state = g.m_state := by
  unfold addScore
  simp only []
  split_ifs <;> rfl

theorem spawn_draw_state_or (D : Tables) (X : Game) :
    (spawnPiece D (drawFromBag X).2 (drawFromBag X).1).m_state = X.m_state ∨
      (spawnPiece D (drawFromBag X).2 (drawFromBag X).1).m_state = GameState.GameOver := by
  have h := spawnPiece_state_or D (drawFromBag X).2 (drawFromBag X).1
  rw [(drawFromBag_fields X).2.2.2.2.2.1] at h
  exact h

theorem lockCurrent_state_or (D : Tables) (g : Game) :
    (lockCurrent D g).m_state = g.m_state ∨ (lockCurrent D g).m_state = GameState.GameOver := by
  have h := spawn_draw_state_or D
    { addScore { g with m_board := (g.m_board.lockPiece D g.m_current).1 }
        (g.m_board.lockPiece D g.m_current).2 with m_holdUsed := false }
  have e : ({ addScore { g with m_board := (g.m_board.lockPiece D g.m_current).1 }
        (g.m_board.lockPiece D g.m_current).2 with m_holdUsed := false } : Game).m_state
      = g.m_state :=
    addScore_state { g with m_board := (g.m_board.lockPiece D g.m_current).1 } _
  rw [e] at h
  exact h

theorem hardDrop_state_or (D : Tables) (g : Game) :
    (hardDrop D g).m_state = g.m_state ∨ (hardDrop D g).m_state = GameState.GameOver := by
  unfold hardDrop
  simp only []
  exact lockCurrent_state_or D _

end Game

namespace Game

theorem state_or_trans {a b c : GameState} (h2 : c = b ∨ c = GameState.GameOver)
    (h1 : b = a ∨ b = GameState.GameOver) : c = a ∨ c = GameState.GameOver := by
  rcases h2 with h2 | h2
  · rw [h2]; exact h1
  · exact Or.inr h2

theorem activateHold_state_or (D : Tables) (g : Game) :
    (activateHold D g).m_state = g.m_state ∨ (activateHold D g).m_state = GameState.GameOver := by
  by_cases h : g.m_holdUsed = true
  · rw [activateHold_of_used D g h]; exact Or.inl rfl
  · have hf : g.m_holdUsed = false := by simpa using h
    cases hh : g.m_held with
    | none =>
      rw [activateHold_of_none D g hf hh]
      exact spawn_draw_state_or D _
    | some held =>
      rw [activateHold_of_held D g held hf hh]
      exact spawnPiece_state_or D _ _

theorem applyInputs_state_or (D : Tables) (g : Game) (input : InputHandler) :
    (applyInputs D g input).m_state = g.m_state ∨
      (applyInputs D g input).m_state = GameState.GameOver := by
  unfold applyInputs
  simp only []
  have h1 : (if input.isActive Action.MoveLeft then tryMove D g (-1) 0 else g).m_state
      = g.m_state := by
    split_ifs
    · exact tryMove_state D g _ _
    · rfl
  generalize (if input.isActive Action.MoveLeft then tryMove D g (-1) 0 else g) = g1 at h1 ⊢
  have h2 : (if input.isActive Action.MoveRight then tryMove D g1 1 0 else g1).m_state
      = g.m_state := by
    split_ifs
    · rw [tryMove_state]; exact h1
    · exact h1
  generalize (if input.isActive Action.MoveRight then tryMove D g1 1 0 else g1) = g2 at h2 ⊢
  have h3 : (if input.isJustPressed Action.RotateCW then tryRotate D g2 1 else g2).m_state
      = g.m_state := by
    split_ifs
    · rw [tryRotate_state]; exact h2
    · exact h2
  generalize (if input.isJustPressed Action.RotateCW then tryRotate D g2 1 else g2) = g3 at h3 ⊢
  have h4 : (if input.isJustPressed Action.RotateCCW then tryRotate D g3 (-1) else g3).m_state
      = g.m_state := by
    split_ifs
    · rw [tryRotate_state]; exact h3
    · exact h3
  generalize (if input.isJustPressed Action.RotateCCW then tryRotate D g3 (-1) else g3) = g4
    at h4 ⊢
  split_ifs
  · rw [← h4]; exact activateHold_state_or D g4
  · exact Or.inl h4

theorem gravityLoop_state (D : Tables) (eff : ℚ) :
    ∀ (fuel : Nat) (g g' : Game), gravityLoop D eff fuel g = some g' →
      g'.m_state = g.m_state := by
  intro fuel
  induction fuel with
  | zero =>
    intro g g' hg
    unfold gravityLoop at hg
    split_ifs at hg
    cases hg
    rfl
  | succ fuel ih =>
    intro g g' hg
    unfold gravityLoop at hg
    simp only [] at hg
    split_ifs at hg with ha hv
    · refine (ih _ _ hg).trans ?_
      rfl
    · refine (ih _ _ hg).trans ?_
      rfl
    · cases hg; rfl

theorem beforeGravity_state (D : Tables) (g : Game) (input : InputHandler) (dt : ℚ) :
    (beforeGravity D g input dt).m_state = g.m_state := by
  unfold beforeGravity
  simp only []
  split_ifs <;> rfl

theorem lockDelayStep_state_or (D : Tables) (g : Game) (dt : ℚ) :
    (lockDelayStep D g dt).m_state = g.m_state ∨
      (lockDelayStep D g dt).m_state = GameState.GameOver := by
  unfold lockDelayStep
  simp only []
  split_ifs
  · exact lockCurrent_state_or D _
  · exact Or.inl rfl
  · exact Or.inl rfl

/-- The part of `update` after the phase tests, as one expression: the input
block, then either the hard drop or soft-drop point, gravity and lock delay. -/
theorem update_of_running (D : Tables) (fuel : Nat) (g : Game) (input : InputHandler) (dt : ℚ)
    (hq : input.isJustPressed Action.Quit = false)
    (hs : (pauseToggle g input).m_state = GameState.Playing) :
    update D fuel g input dt
      = if input.isJustPressed Action.HardDrop = true then
          some (true, hardDrop D (applyInputs D (pauseToggle g input) input))
        else
          (gravityLoop D (effectiveInterval (applyInputs D (pauseToggle g input) input) input)
            fuel (beforeGravity D (applyInputs D (pauseToggle g input) input) input dt)).map
            fun x => (true, lockDelayStep D x dt) := by
  unfold update
  simp only []
  generalize pauseToggle g input = p at hs ⊢
  rw [if_neg (by simp [hq]), if_neg (by rw [hs]; decide), if_neg (by rw [hs]; decide)]
  split_ifs
  · rfl
  · cases gravityLoop D (effectiveInterval (applyInputs D p input) input)
        fuel (beforeGravity D (applyInputs D p input) input dt) <;> rfl

/-- A call of `update` that passes the phase tests ends in Playing or GameOver. -/
theorem update_running_state (D : Tables) (fuel : Nat) (g g' : Game) (input : InputHandler)
    (dt : ℚ) (flag : Bool) (hq : input.isJustPressed Action.Quit = false)
    (hs : (pauseToggle g input).m_state = GameState.Playing)
    (hu : update D fuel g input dt = some (flag, g')) :
    g'.m_state = GameState.Playing ∨ g'.m_state = GameState.GameOver := by
  rw [update_of_running D fuel g input dt hq hs] at hu
  have ha := applyInputs_state_or D (pauseToggle g input) input
  rw [hs] at ha
  split_ifs at hu
  · cases hu
    exact state_or_trans (hardDrop_state_or D _) ha
  · cases hg : gravityLoop D (effectiveInterval (applyInputs D (pauseToggle g input) input) input)
        fuel (beforeGravity D (applyInputs D (pauseToggle g input) input) input dt) with
    | none => rw [hg] at hu; cases hu
    | some x =>
      rw [hg] at hu
      cases hu
      have hx := gravityLoop_state D _ _ _ _ hg
      rw [beforeGravity_state] at hx
      refine state_or_trans (lockDelayStep_state_or D x dt) ?_
      rw [hx]
      exact ha

end Game

namespace Game

theorem pauseToggle_of_not_pressed (g : Game) (input : InputHandler)
    (hp : input.isJustPressed Action.Pause = false) : pauseToggle g input = g := by
  simp [pauseToggle, hp]

theorem pauseToggle_of_playing (g : Game) (input : InputHandler)
    (hp : input.isJustPressed Action.Pause = true) (hs : g.m_state = GameState.Playing) :
    pauseToggle g input = { g with m_state := GameState.Paused } := by
  simp [pauseToggle, hp, hs]

theorem pauseToggle_of_paused (g : Game) (input : InputHandler)
    (hp : input.isJustPressed Action.Pause = true) (hs : g.m_state = GameState.Paused) :
    pauseToggle g input = { g with m_state := GameState.Playing } := by
  simp [pauseToggle, hp, hs]

theorem pauseToggle_of_gameOver (g : Game) (input : InputHandler)
    (hs : g.m_state = GameState.GameOver) : pauseToggle g input = g := by
  unfold pauseToggle
  split_ifs with h1 h2 h3
  · rw [hs] at h2; cases h2
  · rw [hs] at h3; cases h3
  · rfl
  · rfl

theorem update_of_paused (D : Tables) (fuel : Nat) (g : Game) (input : InputHandler) (dt : ℚ)
    (hq : input.isJustPressed Action.Quit = false)
    (hs : (pauseToggle g input).m_state = GameState.Paused) :
    update D fuel g input dt = some (true, pauseToggle g input) := by
  unfold update
  simp only []
  generalize pauseToggle g input = p at hs ⊢
  rw [if_neg (by simp [hq]), if_neg (by rw [hs]; decide), if_pos hs]

theorem update_of_gameOver (D : Tables) (fuel : Nat) (g : Game) (input : InputHandler) (dt : ℚ)
    (hq : input.isJustPressed Action.Quit = false) (hs : g.m_state = GameState.GameOver) :
    update D fuel g input dt
      = some (true, if input.isJustPressed Action.HardDrop = true then reset D g else g) := by
  unfold update
  simp only []
  rw [pauseToggle_of_gameOver g input hs, if_neg (by simp [hq]), if_pos hs]
  split_ifs <;> rfl

theorem update_of_quit (D : Tables) (fuel : Nat) (g : Game) (input : InputHandler) (dt : ℚ)
    (hq : input.isJustPressed Action.Quit = true) :
    update D fuel g input dt = some (false, g) := by
  unfold update
  rw [if_pos hq]

end Game

namespace Game

set_option maxRecDepth 100000 in
set_option maxHeartbeats 2000000 in
/-- C18 (counterexample). In the Paused state `pausedGame` the O piece rests on
the stack with the lock timer at 0.45: an `update` call with pause freshly
triggered, quit not triggered and `dt = 1/20` sets the phase to Playing, runs
on, locks the piece and fails to spawn the next one, so the call ends in
GameOver, not Playing.  In the GameOver state `towerGame` after a hold, an
`update` call with pause and hard-drop both freshly triggered resets the game and
ends in Playing, not GameOver. -/
theorem pause_from_paused_can_end_in_gameOver :
    pausedGame.m_state = GameState.Paused ∧
    (pressed [Action.Pause]).isJustPressed Action.Pause = true ∧
    (pressed [Action.Pause]).isJustPressed Action.Quit = false ∧
    (update guidelineTables 5 pausedGame (pressed [Action.Pause]) (1 / 20)).map
      (fun r => (r.1, r.2.m_state)) = some (true, GameState.GameOver) ∧
    (activateHold guidelineTables towerGame).m_state = GameState.GameOver ∧
    (pressed [Action.Pause, Action.HardDrop]).isJustPressed Action.Pause = true ∧
    (pressed [Action.Pause, Action.HardDrop]).isJustPressed Action.Quit = false ∧
    (update guidelineTables 5 (activateHold guidelineTables towerGame)
        (pressed [Action.Pause, Action.HardDrop]) (1 / 20)).map
      (fun r => (r.1, r.2.m_state)) = some (true, GameState.Playing) := by
  refine ⟨by decide!, by decide!, by decide!, by decide!, by decide!, by decide!, by decide!,
    by decide!⟩

/-- C18 (amended). For every game state and every `update` call with pause
freshly triggered and quit not triggered: from Playing the call returns the same
state with the phase Paused, so no move, rotation, hold, drop, gravity or
lock-delay is applied; from Paused the phase is set to Playing and the call runs
on as a Playing tick (inputs, then hard drop, or soft-drop point, gravity and
lock delay), ending in Playing or GameOver and never in Paused; from GameOver the
state is unchanged, unless hard-drop is freshly triggered too, which resets the
game.  With pause not freshly triggered, no `update` call takes Playing to Paused,
and from Paused the state is returned unchanged. -/
theorem pause_toggle_phases (D : Tables) (fuel : Nat) (g : Game) (input : InputHandler) (dt : ℚ)
    (hp : input.isJustPressed Action.Pause = true)
    (hq : input.isJustPressed Action.Quit = false) :
    (g.m_state = GameState.Playing →
      update D fuel g input dt = some (true, { g with m_state := GameState.Paused })) ∧
    (g.m_state = GameState.Paused →
      update D fuel g input dt
        = (if input.isJustPressed Action.HardDrop = true then
            some (true, hardDrop D (applyInputs D { g with m_state := GameState.Playing } input))
          else
            (gravityLoop D
              (effectiveInterval (applyInputs D { g with m_state := GameState.Playing } input)
                input)
              fuel
              (beforeGravity D (applyInputs D { g with m_state := GameState.Playing } input)
                input dt)).map
              fun x => (true, lockDelayStep D x dt)) ∧
      ∀ flag g', update D fuel g input dt = some (flag, g') →
        g'.m_state = GameState.Playing ∨ g'.m_state = GameState.GameOver) ∧
    (g.m_state = GameState.GameOver →
      update D fuel g input dt
        = some (true, if input.isJustPressed Action.HardDrop = true then reset D g else g)) ∧
    (∀ (input2 : InputHandler) (fuel2 : Nat) (dt2 : ℚ) (flag : Bool) (g' : Game),
      input2.isJustPressed Action.Pause = false →
      update D fuel2 g input2 dt2 = some (flag, g') →
        (g.m_state = GameState.Playing → g'.m_state ≠ GameState.Paused) ∧
        (g.m_state = GameState.Paused → g' = g)) := by
  refine ⟨?_, ?_, ?_, ?_⟩
  · intro hs
    have e := pauseToggle_of_playing g input hp hs
    have h := update_of_paused D fuel g input dt hq (by rw [e])
    rw [h, e]
  · intro hs
    have e := pauseToggle_of_paused g input hp hs
    have hrun : (pauseToggle g input).m_state = GameState.Playing := by rw [e]
    refine ⟨?_, ?_⟩
    · rw [update_of_running D fuel g input dt hq hrun, e]
    · intro flag g' hu
      exact update_running_state D fuel g g' input dt flag hq hrun hu
  · intro hs
    exact update_of_gameOver D fuel g input dt hq hs
  · intro input2 fuel2 dt2 flag g' hp2 hu
    have e := pauseToggle_of_not_pressed g input2 hp2
    cases hq2 : input2.isJustPressed Action.Quit with
    | true =>
      rw [update_of_quit D fuel2 g input2 dt2 hq2] at hu
      cases hu
      refine ⟨?_, fun _ => rfl⟩
      intro hs
      rw [hs]
      decide
    | false =>
      refine ⟨?_, ?_⟩
      · intro hs
        have hr := update_running_state D fuel2 g g' input2 dt2 flag hq2 (by rw [e]; exact hs) hu
        rcases hr with hr | hr <;> rw [hr] <;> decide
      · intro hs
        rw [update_of_paused D fuel2 g input2 dt2 hq2 (by rw [e]; exact hs), e] at hu
        cases hu
        rfl

set_option maxRecDepth 100000 in
set_option maxHeartbeats 2000000 in
/-- Witness for the amended C18: with pause freshly pressed and quit not, the
Playing state `startGame` is returned with the phase Paused and nothing else
changed, and every result of the call from the Paused state `pausedGame` is in
the phase Playing or GameOver. -/
theorem pause_toggle_phases_witness :
    (pressed [Action.Pause]).isJustPressed Action.Pause = true ∧
    (pressed [Action.Pause]).isJustPressed Action.Quit = false ∧
    startGame.m_state = GameState.Playing ∧
    update guidelineTables 5 startGame (pressed [Action.Pause]) (1 / 20)
      = some (true, { startGame with m_state := GameState.Paused }) ∧
    pausedGame.m_state = GameState.Paused ∧
    (∀ flag g', update guidelineTables 5 pausedGame (pressed [Action.Pause]) (1 / 20)
        = some (flag, g') →
      g'.m_state = GameState.Playing ∨ g'.m_state = GameState.GameOver) := by
  have hp : (pressed [Action.Pause]).isJustPressed Action.Pause = true := by decide!
  have hq : (pressed [Action.Pause]).isJustPressed Action.Quit = false := by decide!
  have h1 : startGame.m_state = GameState.Playing := by decide!
  have h2 : pausedGame.m_state = GameState.Paused := by decide!
  exact ⟨hp, hq, h1,
    (pause_toggle_phases guidelineTables 5 startGame (pressed [Action.Pause]) (1 / 20) hp hq).1 h1,
    h2,
    ((pause_toggle_phases guidelineTables 5 pausedGame (pressed [Action.Pause]) (1 / 20)
      hp hq).2.1 h2).2⟩

end Game

namespace Board

/-- The loop of `clearRow` copies row `i - 1` into row `i` for every `i` from 1
to `r` and leaves the other rows alone. -/
theorem shiftDown_apply : ∀ (r : Nat) (h : r < 22) (cells : Fin 22 → Row) (i : Fin 22),
    shiftDown cells r h i
      = if h1 : 1 ≤ i.val ∧ i.val ≤ r then cells ⟨i.val - 1, by omega⟩ else cells i := by
  intro r
  induction r with
  | zero =>
    intro h cells i
    rw [dif_neg (by omega)]
    rfl
  | succ r ih =>
    intro h cells i
    rw [shiftDown, ih]
    by_cases h1 : 1 ≤ i.val ∧ i.val ≤ r
    · rw [dif_pos h1, dif_pos (by omega), Function.update_noteq]
      intro e
      have := congrArg Fin.val e
      simp only at this
      omega
    · rw [dif_neg h1]
      by_cases h2 : i.val = r + 1
      · have e : i = ⟨r + 1, h⟩ := Fin.ext h2
        rw [dif_pos (by omega)]
        subst e
        rw [Function.update_same]
        rfl
      · rw [dif_neg (by omega), Function.update_noteq]
        intro e
        exact h2 (congrArg Fin.val e)

theorem clearRow_apply (b : Board) (row i : Fin 22) :
    (b.clearRow row).m_cells i
      = if i.val = 0 then emptyRow
        else if i.val ≤ row.val then b.m_cells ⟨i.val - 1, by omega⟩ else b.m_cells i := by
  simp only [clearRow]
  by_cases h0 : i.val = 0
  · have e : i = 0 := Fin.ext h0
    rw [if_pos h0, e, Function.update_same]
  · rw [if_neg h0, Function.update_noteq (fun e => h0 (by rw [e]; rfl)), shiftDown_apply]
    by_cases hle : i.val ≤ row.val
    · rw [dif_pos ⟨by omega, hle⟩, if_pos hle]
    · rw [dif_neg (fun c => hle c.2), if_neg hle]

theorem filter_eq_singleton : ∀ r : Fin 22,
    (List.finRange 22).filter (fun x => decide (x = r)) = [r] := by
  decide

theorem findFullRows_of_single (b : Board) (r : Fin 22)
    (h : ∀ x : Fin 22, b.rowFull x = true ↔ x = r) : b.findFullRows = [r] := by
  have e : (fun x : Fin 22 => b.rowFull x) = fun x => decide (x = r) := by
    funext x
    by_cases hx : x = r
    · rw [(h x).2 hx]; simp [hx]
    · have : b.rowFull x = false := by
        cases hb : b.rowFull x with
        | false => rfl
        | true => exact absurd ((h x).1 hb) hx
      rw [this]; simp [hx]
  unfold findFullRows
  rw [e]
  exact filter_eq_singleton r

end Board

namespace Board

/-- C23. When exactly one row `r` is full after the cells of the piece are
written, `lockPiece` returns 1; row 0 of the result is entirely empty, every row
`i` with `1 <= i <= r` of the result is row `i - 1` of the board as it was just
after the write, and every row `i > r` is the row `i` of that board. -/
theorem lockPiece_single_full_row (D : Tables) (b : Board) (piece : Tetromino) (r : Fin 22)
    (h : ∀ x : Fin 22,
      (b.writeCells (piece.color D) (piece.worldCells D)).rowFull x = true ↔ x = r) :
    (b.lockPiece D piece).2 = 1 ∧
    (∀ k : Fin 10, (b.lockPiece D piece).1.m_cells 0 k = EMPTY_COLOR) ∧
    (∀ i : Fin 22, 1 ≤ i.val → i.val ≤ r.val →
      (b.lockPiece D piece).1.m_cells i
        = (b.writeCells (piece.color D) (piece.worldCells D)).m_cells ⟨i.val - 1, by omega⟩) ∧
    (∀ i : Fin 22, r.val < i.val →
      (b.lockPiece D piece).1.m_cells i
        = (b.writeCells (piece.color D) (piece.worldCells D)).m_cells i) := by
  have hf := findFullRows_of_single _ r h
  have e : b.lockPiece D piece
      = ((b.writeCells (piece.color D) (piece.worldCells D)).clearRow r, 1) := by
    simp only [lockPiece, hf, sortDescending, List.insertionSort, List.orderedInsert,
      List.foldl_cons, List.foldl_nil, List.length_singleton, Nat.cast_one]
  rw [e]
  refine ⟨rfl, ?_, ?_, ?_⟩
  · intro k
    rw [clearRow_apply, if_pos (by rfl)]
    rfl
  · intro i h1 h2
    rw [clearRow_apply, if_neg (by omega), if_pos h2]
  · intro i h1
    rw [clearRow_apply, if_neg (by omega), if_neg (by omega)]

set_option maxRecDepth 100000 in
set_option maxHeartbeats 2000000 in
/-- Witness for C23: on `lastGapBoard` row 21 is full but for column 9; the
vertical I piece in column 9 of rows 18 to 21 makes row 21, and no other row,
full. `lockPiece` returns 1, row 0 of the result is empty, and rows 19 to 21 of
the result are rows 18 to 20 as the write left them: row 21 holds columns 0 and
9, rows 19 and 20 column 9 only, and row 18 is empty again. -/
theorem lockPiece_single_full_row_witness :
    (∀ x : Fin 22,
      (lastGapBoard.writeCells (lastGapPiece.color guidelineTables)
        (lastGapPiece.worldCells guidelineTables)).rowFull x = true ↔ x = 21) ∧
    (lastGapBoard.lockPiece guidelineTables lastGapPiece).2 = 1 ∧
    (∀ k : Fin 10, (lastGapBoard.lockPiece guidelineTables lastGapPiece).1.m_cells 0 k
      = EMPTY_COLOR) ∧
    (∀ i : Fin 22, ∀ k : Fin 10,
      ((lastGapBoard.lockPiece guidelineTables lastGapPiece).1.m_cells i k ≠ EMPTY_COLOR ↔
        (19 ≤ i.val ∧ k.val = 9) ∨ (i.val = 21 ∧ k.val = 0))) := by
  have h : ∀ x : Fin 22,
      (lastGapBoard.writeCells (lastGapPiece.color guidelineTables)
        (lastGapPiece.worldCells guidelineTables)).rowFull x = true ↔ x = 21 := by decide!
  have t := lockPiece_single_full_row guidelineTables lastGapBoard lastGapPiece 21 h
  exact ⟨h, t.1, t.2.1, by decide!⟩

end Board

namespace Board

theorem rowFull_iff (b : Board) (r : Fin 22) :
    b.rowFull r = true ↔ ∀ k : Fin 10, b.m_cells r k ≠ EMPTY_COLOR := by
  simp [rowFull, List.all_eq_true]

theorem lockPiece_count (D : Tables) (b : Board) (piece : Tetromino) :
    (b.lockPiece D piece).2
      = (((b.writeCells (piece.color D) (piece.worldCells D)).findFullRows).length : Int) := by
  simp only [lockPiece, sortDescending, List.length_insertionSort]

theorem findFullRows_nodup (b : Board) : b.findFullRows.Nodup :=
  (List.nodup_finRange 22).filter _

theorem findFullRows_length_le (b : Board) : b.findFullRows.length ≤ 22 := by
  have h := List.length_filter_le (fun r => b.rowFull r) (List.finRange 22)
  rw [List.length_finRange] at h
  exact h

/-- A write of a list of cells onto a board without a full row makes at most as
many rows full as the list has cells. -/
theorem findFullRows_after_write (b : Board) (color : Color) (cells : List Vector2i)
    (hb : ∀ r : Fin 22, b.rowFull r = false) :
    ((b.writeCells color cells).findFullRows).length ≤ cells.length := by
  have hsub : ((b.writeCells color cells).findFullRows).map (fun r : Fin 22 => (r.val : Int))
      ⊆ cells.map (fun c => c.y) := by
    intro y hy
    obtain ⟨r, hr, rfl⟩ := List.mem_map.1 hy
    have hfull : (b.writeCells color cells).rowFull r = true := by
      simp only [findFullRows, List.mem_filter] at hr
      exact hr.2
    rw [rowFull_iff] at hfull
    have hnot : ¬ (∀ k : Fin 10, b.m_cells r k ≠ EMPTY_COLOR) := by
      rw [← rowFull_iff, hb r]
      exact Bool.false_ne_true
    push_neg at hnot
    obtain ⟨k, hk⟩ := hnot
    have hw := hfull k
    rw [writeCells_apply] at hw
    by_cases hex : ∃ c ∈ cells, c.y = (r.val : Int) ∧ c.x = (k.val : Int)
    · obtain ⟨c, hc, hy, _⟩ := hex
      exact List.mem_map.2 ⟨c, hc, hy⟩
    · rw [if_neg hex] at hw
      exact absurd hk hw
  have hnd : (((b.writeCells color cells).findFullRows).map
      (fun r : Fin 22 => (r.val : Int))).Nodup := by
    refine (findFullRows_nodup _).map ?_
    intro a c hac
    apply Fin.ext
    have : (a.val : Int) = (c.val : Int) := hac
    omega
  have hle := (hnd.subperm hsub).length_le
  simpa using hle

end Board

namespace Board

set_option maxRecDepth 100000 in
set_option maxHeartbeats 4000000 in
/-- C21 (evaluation of the code). The value `lockPiece` returns is always the
number of rows that are full after the write, it is between 0 and 22, and it is
at most 4 when the board had no full row before the call. But a board reached
from the empty board by `lockPiece` calls can have a full row: after the 20
locks of `fiveRowScript`, the last of which fills rows 20 and 21 together and
returns 2, row 21 is still full and rows 17 to 20 are full but for column 0.
Locking the vertical I piece `fiveRowPiece` into column 0 of rows 17 to 20 then
returns 5. -/
theorem lockPiece_returns_five :
    (∀ (D : Tables) (b : Board) (piece : Tetromino),
      (b.lockPiece D piece).2
        = (((b.writeCells (piece.color D) (piece.worldCells D)).findFullRows).length : Int) ∧
      0 ≤ (b.lockPiece D piece).2 ∧ (b.lockPiece D piece).2 ≤ 22) ∧
    (∀ (D : Tables) (b : Board) (piece : Tetromino), (∀ r : Fin 22, b.rowFull r = false) →
      (b.lockPiece D piece).2 ≤ 4) ∧
    fiveRowScript.length = 20 ∧
    ((lockAll guidelineTables fiveRowScript.dropLast).lockPiece guidelineTables
      ⟨.O, ⟨7, 20⟩, 0⟩).2 = 2 ∧
    (lockAll guidelineTables fiveRowScript).findFullRows = [21] ∧
    (∀ r : Fin 22, ∀ k : Fin 10,
      ((lockAll guidelineTables fiveRowScript).m_cells r k ≠ EMPTY_COLOR ↔
        r.val = 21 ∨ (17 ≤ r.val ∧ k.val ≠ 0))) ∧
    fiveRowPiece.worldCells guidelineTables = [⟨0, 17⟩, ⟨0, 18⟩, ⟨0, 19⟩, ⟨0, 20⟩] ∧
    ((lockAll guidelineTables fiveRowScript).lockPiece guidelineTables fiveRowPiece).2 = 5 := by
  refine ⟨?_, ?_, by decide!, by decide!, by decide!, by decide!, by decide!, by decide!⟩
  · intro D b piece
    rw [lockPiece_count]
    have h := findFullRows_length_le (b.writeCells (piece.color D) (piece.worldCells D))
    exact ⟨rfl, by omega, by omega⟩
  · intro D b piece hb
    rw [lockPiece_count]
    have h := findFullRows_after_write b (piece.color D) (piece.worldCells D) hb
    have h4 : (piece.worldCells D).length = 4 := by
      simp [Tetromino.worldCells, Tetromino.worldCellsAt]
    omega

end Board

namespace Game

/-- A property that the two moves, the rotation and the hold preserve is
preserved by the input block of `update`. -/
theorem applyInputs_preserves (D : Tables) (I : Game → Prop)
    (hmove : ∀ g dx dy, I g → I (tryMove D g dx dy))
    (hrot : ∀ g d, I g → I (tryRotate D g d))
    (hhold : ∀ g, I g → I (activateHold D g))
    (g0 : Game) (input : InputHandler) (hp : I g0) : I (applyInputs D g0 input) := by
  unfold applyInputs
  simp only []
  have h1 : I (if input.isActive Action.MoveLeft then tryMove D g0 (-1) 0 else g0) := by
    split_ifs
    · exact hmove g0 _ _ hp
    · exact hp
  generalize (if input.isActive Action.MoveLeft then tryMove D g0 (-1) 0 else g0) = g1 at h1 ⊢
  have h2 : I (if input.isActive Action.MoveRight then tryMove D g1 1 0 else g1) := by
    split_ifs
    · exact hmove g1 _ _ h1
    · exact h1
  generalize (if input.isActive Action.MoveRight then tryMove D g1 1 0 else g1) = g2 at h2 ⊢
  have h3 : I (if input.isJustPressed Action.RotateCW then tryRotate D g2 1 else g2) := by
    split_ifs
    · exact hrot g2 _ h2
    · exact h2
  generalize (if input.isJustPressed Action.RotateCW then tryRotate D g2 1 else g2) = g3
    at h3 ⊢
  have h4 : I (if input.isJustPressed Action.RotateCCW then tryRotate D g3 (-1) else g3) := by
    split_ifs
    · exact hrot g3 _ h3
    · exact h3
  generalize (if input.isJustPressed Action.RotateCCW then tryRotate D g3 (-1) else g3) = g4
    at h4 ⊢
  split_ifs
  · exact hhold g4 h4
  · exact h4

/-- A property that the pause block, the two moves, the rotation, the hold,
the hard drop, the soft-drop block, the gravity loop, the lock-delay block and
`reset` all preserve is preserved by every returning call of `update`. -/
theorem update_preserves (D : Tables) (I : Game → Prop)
    (hreset : ∀ g, I g → I (reset D g))
    (hpause : ∀ g input, I g → I (pauseToggle g input))
    (hmove : ∀ g dx dy, I g → I (tryMove D g dx dy))
    (hrot : ∀ g d, I g → I (tryRotate D g d))
    (hhold : ∀ g, I g → I (activateHold D g))
    (hdrop : ∀ g, I g → I (hardDrop D g))
    (hbefore : ∀ g input dt, I g → I (beforeGravity D g input dt))
    (hgrav : ∀ eff fuel g g', I g → gravityLoop D eff fuel g = some g' → I g')
    (hlock : ∀ g dt, I g → I (lockDelayStep D g dt))
    (fuel : Nat) (g g' : Game) (input : InputHandler) (dt : ℚ) (flag : Bool)
    (h : I g) (hu : update D fuel g input dt = some (flag, g')) : I g' := by
  have hp : I (pauseToggle g input) := hpause g input h
  have ha : I (applyInputs D (pauseToggle g input) input) :=
    applyInputs_preserves D I hmove hrot hhold _ input hp
  unfold update at hu
  simp only [] at hu
  split_ifs at hu
  · cases hu; exact h
  · cases hu; exact hreset _ hp
  · cases hu; exact hp
  · cases hu; exact hp
  · cases hu; exact hdrop _ ha
  · cases hg : gravityLoop D (effectiveInterval (applyInputs D (pauseToggle g input) input) input)
        fuel (beforeGravity D (applyInputs D (pauseToggle g input) input) input dt) with
    | none => rw [hg] at hu; cases hu
    | some g2 =>
      rw [hg] at hu
      cases hu
      exact hlock g2 dt (hgrav _ fuel _ g2 (hbefore _ input dt ha) hg)

end Game

namespace Game

theorem spawnPiece_ghostOK (D : Tables) (g : Game) (t : TetrominoType) :
    GhostOK D (spawnPiece D g t) := by
  unfold spawnPiece
  simp only []
  split_ifs <;> rfl

theorem tryMove_ghostOK (D : Tables) (g : Game) (dx dy : Int) (h : GhostOK D g) :
    GhostOK D (tryMove D g dx dy) := by
  unfold tryMove
  simp only []
  split_ifs
  · rfl
  · rfl
  · exact h

theorem kickLoop_ghostOK (D : Tables) (g : Game) (kd : KickData) (fromState : Fin 4)
    (toState : Int) (h : GhostOK D g) :
    ∀ n k, GhostOK D (kickLoop D g kd fromState toState n k) := by
  intro n
  induction n with
  | zero => intro k; exact h
  | succ n ih =>
    intro k
    unfold kickLoop
    simp only []
    split_ifs
    · rfl
    · exact ih (k + 1)
    · exact h

theorem tryRotate_ghostOK (D : Tables) (g : Game) (d : Int) (h : GhostOK D g) :
    GhostOK D (tryRotate D g d) := by
  unfold tryRotate
  simp only []
  split_ifs <;> first | exact h | exact kickLoop_ghostOK D g _ _ _ h 5 0

theorem lockCurrent_ghostOK (D : Tables) (g : Game) : GhostOK D (lockCurrent D g) :=
  spawnPiece_ghostOK D _ _

theorem hardDrop_ghostOK (D : Tables) (g : Game) : GhostOK D (hardDrop D g) :=
  spawnPiece_ghostOK D _ _

theorem reset_ghostOK (D : Tables) (g : Game) : GhostOK D (reset D g) :=
  spawnPiece_ghostOK D _ _

theorem activateHold_ghostOK (D : Tables) (g : Game) (h : GhostOK D g) :
    GhostOK D (activateHold D g) := by
  unfold activateHold
  split_ifs
  · exact h
  · simp only []
    cases g.m_held with
    | none => exact spawnPiece_ghostOK D _ _
    | some held => exact spawnPiece_ghostOK D _ _

theorem pauseToggle_ghostOK (D : Tables) (g : Game) (input : InputHandler) (h : GhostOK D g) :
    GhostOK D (pauseToggle g input) := by
  unfold pauseToggle
  split_ifs <;> exact h

theorem beforeGravity_ghostOK (D : Tables) (g : Game) (input : InputHandler) (dt : ℚ)
    (h : GhostOK D g) : GhostOK D (beforeGravity D g input dt) := by
  unfold beforeGravity
  simp only []
  split_ifs <;> exact h

theorem gravityLoop_ghostOK (D : Tables) (eff : ℚ) :
    ∀ (fuel : Nat) (g g' : Game), GhostOK D g → gravityLoop D eff fuel g = some g' →
      GhostOK D g' := by
  intro fuel
  induction fuel with
  | zero =>
    intro g g' h hg
    unfold gravityLoop at hg
    split_ifs at hg
    cases hg
    exact h
  | succ fuel ih =>
    intro g g' h hg
    unfold gravityLoop at hg
    simp only [] at hg
    split_ifs at hg with ha hv
    · refine ih _ _ ?_ hg
      rfl
    · refine ih _ _ ?_ hg
      exact h
    · cases hg; exact h

theorem lockDelayStep_ghostOK (D : Tables) (g : Game) (dt : ℚ) (h : GhostOK D g) :
    GhostOK D (lockDelayStep D g dt) := by
  unfold lockDelayStep
  simp only []
  split_ifs
  · exact lockCurrent_ghostOK D _
  · exact h
  · exact h

theorem update_ghostOK (D : Tables) (fuel : Nat) (g g' : Game) (input : InputHandler) (dt : ℚ)
    (flag : Bool) (h : GhostOK D g) (hu : update D fuel g input dt = some (flag, g')) :
    GhostOK D g' :=
  update_preserves D (GhostOK D) (fun g _ => reset_ghostOK D g) (pauseToggle_ghostOK D)
    (tryMove_ghostOK D) (tryRotate_ghostOK D) (activateHold_ghostOK D)
    (fun g _ => hardDrop_ghostOK D g) (beforeGravity_ghostOK D)
    (fun eff fuel g g' => gravityLoop_ghostOK D eff fuel g g') (lockDelayStep_ghostOK D)
    fuel g g' input dt flag h hu

theorem reachable_ghostOK (D : Tables) (g : Game) (h : Reachable D g) : GhostOK D g := by
  induction h with
  | construct rng bag current => exact reset_ghostOK D _
  | step g g' fuel input dt flag _ hu ih => exact update_ghostOK D fuel g g' input dt flag ih hu

end Game

namespace Game

/-- C26. In every state reachable from the constructor by calls of `update` the
stored ghost offset `m_ghostRow`, which `ghostRow()` returns, is
`ghostDropDistance` of the current piece on the current board; and from such a
state no move, rotation, hold, lock, hard drop, spawn, reset or run of the
gravity loop leaves it stale. -/
theorem ghostRow_is_drop_distance (D : Tables) (g : Game) (h : Reachable D g) :
    g.m_ghostRow = g.m_board.ghostDropDistance D g.m_current ∧
    (∀ dx dy : Int, GhostOK D (tryMove D g dx dy)) ∧
    (∀ d : Int, GhostOK D (tryRotate D g d)) ∧
    GhostOK D (activateHold D g) ∧ GhostOK D (lockCurrent D g) ∧ GhostOK D (hardDrop D g) ∧
    (∀ t : TetrominoType, GhostOK D (spawnPiece D g t)) ∧ GhostOK D (reset D g) ∧
    (∀ (eff : ℚ) (fuel : Nat) (g' : Game), gravityLoop D eff fuel g = some g' → GhostOK D g') ∧
    (∀ (fuel : Nat) (input : InputHandler) (dt : ℚ) (flag : Bool) (g' : Game),
      update D fuel g input dt = some (flag, g') →
        g'.m_ghostRow = g'.m_board.ghostDropDistance D g'.m_current) := by
  have hg : GhostOK D g := reachable_ghostOK D g h
  refine ⟨hg, fun dx dy => tryMove_ghostOK D g dx dy hg, fun d => tryRotate_ghostOK D g d hg,
    activateHold_ghostOK D g hg, lockCurrent_ghostOK D g, hardDrop_ghostOK D g,
    fun t => spawnPiece_ghostOK D g t, reset_ghostOK D g,
    fun eff fuel g' hl => gravityLoop_ghostOK D eff fuel g g' hg hl, ?_⟩
  intro fuel input dt flag g' hu
  exact update_ghostOK D fuel g g' input dt flag hg hu

set_option maxRecDepth 100000 in
set_option maxHeartbeats 2000000 in
/-- Witness for C26: the state after the ten ticks of `firstLineScript` is
reachable; its stored ghost offset is 19, the drop distance of its O piece, and
after one more tick with a move to the left, over a higher part of the stack,
the stored offset is 18. -/
theorem ghostRow_is_drop_distance_witness :
    Reachable guidelineTables (played firstLineScript) ∧
    (played firstLineScript).m_ghostRow
      = (played firstLineScript).m_board.ghostDropDistance guidelineTables
          (played firstLineScript).m_current ∧
    (played firstLineScript).m_ghostRow = 19 ∧
    (tick (played firstLineScript) [Action.MoveLeft]).m_ghostRow = 18 := by
  have hr : Reachable guidelineTables (played firstLineScript) := reachable_played _
  exact ⟨hr, (ghostRow_is_drop_distance guidelineTables (played firstLineScript) hr).1,
    by decide!, by decide!⟩

/-- C25. With quit not freshly triggered: in the Paused phase with pause not
freshly triggered, and in the GameOver phase with hard-drop not freshly
triggered, `update` returns `true` and the state it was given, every field of it
unchanged, whatever `dt` is and whatever other actions are active. -/
theorem update_idle_when_paused_or_over (D : Tables) (fuel : Nat) (g : Game)
    (input : InputHandler) (dt : ℚ) (hq : input.isJustPressed Action.Quit = false)
    (h : (g.m_state = GameState.Paused ∧ input.isJustPressed Action.Pause = false) ∨
      (g.m_state = GameState.GameOver ∧ input.isJustPressed Action.HardDrop = false)) :
    update D fuel g input dt = some (true, g) := by
  rcases h with ⟨hs, hp⟩ | ⟨hs, hd⟩
  · have e := pauseToggle_of_not_pressed g input hp
    rw [update_of_paused D fuel g input dt hq (by rw [e]; exact hs), e]
  · rw [update_of_gameOver D fuel g input dt hq hs, if_neg (by simp [hd])]

set_option maxRecDepth 100000 in
set_option maxHeartbeats 2000000 in
/-- Witness for C25: the Paused state `pausedGame` is returned unchanged by a
tick in which both moves, a rotation, hold, soft-drop and hard-drop are active,
and the GameOver state that a blocked hold makes of `towerGame` is returned
unchanged by a tick in which pause, a move and hold are active. -/
theorem update_idle_witness :
    pausedGame.m_state = GameState.Paused ∧
    update guidelineTables 3 pausedGame
        (pressed [Action.MoveLeft, Action.MoveRight, Action.RotateCW, Action.Hold,
          Action.SoftDrop, Action.HardDrop]) (1 / 2)
      = some (true, pausedGame) ∧
    (activateHold guidelineTables towerGame).m_state = GameState.GameOver ∧
    update guidelineTables 3 (activateHold guidelineTables towerGame)
        (pressed [Action.Pause, Action.MoveLeft, Action.Hold]) (1 / 2)
      = some (true, activateHold guidelineTables towerGame) := by
  have h1 : pausedGame.m_state = GameState.Paused := by decide!
  have h2 : (activateHold guidelineTables towerGame).m_state = GameState.GameOver := by decide!
  exact ⟨h1,
    update_idle_when_paused_or_over guidelineTables 3 pausedGame _ (1 / 2) (by decide!)
      (Or.inl ⟨h1, by decide!⟩),
    h2,
    update_idle_when_paused_or_over guidelineTables 3 (activateHold guidelineTables towerGame)
      _ (1 / 2) (by decide!) (Or.inr ⟨h2, by decide!⟩)⟩

end Game

namespace Game

theorem BagOK.of_bag_eq {g' g : Game} (hb : g'.m_bag = g.m_bag) (h : BagOK g) : BagOK g' := by
  unfold BagOK
  rw [hb]
  exact h

theorem refillBag_bagOK (g : Game) (h : BagOK g) : BagOK (refillBag g) := by
  constructor
  · have e : (fun i : Fin 7 => (refillBag g).m_bag ⟨i.val, by omega⟩)
        = fun i : Fin 7 => g.m_bag ⟨i.val + 7, by omega⟩ := by
      funext i
      have hi := i.isLt
      simp only [refillBag, copySecondHalf_apply, shiftSecondHalf_apply]
      simp [hi, Nat.not_le.2 hi]
    rw [e]
    exact h.2
  · have e : (fun i : Fin 7 => (refillBag g).m_bag ⟨i.val + 7, by omega⟩)
        = sevenTypes ∘ (g.m_rng 0) := by
      funext i
      simp only [refillBag, copySecondHalf_apply, shuffle]
      simp
    rw [e]
    exact sevenTypes_bijective.comp (g.m_rng 0).bijective

theorem drawFromBag_bagOK (g : Game) (h : BagOK g) : BagOK (drawFromBag g).2 := by
  by_cases hlt : g.m_bagIndex < 7
  · rw [drawFromBag_of_lt g hlt]
    exact h
  · rw [drawFromBag_of_ge g (by omega)]
    exact refillBag_bagOK g h

theorem spawn_draw_bagOK (D : Tables) (X : Game) (h : BagOK X) :
    BagOK (spawnPiece D (drawFromBag X).2 (drawFromBag X).1) :=
  BagOK.of_bag_eq (spawnPiece_same D _ _).1 (drawFromBag_bagOK X h)

theorem lockCurrent_bagOK (D : Tables) (g : Game) (h : BagOK g) : BagOK (lockCurrent D g) := by
  obtain ⟨X, e, hb, -⟩ := lockCurrent_form D g
  rw [e]
  exact spawn_draw_bagOK D X (BagOK.of_bag_eq hb h)

theorem hardDrop_bagOK (D : Tables) (g : Game) (h : BagOK g) : BagOK (hardDrop D g) := by
  obtain ⟨g1, e, hb, -⟩ := hardDrop_form D g
  rw [e]
  exact lockCurrent_bagOK D g1 (BagOK.of_bag_eq hb h)

theorem activateHold_bagOK (D : Tables) (g : Game) (h : BagOK g) :
    BagOK (activateHold D g) := by
  by_cases hu : g.m_holdUsed = true
  · rw [activateHold_of_used D g hu]; exact h
  · have hf : g.m_holdUsed = false := by simpa using hu
    cases hh : g.m_held with
    | none =>
      rw [activateHold_of_none D g hf hh]
      exact spawn_draw_bagOK D _ h
    | some held =>
      rw [activateHold_of_held D g held hf hh]
      exact BagOK.of_bag_eq (spawnPiece_same D _ _).1 h

theorem reset_bagOK (D : Tables) (g : Game) : BagOK (reset D g) :=
  BagOK.of_bag_eq (reset_facts D g).2.2.2.2.2.2.1 (bag_halves_of_resetFields g)

theorem beforeGravity_bagOK (D : Tables) (g : Game) (input : InputHandler) (dt : ℚ) (h : BagOK g) :
    BagOK (beforeGravity D g input dt) := by
  unfold beforeGravity
  simp only []
  split_ifs <;> exact h

theorem lockDelayStep_bagOK (D : Tables) (g : Game) (dt : ℚ) (h : BagOK g) :
    BagOK (lockDelayStep D g dt) := by
  unfold lockDelayStep
  simp only []
  split_ifs
  · exact lockCurrent_bagOK D _ h
  · exact h
  · exact h

theorem update_bagOK (D : Tables) (fuel : Nat) (g g' : Game) (input : InputHandler) (dt : ℚ)
    (flag : Bool) (h : BagOK g) (hu : update D fuel g input dt = some (flag, g')) :
    BagOK g' :=
  update_preserves D BagOK (fun g _ => reset_bagOK D g)
    (fun g input hg => BagOK.of_bag_eq (pauseToggle_same g input).1 hg)
    (fun g dx dy hg => BagOK.of_bag_eq (tryMove_same D g dx dy).1 hg)
    (fun g d hg => BagOK.of_bag_eq (tryRotate_same D g d).1 hg)
    (activateHold_bagOK D) (hardDrop_bagOK D) (beforeGravity_bagOK D)
    (fun eff fuel g g' hg hl => BagOK.of_bag_eq (gravityLoop_same D eff fuel g g' hl).1 hg)
    (lockDelayStep_bagOK D) fuel g g' input dt flag h hu

theorem reachable_bagOK (D : Tables) (g : Game) (h : Reachable D g) : BagOK g := by
  induction h with
  | construct rng bag current => exact reset_bagOK D _
  | step g g' fuel input dt flag _ hu ih => exact update_bagOK D fuel g g' input dt flag ih hu

theorem nextPieces_reads (g : Game) (hg : g.m_bagIndex ≤ 7) :
    nextPieces g
      = some [g.m_bag ⟨g.m_bagIndex, by omega⟩, g.m_bag ⟨g.m_bagIndex + 1, by omega⟩,
          g.m_bag ⟨g.m_bagIndex + 2, by omega⟩] := by
  rw [nextPieces_of_cursor_le g hg,
    nthDraw_in_buffer g 0 hg (by omega), nthDraw_in_buffer g 1 hg (by omega),
    nthDraw_in_buffer g 2 hg (by omega)]
  rfl

theorem nextPieces_fresh (rng : Rng) (bag : Fin 14 → TetrominoType) (current : Tetromino) :
    nextPieces (fresh rng bag current) = none := by
  simp [nextPieces, peekLoop, fresh]

end Game

namespace Game

/-- C24. In every state reachable from the constructor by calls of `update` the
cursor satisfies `1 <= m_bagIndex <= 7` and each 7-slot half of the 14-slot
buffer holds every kind exactly once. So the three reads of `nextPieces`, at
`m_bagIndex`, `m_bagIndex + 1` and `m_bagIndex + 2`, are at indices of at most 9
and inside the buffer, and `drawFromBag` reads index `m_bagIndex <= 6` when the
cursor is below 7 and index 0, after a refill, when the cursor is 7. The
declared initial value of the cursor is 14, at which `nextPieces` would read
past the end of the buffer; no reachable state has it. -/
theorem bag_reads_stay_in_buffer (D : Tables) (g : Game) (h : Reachable D g) :
    1 ≤ g.m_bagIndex ∧ g.m_bagIndex ≤ 7 ∧
    Function.Bijective (fun i : Fin 7 => g.m_bag ⟨i.val, by omega⟩) ∧
    Function.Bijective (fun i : Fin 7 => g.m_bag ⟨i.val + 7, by omega⟩) ∧
    g.m_bagIndex + 2 ≤ 9 ∧
    (∃ h2 : g.m_bagIndex + 2 < 14,
      nextPieces g
        = some [g.m_bag ⟨g.m_bagIndex, by omega⟩, g.m_bag ⟨g.m_bagIndex + 1, by omega⟩,
            g.m_bag ⟨g.m_bagIndex + 2, h2⟩]) ∧
    (∀ hlt : g.m_bagIndex < 7,
      g.m_bagIndex ≤ 6 ∧
      drawFromBag g
        = (g.m_bag ⟨g.m_bagIndex, by omega⟩, { g with m_bagIndex := g.m_bagIndex + 1 })) ∧
    (g.m_bagIndex = 7 →
      drawFromBag g = ((refillBag g).m_bag 0, { refillBag g with m_bagIndex := 1 })) ∧
    (∀ (rng : Rng) (bag : Fin 14 → TetrominoType) (current : Tetromino),
      (fresh rng bag current).m_bagIndex = 14 ∧ nextPieces (fresh rng bag current) = none) := by
  have hc := reachable_ok D g h
  have hb := reachable_bagOK D g h
  have h7 : g.m_bagIndex ≤ 7 := hc.2.1
  refine ⟨hc.1, h7, hb.1, hb.2, by omega, ⟨by omega, nextPieces_reads g h7⟩, ?_, ?_, ?_⟩
  · intro hlt
    exact ⟨by omega, drawFromBag_of_lt g hlt⟩
  · intro h7
    exact drawFromBag_of_ge g (by omega)
  · intro rng bag current
    exact ⟨rfl, nextPieces_fresh rng bag current⟩

set_option maxRecDepth 100000 in
set_option maxHeartbeats 2000000 in
/-- Witness for C24: the state after six hard drops from `startGame` is
reachable and has the cursor at 7, the largest value; `nextPieces` reads slots 7,
8 and 9, which hold I, J and L, and the next `drawFromBag` refills and moves the
cursor to 1. -/
theorem bag_reads_stay_in_buffer_witness :
    Reachable guidelineTables (dropped 6) ∧
    (dropped 6).m_bagIndex = 7 ∧
    Function.Bijective (fun i : Fin 7 => (dropped 6).m_bag ⟨i.val, by omega⟩) ∧
    Function.Bijective (fun i : Fin 7 => (dropped 6).m_bag ⟨i.val + 7, by omega⟩) ∧
    nextPieces (dropped 6) = some [.I, .J, .L] ∧
    (drawFromBag (dropped 6)).2.m_bagIndex = 1 := by
  have hr : Reachable guidelineTables (dropped 6) := reachable_dropped 6 (by decide)
  have t := bag_reads_stay_in_buffer guidelineTables (dropped 6) hr
  exact ⟨hr, by decide!, t.2.2.1, t.2.2.2.1, by decide!, by decide!⟩

end Game

namespace Game

theorem spawnPiece_lockDelay (D : Tables) (g : Game) (t : TetrominoType) :
    (spawnPiece D g t).m_lockDelay = g.m_lockDelay := by
  unfold spawnPiece
  simp only []
  split_ifs <;> rfl

theorem drawFromBag_lockDelay (g : Game) : (drawFromBag g).2.m_lockDelay = g.m_lockDelay := by
  by_cases h : g.m_bagIndex < 7
  · rw [drawFromBag_of_lt g h]
  · rw [drawFromBag_of_ge g (by omega)]
    rfl

theorem spawn_draw_lockDelay (D : Tables) (X : Game) :
    (spawnPiece D (drawFromBag X).2 (drawFromBag X).1).m_lockDelay = X.m_lockDelay := by
  rw [spawnPiece_lockDelay, drawFromBag_lockDelay]

theorem addScore_lockDelay (g : Game) (n : Int) : (addScore g n).m_lockDelay = g.m_lockDelay := by
  unfold addScore
  simp only []
  split_ifs <;> rfl

theorem tryMove_lockDelay (D : Tables) (g : Game) (dx dy : Int) :
    (tryMove D g dx dy).m_lockDelay = g.m_lockDelay := by
  unfold tryMove
  simp only []
  split_ifs <;> rfl

theorem kickLoop_lockDelay (D : Tables) (kickData : KickData) (fromState : Fin 4)
    (toState : Int) :
    ∀ (n k : Nat) (g : Game),
      (kickLoop D g kickData fromState toState n k).m_lockDelay = g.m_lockDelay := by
  intro n
  induction n with
  | zero => intro k g; rfl
  | succ n ih =>
    intro k g
    unfold kickLoop
    simp only []
    split_ifs
    · rfl
    · exact ih _ _
    · rfl

theorem tryRotate_lockDelay (D : Tables) (g : Game) (direction : Int) :
    (tryRotate D g direction).m_lockDelay = g.m_lockDelay := by
  unfold tryRotate
  simp only []
  split_ifs <;> first | rfl | exact kickLoop_lockDelay D _ _ _ _ _ _

theorem lockCurrent_lockDelay (D : Tables) (g : Game) :
    (lockCurrent D g).m_lockDelay = g.m_lockDelay := by
  unfold lockCurrent
  simp only []
  rw [spawn_draw_lockDelay]
  exact addScore_lockDelay { g with m_board := (g.m_board.lockPiece D g.m_current).1 } _

theorem hardDrop_lockDelay (D : Tables) (g : Game) :
    (hardDrop D g).m_lockDelay = g.m_lockDelay := by
  unfold hardDrop
  simp only []
  rw [lockCurrent_lockDelay]

theorem activateHold_lockDelay (D : Tables) (g : Game) :
    (activateHold D g).m_lockDelay = g.m_lockDelay := by
  by_cases hu : g.m_holdUsed = true
  · rw [activateHold_of_used D g hu]
  · have hf : g.m_holdUsed = false := by simpa using hu
    cases hh : g.m_held with
    | none => rw [activateHold_of_none D g hf hh, spawn_draw_lockDelay]
    | some held => rw [activateHold_of_held D g held hf hh, spawnPiece_lockDelay]

theorem reset_lockDelay (D : Tables) (g : Game) : (reset D g).m_lockDelay = g.m_lockDelay := by
  unfold reset
  simp only []
  rw [spawn_draw_lockDelay]
  rfl

theorem pauseToggle_lockDelay (g : Game) (input : InputHandler) :
    (pauseToggle g input).m_lockDelay = g.m_lockDelay := by
  unfold pauseToggle
  split_ifs <;> rfl

theorem beforeGravity_lockDelay (D : Tables) (g : Game) (input : InputHandler) (dt : ℚ) :
    (beforeGravity D g input dt).m_lockDelay = g.m_lockDelay := by
  unfold beforeGravity
  simp only []
  split_ifs <;> rfl

theorem gravityLoop_lockDelay (D : Tables) (eff : ℚ) :
    ∀ (fuel : Nat) (g g' : Game), gravityLoop D eff fuel g = some g' →
      g'.m_lockDelay = g.m_lockDelay := by
  intro fuel
  induction fuel with
  | zero =>
    intro g g' hg
    unfold gravityLoop at hg
    split_ifs at hg
    cases hg
    rfl
  | succ fuel ih =>
    intro g g' hg
    unfold gravityLoop at hg
    simp only [] at hg
    split_ifs at hg with ha hv
    · refine (ih _ _ hg).trans ?_
      rfl
    · refine (ih _ _ hg).trans ?_
      rfl
    · cases hg; rfl

theorem lockDelayStep_lockDelay (D : Tables) (g : Game) (dt : ℚ) :
    (lockDelayStep D g dt).m_lockDelay = g.m_lockDelay := by
  unfold lockDelayStep
  simp only []
  split_ifs
  · rw [lockCurrent_lockDelay]
  · rfl
  · rfl

theorem applyInputs_lockDelay (D : Tables) (g : Game) (input : InputHandler) (c : ℚ)
    (h : g.m_lockDelay = c) : (applyInputs D g input).m_lockDelay = c :=
  applyInputs_preserves D (fun s => s.m_lockDelay = c)
    (fun g dx dy hg => (tryMove_lockDelay D g dx dy).trans hg)
    (fun g d hg => (tryRotate_lockDelay D g d).trans hg)
    (fun g hg => (activateHold_lockDelay D g).trans hg) g input h

theorem update_lockDelay (D : Tables) (fuel : Nat) (g g' : Game) (input : InputHandler) (dt : ℚ)
    (flag : Bool) (c : ℚ) (h : g.m_lockDelay = c)
    (hu : update D fuel g input dt = some (flag, g')) : g'.m_lockDelay = c :=
  update_preserves D (fun s => s.m_lockDelay = c)
    (fun g hg => (reset_lockDelay D g).trans hg)
    (fun g input hg => (pauseToggle_lockDelay g input).trans hg)
    (fun g dx dy hg => (tryMove_lockDelay D g dx dy).trans hg)
    (fun g d hg => (tryRotate_lockDelay D g d).trans hg)
    (fun g hg => (activateHold_lockDelay D g).trans hg)
    (fun g hg => (hardDrop_lockDelay D g).trans hg)
    (fun g input dt hg => (beforeGravity_lockDelay D g input dt).trans hg)
    (fun eff fuel g g' hg hl => (gravityLoop_lockDelay D eff fuel g g' hl).trans hg)
    (fun g dt hg => (lockDelayStep_lockDelay D g dt).trans hg)
    fuel g g' input dt flag h hu

theorem reachable_lockDelay (D : Tables) (g : Game) (h : Reachable D g) :
    g.m_lockDelay = 1 / 2 := by
  induction h with
  | construct rng bag current => exact reset_lockDelay D _
  | step g g' fuel input dt flag _ hu ih =>
    exact update_lockDelay D fuel g g' input dt flag _ ih hu

end Game

namespace Board

theorem not_valid_below_ghost (D : Tables) (b : Board) (piece : Tetromino) :
    b.isValidPosition D piece (piece.position + ⟨0, b.ghostDropDistance D piece + 1⟩)
      piece.rotationState = false :=
  (ghostLoop_spec D b piece 22 0 (le_refl _) (by norm_num) (by intro j h1 h2; omega)).2.2.2

end Board

namespace Game

/-- The state `hardDrop` hands to `lockCurrent` has the piece on the ground. -/
theorem hardDrop_lands (D : Tables) (a : Game) :
    ∃ s1 : Game, hardDrop D a = lockCurrent D s1 ∧ s1.m_board = a.m_board ∧
      s1.m_current = a.m_current.setPosition
        (a.m_current.position + ⟨0, a.m_board.ghostDropDistance D a.m_current⟩) ∧
      s1.m_board.isValidPosition D s1.m_current (s1.m_current.position + ⟨0, 1⟩)
        s1.m_current.rotationState = false := by
  obtain ⟨s1, e, -, -, -, hboard, hcur, -⟩ := hardDrop_form D a
  refine ⟨s1, e, hboard, hcur, ?_⟩
  rw [hboard, hcur]
  have hb := Board.not_valid_below_ghost D a.m_board a.m_current
  have hp : (a.m_current.setPosition
        (a.m_current.position + ⟨0, a.m_board.ghostDropDistance D a.m_current⟩)).position
        + ⟨0, 1⟩
      = a.m_current.position + ⟨0, a.m_board.ghostDropDistance D a.m_current + 1⟩ := by
    simp only [Tetromino.setPosition, Tetromino.position, Vector2i.add_def, add_zero, add_assoc]
  rw [hp, ← hb]
  exact isValidPosition_congr D _ _ _ _ _ _ rfl rfl

theorem lockDelayStep_of_lock (D : Tables) (x : Game) (dt : ℚ) (hg : isOnGround D x = true)
    (ht : x.m_lockDelay ≤ D.fadd x.m_lockTimer dt) :
    lockDelayStep D x dt
      = lockCurrent D { x with m_onGround := true, m_lockTimer := D.fadd x.m_lockTimer dt } := by
  unfold lockDelayStep
  simp only [hg, if_true, ge_iff_le, ht]

theorem lockDelayStep_of_wait (D : Tables) (x : Game) (dt : ℚ) (hg : isOnGround D x = true)
    (ht : D.fadd x.m_lockTimer dt < x.m_lockDelay) :
    lockDelayStep D x dt
      = { x with m_onGround := true, m_lockTimer := D.fadd x.m_lockTimer dt } := by
  unfold lockDelayStep
  simp only [hg, if_true, ge_iff_le, not_le.2 ht, if_false]

theorem lockDelayStep_of_air (D : Tables) (x : Game) (dt : ℚ) (hg : isOnGround D x = false) :
    lockDelayStep D x dt = { x with m_onGround := false, m_lockTimer := 0 } := by
  unfold lockDelayStep
  simp only [hg, Bool.false_eq_true, if_false]

theorem isOnGround_iff (D : Tables) (x : Game) :
    isOnGround D x = true ↔
      x.m_board.isValidPosition D x.m_current (x.m_current.position + ⟨0, 1⟩)
        x.m_current.rotationState = false := by
  simp [isOnGround]

end Game

namespace Game

theorem scoreAdds_of_eq {a b : ScoreState} (K : Int) (hK : 0 ≤ K) (h : b = a) :
    ScoreAdds K a b := by
  rw [h]
  exact ⟨rfl, rfl, rfl, fun ha => ⟨0, le_refl _, hK, by
    rw [add_zero, wrapInt32_of_range _ ha.2.2.1 ha.2.2.2]⟩⟩

/-- Adding `P` points to the score, as an `int`. -/
theorem scoreAdds_add (s : ScoreState) (P K : Int) (hP : 0 ≤ P) (hK : P ≤ K) :
    ScoreAdds K s { s with score := wrapInt32 (s.score + P) } :=
  ⟨rfl, rfl, rfl, fun _ => ⟨P, hP, hK, rfl⟩⟩

theorem scoreAdds_sane {K : Int} {a b : ScoreState} (h : ScoreAdds K a b) (ha : ScoreSane a) :
    ScoreSane b := by
  obtain ⟨-, hl, hc, hP⟩ := h
  obtain ⟨P, -, -, e⟩ := hP ha
  refine ⟨by rw [hl]; exact ha.1, by rw [hc]; exact ha.2.1, ?_, ?_⟩
  · rw [e]; exact (wrapInt32_range _).1
  · rw [e]; exact (wrapInt32_range _).2

theorem lineAward_nonneg (n L c : Int) (hL : 0 ≤ L) (hc : -1 ≤ c) : 0 ≤ lineAward n L c := by
  unfold lineAward
  split_ifs with h
  · have ht : 0 ≤ [0, 40, 100, 300, 1200].getD n.toNat (0 : Int) := by
      obtain ⟨h1, h4⟩ := h
      have hn : n = 1 ∨ n = 2 ∨ n = 3 ∨ n = 4 := by omega
      rcases hn with e | e | e | e <;> rw [e] <;> decide
    have h1 : 0 ≤ [0, 40, 100, 300, 1200].getD n.toNat (0 : Int) * L := mul_nonneg ht hL
    have h2 : 0 ≤ 50 * (c + 1) * L := mul_nonneg (by omega) hL
    omega
  · exact le_refl _

/-- No award exceeds the award for four rows. -/
theorem lineAward_le (n L c : Int) (hL : 0 ≤ L) (hc : -1 ≤ c) :
    lineAward n L c ≤ (1200 + 50 * (c + 1)) * L := by
  unfold lineAward
  have h2 : 0 ≤ 50 * (c + 1) * L := mul_nonneg (by omega) hL
  split_ifs with h
  · have ht : [0, 40, 100, 300, 1200].getD n.toNat (0 : Int) ≤ 1200 := by
      obtain ⟨h1, h4⟩ := h
      have hn : n = 1 ∨ n = 2 ∨ n = 3 ∨ n = 4 := by omega
      rcases hn with e | e | e | e <;> rw [e] <;> decide
    have h1 : [0, 40, 100, 300, 1200].getD n.toNat (0 : Int) * L ≤ 1200 * L :=
      mul_le_mul_of_nonneg_right ht hL
    rw [add_mul]
    omega
  · rw [add_mul]
    have h1 : 0 ≤ 1200 * L := mul_nonneg (by decide) hL
    omega

theorem addScore_combo (g : Game) (n : Int) :
    (addScore g n).m_score.combo = if n > 0 ∧ n ≤ 4 then g.m_score.combo + 1 else 0 := by
  unfold addScore
  simp only []
  split_ifs <;> rfl

theorem addScore_grows (g : Game) (n : Int) (hn : 0 ≤ n) :
    ScoreGrows 0 g.m_score (addScore g n).m_score := by
  refine ⟨?_, ?_, ?_⟩
  · rw [addScore_lines]; omega
  · rw [addScore_level]
    split_ifs with h
    · omega
    · exact le_refl _
  · rintro ⟨hL, hc, hlo, hhi⟩
    have hlev : 0 ≤ (addScore g n).m_score.level := by
      rw [addScore_level]
      split_ifs with h
      · omega
      · exact hL
    have hcombo : -1 ≤ (addScore g n).m_score.combo := by
      rw [addScore_combo]
      split_ifs <;> omega
    have hsc := addScore_score g n
    have hle := lineAward_le n g.m_score.level g.m_score.combo hL hc
    by_cases hn4 : 0 < n ∧ n ≤ 4
    · rw [if_pos hn4] at hsc
      refine ⟨⟨hlev, hcombo, ?_, ?_⟩, lineAward n g.m_score.level g.m_score.combo,
        lineAward_nonneg n _ _ hL hc, by omega, hsc⟩
      · rw [hsc]; exact (wrapInt32_range _).1
      · rw [hsc]; exact (wrapInt32_range _).2
    · rw [if_neg hn4] at hsc
      have h0 := lineAward_nonneg n g.m_score.level g.m_score.combo hL hc
      refine ⟨⟨hlev, hcombo, ?_, ?_⟩, 0, le_refl _, by omega, ?_⟩
      · rw [hsc]; exact hlo
      · rw [hsc]; exact hhi
      · rw [hsc, add_zero, wrapInt32_of_range _ hlo hhi]

/-- A step that only adds points, followed by a step that grows the score state. -/
theorem scoreGrows_after_adds {K : Int} {a b c : ScoreState} (h1 : ScoreAdds K a b)
    (h2 : ScoreGrows 0 b c) : ScoreGrows K a c := by
  have hl := h1.1
  have hv := h1.2.1
  have hc := h1.2.2.1
  refine ⟨by rw [← hl]; exact h2.1, by rw [← hv]; exact h2.2.1, fun ha => ?_⟩
  have hb : ScoreSane b := scoreAdds_sane h1 ha
  obtain ⟨P1, hP1, hK1, e1⟩ := h1.2.2.2 ha
  obtain ⟨hcs, P2, hP2, hK2, e2⟩ := h2.2.2 hb
  rw [hv, hc] at hK2
  refine ⟨hcs, P1 + P2, by omega, by omega, ?_⟩
  rw [e2, e1, wrapInt32_add_wrap, add_assoc]

/-- A step that only adds points grows the score state. -/
theorem scoreGrows_of_adds {K : Int} {a b : ScoreState} (h : ScoreAdds K a b) :
    ScoreGrows K a b := by
  refine ⟨by rw [h.1], by rw [h.2.1], fun ha => ?_⟩
  obtain ⟨P, hP, hK, e⟩ := h.2.2.2 ha
  have h4 : 0 ≤ (1200 + 50 * (a.combo + 1)) * a.level :=
    mul_nonneg (by have := ha.2.1; omega) ha.1
  exact ⟨scoreAdds_sane h ha, P, hP, by omega, e⟩

theorem spawn_draw_score (D : Tables) (X : Game) :
    (spawnPiece D (drawFromBag X).2 (drawFromBag X).1).m_score = X.m_score := by
  rw [(spawnPiece_same D _ _).2.2.2, (drawFromBag_fields X).2.2.2.1]

theorem lockCurrent_score_eq (D : Tables) (g : Game) :
    (lockCurrent D g).m_score
      = (addScore { g with m_board := (g.m_board.lockPiece D g.m_current).1 }
          (g.m_board.lockPiece D g.m_current).2).m_score := by
  unfold lockCurrent
  simp only []
  rw [spawn_draw_score]

theorem lockCurrent_grows (D : Tables) (g : Game) :
    ScoreGrows 0 g.m_score (lockCurrent D g).m_score := by
  rw [lockCurrent_score_eq]
  exact addScore_grows { g with m_board := (g.m_board.lockPiece D g.m_current).1 } _
    (lockPiece_count_nonneg D _ _)

theorem lockCurrent_grows_from (D : Tables) (x : Game) (K : Int) (s : ScoreState)
    (hs : ScoreAdds K s x.m_score) : ScoreGrows K s (lockCurrent D x).m_score :=
  scoreGrows_after_adds hs (lockCurrent_grows D x)

theorem ghostDropDistance_nonneg (D : Tables) (b : Board) (piece : Tetromino) :
    0 ≤ b.ghostDropDistance D piece :=
  (Board.ghostLoop_spec D b piece 22 0 (le_refl _) (by norm_num) (by intro j h1 h2; omega)).1

theorem ghostDropDistance_le (D : Tables) (b : Board) (piece : Tetromino) :
    b.ghostDropDistance D piece ≤ 22 :=
  (Board.ghostLoop_spec D b piece 22 0 (le_refl _) (by norm_num) (by intro j h1 h2; omega)).2.1

theorem hardDrop_grows (D : Tables) (g : Game) :
    ScoreGrows 44 g.m_score (hardDrop D g).m_score := by
  have hd := ghostDropDistance_nonneg D g.m_board g.m_current
  have hd2 := ghostDropDistance_le D g.m_board g.m_current
  have h1 := scoreAdds_add g.m_score (2 * g.m_board.ghostDropDistance D g.m_current) 44
    (by omega) (by omega)
  unfold hardDrop
  simp only []
  refine lockCurrent_grows_from D _ 44 _ ?_
  exact h1

theorem activateHold_score (D : Tables) (g : Game) :
    (activateHold D g).m_score = g.m_score := by
  by_cases hu : g.m_holdUsed = true
  · rw [activateHold_of_used D g hu]
  · have hf : g.m_holdUsed = false := by simpa using hu
    cases hh : g.m_held with
    | none => rw [activateHold_of_none D g hf hh, spawn_draw_score]
    | some held => rw [activateHold_of_held D g held hf hh, (spawnPiece_same D _ _).2.2.2]

theorem applyInputs_score (D : Tables) (g : Game) (input : InputHandler) :
    (applyInputs D g input).m_score = g.m_score :=
  applyInputs_preserves D (fun s => s.m_score = g.m_score)
    (fun s dx dy hs => (tryMove_same D s dx dy).2.2.2.trans hs)
    (fun s d hs => (tryRotate_same D s d).2.2.2.trans hs)
    (fun s hs => (activateHold_score D s).trans hs) g input rfl

theorem beforeGravity_adds (D : Tables) (g : Game) (input : InputHandler) (dt : ℚ) :
    ScoreAdds 1 g.m_score (beforeGravity D g input dt).m_score := by
  unfold beforeGravity
  simp only []
  split_ifs
  · exact scoreAdds_add g.m_score 1 1 (by decide) (le_refl _)
  · exact scoreAdds_of_eq 1 (by decide) rfl

theorem lockDelayStep_grows_from (D : Tables) (g : Game) (dt : ℚ) (K : Int) (s : ScoreState)
    (hs : ScoreAdds K s g.m_score) : ScoreGrows K s (lockDelayStep D g dt).m_score := by
  unfold lockDelayStep
  simp only []
  split_ifs
  · refine lockCurrent_grows_from D _ K _ ?_
    exact hs
  · exact scoreGrows_of_adds hs
  · exact scoreGrows_of_adds hs

theorem pauseToggle_gameOver (g : Game) (input : InputHandler)
    (h : (pauseToggle g input).m_state = GameState.GameOver) :
    g.m_state = GameState.GameOver := by
  unfold pauseToggle at h
  split_ifs at h with h1 h2 h3
  all_goals exact h

theorem scoreGrows_same (K : Int) (hK : 0 ≤ K) {a b : ScoreState} (h : b = a) :
    ScoreGrows K a b := by
  rw [h]
  refine ⟨le_refl _, le_refl _, fun ha => ⟨ha, 0, le_refl _, ?_, ?_⟩⟩
  · have h4 : 0 ≤ (1200 + 50 * (a.combo + 1)) * a.level :=
      mul_nonneg (by have := ha.2.1; omega) ha.1
    omega
  · rw [add_zero, wrapInt32_of_range _ ha.2.2.1 ha.2.2.2]

theorem scoreGrows_mono {K K2 : Int} (hK : K ≤ K2) {a b : ScoreState} (h : ScoreGrows K a b) :
    ScoreGrows K2 a b := by
  refine ⟨h.1, h.2.1, fun ha => ?_⟩
  obtain ⟨hb, P, hP, hle, e⟩ := h.2.2 ha
  exact ⟨hb, P, hP, by omega, e⟩

/-- A call of `update` that does not restart the game lets neither the line
count nor the level fall, and from a sane score state it adds to the score, as
an `int`, a number of points between 0 and 44 plus the award for four rows. -/
theorem update_grows (D : Tables) (fuel : Nat) (g g' : Game) (input : InputHandler) (dt : ℚ)
    (flag : Bool)
    (hnr : ¬ (g.m_state = GameState.GameOver ∧ input.isJustPressed Action.HardDrop = true))
    (hu : update D fuel g input dt = some (flag, g')) : ScoreGrows 44 g.m_score g'.m_score := by
  cases hq : input.isJustPressed Action.Quit with
  | true =>
    rw [update_of_quit D fuel g input dt hq] at hu
    cases hu
    exact scoreGrows_same 44 (by decide) rfl
  | false =>
    have hp : (pauseToggle g input).m_score = g.m_score := (pauseToggle_same g input).2.2.2
    cases hs : (pauseToggle g input).m_state with
    | Playing =>
      rw [update_of_running D fuel g input dt hq hs] at hu
      have ha : (applyInputs D (pauseToggle g input) input).m_score = g.m_score :=
        (applyInputs_score D _ input).trans hp
      split_ifs at hu
      · cases hu
        rw [← ha]
        exact hardDrop_grows D _
      · cases hg : gravityLoop D
            (effectiveInterval (applyInputs D (pauseToggle g input) input) input)
            fuel (beforeGravity D (applyInputs D (pauseToggle g input) input) input dt) with
        | none => rw [hg] at hu; cases hu
        | some x =>
          rw [hg] at hu
          cases hu
          have hx := (gravityLoop_same D _ fuel _ x hg).2.2.2
          have hb := beforeGravity_adds D (applyInputs D (pauseToggle g input) input) input dt
          rw [ha, ← hx] at hb
          exact scoreGrows_mono (by decide : (1 : Int) ≤ 44)
            (lockDelayStep_grows_from D x dt 1 _ hb)
    | Paused =>
      rw [update_of_paused D fuel g input dt hq hs] at hu
      cases hu
      exact scoreGrows_same 44 (by decide) hp
    | GameOver =>
      have hover := pauseToggle_gameOver g input hs
      rw [update_of_gameOver D fuel g input dt hq hover] at hu
      have hd : ¬ input.isJustPressed Action.HardDrop = true := fun hd => hnr ⟨hover, hd⟩
      rw [if_neg hd] at hu
      cases hu
      exact scoreGrows_same 44 (by decide) rfl

/-- Every reachable state has a sane score state. -/
theorem reachable_scoreSane (D : Tables) (g : Game) (h : Reachable D g) :
    ScoreSane g.m_score := by
  have hreset : ∀ x : Game, ScoreSane (reset D x).m_score := by
    intro x
    rw [(reset_facts D x).2.1]
    exact ⟨by decide, by decide, by decide, by decide⟩
  induction h with
  | construct rng bag current => exact hreset _
  | step g g' fuel input dt flag _ hu ih =>
    by_cases hnr : g.m_state = GameState.GameOver ∧ input.isJustPressed Action.HardDrop = true
    · cases hq : input.isJustPressed Action.Quit with
      | true =>
        rw [update_of_quit D fuel g input dt hq] at hu
        cases hu
        exact ih
      | false =>
        rw [update_of_gameOver D fuel g input dt hq hnr.1, if_pos hnr.2] at hu
        cases hu
        exact hreset _
    · exact ((update_grows D fuel g g' input dt flag hnr hu).2.2 ih).1

end Game

namespace Game

theorem withScore_self (g : Game) : withScore g g.m_score.score = g := rfl

theorem withScore_withScore (g : Game) (a b : Int) :
    withScore (withScore g a) b = withScore g b := rfl

/-- A tick with `dt = 0` and soft-drop held, in a Playing state whose piece is in
the air and whose timers are at rest, adds one point and changes nothing else. -/
theorem softDrop_tick (g : Game) (hs : g.m_state = GameState.Playing)
    (hacc : g.m_gravityAccum = 0) (hint : 0 < g.m_gravityInterval)
    (hair : isOnGround guidelineTables g = false) (ht : g.m_lockTimer = 0)
    (ho : g.m_onGround = false) :
    update guidelineTables 0 g (pressed [Action.SoftDrop]) 0
      = some (true, withScore g (wrapInt32 (g.m_score.score + 1))) := by
  have hq : (pressed [Action.SoftDrop]).isJustPressed Action.Quit = false := by decide
  have hp : (pressed [Action.SoftDrop]).isJustPressed Action.Pause = false := by decide
  have hd : ¬ (pressed [Action.SoftDrop]).isJustPressed Action.HardDrop = true := by decide
  have e := pauseToggle_of_not_pressed g _ hp
  have ea : applyInputs guidelineTables g (pressed [Action.SoftDrop]) = g := by
    simp [applyInputs, pressed, InputHandler.isActive, InputHandler.isJustPressed]
  have hb : beforeGravity guidelineTables g (pressed [Action.SoftDrop]) 0
      = { withScore g (wrapInt32 (g.m_score.score + 1)) with m_gravityAccum := 0 } := by
    simp [beforeGravity, pressed, InputHandler.isHeld, withScore, guidelineTables, hacc]
  have heff : 0 < effectiveInterval g (pressed [Action.SoftDrop]) := by
    simp only [effectiveInterval]
    split_ifs
    · exact lt_min hint (by norm_num)
    · exact hint
  rw [update_of_running guidelineTables 0 g _ 0 hq (by rw [e]; exact hs), e, ea, if_neg hd, hb]
  have hloop : gravityLoop guidelineTables (effectiveInterval g (pressed [Action.SoftDrop])) 0
      { withScore g (wrapInt32 (g.m_score.score + 1)) with m_gravityAccum := 0 }
      = some { withScore g (wrapInt32 (g.m_score.score + 1)) with m_gravityAccum := 0 } := by
    unfold gravityLoop
    rw [if_neg]
    exact not_le.2 heff
  rw [hloop, Option.map_some']
  have hair2 : isOnGround guidelineTables
      { withScore g (wrapInt32 (g.m_score.score + 1)) with m_gravityAccum := 0 } = false := hair
  rw [lockDelayStep_of_air guidelineTables _ 0 hair2]
  congr 2
  cases g
  simp only [withScore] at *
  subst hacc ht ho
  rfl

/-- Ticks with soft-drop held and `dt = 0` raise the score of such a state one
by one, so every score is reached from it. -/
theorem reachable_softTicks (g : Game) (hr : Reachable guidelineTables g)
    (hs : g.m_state = GameState.Playing) (hacc : g.m_gravityAccum = 0)
    (hint : 0 < g.m_gravityInterval) (hair : isOnGround guidelineTables g = false)
    (ht : g.m_lockTimer = 0) (ho : g.m_onGround = false) (n : Nat) :
    Reachable guidelineTables (withScore g (wrapInt32 (g.m_score.score + n))) := by
  induction n with
  | zero =>
    have hsane := reachable_scoreSane guidelineTables g hr
    rw [Nat.cast_zero, add_zero, wrapInt32_of_range _ hsane.2.2.1 hsane.2.2.2, withScore_self]
    exact hr
  | succ n ih =>
    have hstep := softDrop_tick (withScore g (wrapInt32 (g.m_score.score + n))) hs hacc hint hair
      ht ho
    have e : wrapInt32 ((withScore g (wrapInt32 (g.m_score.score + n))).m_score.score + 1)
        = wrapInt32 (g.m_score.score + ((n + 1 : Nat) : Int)) := by
      show wrapInt32 (wrapInt32 (g.m_score.score + n) + 1) = _
      rw [wrapInt32_add_wrap, Nat.cast_add, Nat.cast_one, add_assoc]
    rw [e, withScore_withScore] at hstep
    exact Reachable.step _ _ 0 _ 0 true ih hstep

end Game

namespace Game

set_option maxRecDepth 100000 in
set_option maxHeartbeats 2000000 in
/-- The state `startGame` is Playing with its piece in the air and its timers at rest. -/
theorem startGame_at_rest :
    startGame.m_state = GameState.Playing ∧ startGame.m_gravityAccum = 0 ∧
      0 < startGame.m_gravityInterval ∧ isOnGround guidelineTables startGame = false ∧
      startGame.m_lockTimer = 0 ∧ startGame.m_onGround = false ∧
      startGame.m_score.score = 0 := by
  decide!

/-- The state `maxScoreGame` is reached from `startGame` by 2147483647 ticks with
soft-drop held and `dt = 0`. -/
theorem reachable_maxScoreGame : Reachable guidelineTables maxScoreGame := by
  obtain ⟨h1, h2, h3, h4, h5, h6, h7⟩ := startGame_at_rest
  have h := reachable_softTicks startGame (Reachable.construct _ _ _) h1 h2 h3 h4 h5 h6 2147483647
  have e : wrapInt32 (startGame.m_score.score + ((2147483647 : Nat) : Int)) = 2147483647 := by
    rw [h7]
    decide
  rw [e] at h
  exact h

end Game

namespace Game

end Game

namespace Game

end Game

namespace Board

/-- The board `lockPiece` leaves and the count it returns, in terms of the board
`W` that its write loop leaves: `W` holds the colour of the piece in the cells of
the piece and is the board before elsewhere; the result is `W` after `clearRow`
for each full row of `W`, highest index first, and the count is the number of
full rows of `W`. -/
theorem lockPiece_written (D : Tables) (b : Board) (p : Tetromino) :
    ∃ W : Board,
      (∀ (r : Fin 22) (k : Fin 10),
        (∃ c ∈ p.worldCells D, c.y = (r.val : Int) ∧ c.x = (k.val : Int)) →
          W.m_cells r k = p.color D) ∧
      (∀ (r : Fin 22) (k : Fin 10),
        (¬ ∃ c ∈ p.worldCells D, c.y = (r.val : Int) ∧ c.x = (k.val : Int)) →
          W.m_cells r k = b.m_cells r k) ∧
      b.lockPiece D p
        = ((sortDescending W.findFullRows).foldl clearRow W, (W.findFullRows.length : Int)) ∧
      (W.findFullRows = [] → b.lockPiece D p = (W, 0)) := by
  refine ⟨b.writeCells (p.color D) (p.worldCells D), ?_, ?_, ?_, ?_⟩
  · intro r k hex
    rw [writeCells_apply, if_pos hex]
  · intro r k hex
    rw [writeCells_apply, if_neg hex]
  · simp only [lockPiece, sortDescending, List.length_insertionSort]
  · intro h
    simp only [lockPiece, sortDescending, h, List.insertionSort, List.foldl_nil, List.length_nil,
      Nat.cast_zero]

/-- The piece moved down by `ghostDropDistance` rows from a valid placement has
4 cells, each a cell of the grid that is empty on the board, and the cells are
distinct when the offsets of the shape are. -/
theorem cells_at_ghost (D : Tables) (b : Board) (piece : Tetromino)
    (hv : b.isValidPosition D piece piece.position piece.rotationState = true) :
    ((piece.setPosition (piece.position + ⟨0, b.ghostDropDistance D piece⟩)).worldCells
      D).length = 4 ∧
    (∀ c ∈ (piece.setPosition (piece.position + ⟨0, b.ghostDropDistance D piece⟩)).worldCells D,
      ∃ r : Fin 22, ∃ k : Fin 10, (r.val : Int) = c.y ∧ (k.val : Int) = c.x ∧
        b.m_cells r k = EMPTY_COLOR) ∧
    (Function.Injective ((D.TETROMINO_DATA piece.m_type).rotations piece.m_rotation) →
      ((piece.setPosition (piece.position + ⟨0, b.ghostDropDistance D piece⟩)).worldCells
        D).Nodup) := by
  have hg := isValidPosition_at_ghost D b piece hv
  have hcells := (isValidPosition_iff_cellAt D b piece _ _).1 hg
  have hlen : (piece.worldCellsAt D (piece.position + ⟨0, b.ghostDropDistance D piece⟩)
      piece.rotationState).length = 4 := by
    simp [Tetromino.worldCellsAt]
  have hempty : ∀ c ∈ piece.worldCellsAt D
      (piece.position + ⟨0, b.ghostDropDistance D piece⟩) piece.rotationState,
      ∃ r : Fin 22, ∃ k : Fin 10, (r.val : Int) = c.y ∧ (k.val : Int) = c.x ∧
        b.m_cells r k = EMPTY_COLOR :=
    fun c hc => (b.cellAt_empty_iff c.x c.y).1 (hcells c hc)
  rw [worldCells_setPosition]
  refine ⟨hlen, hempty, ?_⟩
  intro hinj
  have key : ∀ p a c : Vector2i, p + a = p + c → a = c := by
    intro p a c h
    cases a; cases c
    simp only [Vector2i.add_def, Vector2i.mk.injEq] at h ⊢
    constructor <;> omega
  have hm : Tetromino.maskRotation piece.rotationState = piece.m_rotation := by
    apply Fin.ext
    have := piece.m_rotation.isLt
    simp only [Tetromino.maskRotation, Tetromino.rotationState]
    omega
  simp only [Tetromino.worldCellsAt, hm]
  rw [List.nodup_ofFn]
  intro i j hij
  exact hinj (key _ _ _ hij)

/-- C20. When the current placement of a piece is valid, the placement
`ghostDropDistance` rows further down is valid too. The piece moved there has 4
cells, each a cell of the grid that is empty on the board, distinct when the 4
offsets of the shape are. `lockPiece` of the moved piece writes the colour of
the piece into exactly these cells: with `W` the board that holds the colour of
the piece in these 4 cells and is the board before in every other cell, the
board `lockPiece` returns is `W` after `clearRow` for each full row of `W`,
highest index first, and the count it returns is the number of full rows of
`W`; when no row of `W` is full the returned board is `W` and the count is 0. -/
theorem lockPiece_at_ghost_writes_four_empty_cells (D : Tables) (b : Board) (piece : Tetromino)
    (hv : b.isValidPosition D piece piece.position piece.rotationState = true) :
    b.isValidPosition D piece (piece.position + ⟨0, b.ghostDropDistance D piece⟩)
      piece.rotationState = true ∧
    ((piece.setPosition (piece.position + ⟨0, b.ghostDropDistance D piece⟩)).worldCells
      D).length = 4 ∧
    (∀ c ∈ (piece.setPosition (piece.position + ⟨0, b.ghostDropDistance D piece⟩)).worldCells D,
      ∃ r : Fin 22, ∃ k : Fin 10, (r.val : Int) = c.y ∧ (k.val : Int) = c.x ∧
        b.m_cells r k = EMPTY_COLOR) ∧
    (Function.Injective ((D.TETROMINO_DATA piece.m_type).rotations piece.m_rotation) →
      ((piece.setPosition (piece.position + ⟨0, b.ghostDropDistance D piece⟩)).worldCells
        D).Nodup) ∧
    (∃ W : Board,
      (∀ (r : Fin 22) (k : Fin 10),
        (∃ c ∈ (piece.setPosition
            (piece.position + ⟨0, b.ghostDropDistance D piece⟩)).worldCells D,
          c.y = (r.val : Int) ∧ c.x = (k.val : Int)) →
        W.m_cells r k = piece.color D) ∧
      (∀ (r : Fin 22) (k : Fin 10),
        (¬ ∃ c ∈ (piece.setPosition
            (piece.position + ⟨0, b.ghostDropDistance D piece⟩)).worldCells D,
          c.y = (r.val : Int) ∧ c.x = (k.val : Int)) →
        W.m_cells r k = b.m_cells r k) ∧
      b.lockPiece D (piece.setPosition (piece.position + ⟨0, b.ghostDropDistance D piece⟩))
        = ((sortDescending W.findFullRows).foldl clearRow W, (W.findFullRows.length : Int)) ∧
      (W.findFullRows = [] →
        b.lockPiece D (piece.setPosition (piece.position + ⟨0, b.ghostDropDistance D piece⟩))
          = (W, 0))) := by
  have hc := cells_at_ghost D b piece hv
  exact ⟨isValidPosition_at_ghost D b piece hv, hc.1, hc.2.1, hc.2.2,
    lockPiece_written D b
      (piece.setPosition (piece.position + ⟨0, b.ghostDropDistance D piece⟩))⟩

set_option maxRecDepth 100000 in
set_option maxHeartbeats 2000000 in
/-- Witness for C20: the I piece of `startGame` stands valid at the spawn anchor
over the empty board; it can fall 19 rows, and the placement there is valid, its
cells being columns 4 to 7 of row 21. `lockPiece` of the piece moved there
returns 0 and a board on which exactly these 4 cells are not empty. The O piece
of `towerGame` falls 19 rows into the well of `towerBoard`: `lockPiece` of the
piece moved there returns 2. -/
theorem lockPiece_at_ghost_witness :
    startGame.m_board.isValidPosition guidelineTables startGame.m_current
      startGame.m_current.position startGame.m_current.rotationState = true ∧
    (∀ (i : Fin 22) (k : Fin 10), startGame.m_board.m_cells i k = EMPTY_COLOR) ∧
    startGame.m_board.ghostDropDistance guidelineTables startGame.m_current = 19 ∧
    startGame.m_board.isValidPosition guidelineTables startGame.m_current
      (startGame.m_current.position
        + ⟨0, startGame.m_board.ghostDropDistance guidelineTables startGame.m_current⟩)
      startGame.m_current.rotationState = true ∧
    (startGame.m_current.setPosition (startGame.m_current.position + ⟨0, 19⟩)).worldCells
      guidelineTables = [⟨4, 21⟩, ⟨5, 21⟩, ⟨6, 21⟩, ⟨7, 21⟩] ∧
    (startGame.m_board.lockPiece guidelineTables
      (startGame.m_current.setPosition (startGame.m_current.position + ⟨0, 19⟩))).2 = 0 ∧
    (∀ (i : Fin 22) (k : Fin 10),
      ((startGame.m_board.lockPiece guidelineTables
        (startGame.m_current.setPosition (startGame.m_current.position + ⟨0, 19⟩))).1.m_cells i k
          ≠ EMPTY_COLOR ↔ (i.val = 21 ∧ 4 ≤ k.val ∧ k.val ≤ 7))) ∧
    towerBoard.ghostDropDistance guidelineTables towerGame.m_current = 19 ∧
    (towerBoard.lockPiece guidelineTables
      (towerGame.m_current.setPosition (towerGame.m_current.position + ⟨0, 19⟩))).2 = 2 := by
  have h := lockPiece_at_ghost_writes_four_empty_cells guidelineTables startGame.m_board
    startGame.m_current (by decide!)
  exact ⟨by decide!, by decide!, by decide!, h.1, by decide!, by decide!, by decide!,
    by decide!, by decide!⟩

end Board

namespace Game

set_option maxRecDepth 100000 in
set_option maxHeartbeats 2000000 in
/-- C14, counterexample. The state `maxScoreGame` is reachable, it is Playing,
its I piece stands on a valid placement over the empty board, and its score is
2147483647, the largest `int`. The hard drop falls 19 rows and clears no row:
the claim gives an increase by `2 * 19 = 38`, to 2147483685, which is no `int`;
the score after `hardDrop`, and after the `update` call in which hard-drop is
freshly triggered, is -2147483611, lower than before. -/
theorem hardDrop_wraps_at_int_max :
    Reachable guidelineTables maxScoreGame ∧
    maxScoreGame.m_state = GameState.Playing ∧
    maxScoreGame.m_board.isValidPosition guidelineTables maxScoreGame.m_current
      maxScoreGame.m_current.position maxScoreGame.m_current.rotationState = true ∧
    maxScoreGame.m_score = { score := 2147483647, level := 1, lines := 0, combo := 0 } ∧
    maxScoreGame.m_board.ghostDropDistance guidelineTables maxScoreGame.m_current = 19 ∧
    (maxScoreGame.m_board.lockPiece guidelineTables (maxScoreGame.m_current.setPosition
      (maxScoreGame.m_current.position + ⟨0, 19⟩))).2 = 0 ∧
    (hardDrop guidelineTables maxScoreGame).m_score.score = -2147483611 ∧
    (update guidelineTables 0 maxScoreGame (pressed [Action.HardDrop]) (1 / 60)).map
        (fun r => (r.1, r.2.m_score.score)) = some (true, -2147483611) ∧
    (2147483647 : Int) + 2 * 19 = 2147483685 := by
  refine ⟨reachable_maxScoreGame, by decide!, by decide!, by decide!, by decide!, by decide!,
    by decide!, by decide!, by decide⟩

/-- C14 (amended). In a Playing state whose current piece stands on a valid
placement, whatever the lock timer, with `d = ghostDropDistance` of the current
piece: the placement `d` rows down is valid, and the piece moved there has 4
cells, each a cell of the grid that is empty on the board. With `W` the board
that holds the colour of the piece in these 4 cells and is the board before in
every other cell, the board after `hardDrop` is `W` after `clearRow` for each
full row of `W`, highest index first, and it is `W` when no row of `W` is full.
The score after `hardDrop` is the score before plus `2 * d` plus the line-clear
award for the number of full rows of `W`, reduced to the 32-bit `int` range;
it is exactly that sum whenever the sum is an `int`. The hold-used flag is
clear; the current piece is the kind the next call of `drawFromBag` returns, at
the spawn anchor. An `update` call with hard-drop freshly triggered returns
without adding `dt` to the gravity accumulator or to the lock timer. -/
theorem hardDrop_locks_scores_as_int_and_spawns (D : Tables) (g : Game)
    (hs : g.m_state = GameState.Playing)
    (hv : g.m_board.isValidPosition D g.m_current g.m_current.position
      g.m_current.rotationState = true) :
    g.m_board.isValidPosition D g.m_current
      (g.m_current.position + ⟨0, g.m_board.ghostDropDistance D g.m_current⟩)
      g.m_current.rotationState = true ∧
    ((g.m_current.setPosition
      (g.m_current.position + ⟨0, g.m_board.ghostDropDistance D g.m_current⟩)).worldCells
        D).length = 4 ∧
    (∀ c ∈ (g.m_current.setPosition
        (g.m_current.position + ⟨0, g.m_board.ghostDropDistance D g.m_current⟩)).worldCells D,
      ∃ r : Fin 22, ∃ k : Fin 10, (r.val : Int) = c.y ∧ (k.val : Int) = c.x ∧
        g.m_board.m_cells r k = EMPTY_COLOR) ∧
    (∃ W : Board,
      (∀ (r : Fin 22) (k : Fin 10),
        (∃ c ∈ (g.m_current.setPosition
            (g.m_current.position + ⟨0, g.m_board.ghostDropDistance D g.m_current⟩)).worldCells D,
          c.y = (r.val : Int) ∧ c.x = (k.val : Int)) →
        W.m_cells r k = g.m_current.color D) ∧
      (∀ (r : Fin 22) (k : Fin 10),
        (¬ ∃ c ∈ (g.m_current.setPosition
            (g.m_current.position + ⟨0, g.m_board.ghostDropDistance D g.m_current⟩)).worldCells D,
          c.y = (r.val : Int) ∧ c.x = (k.val : Int)) →
        W.m_cells r k = g.m_board.m_cells r k) ∧
      (hardDrop D g).m_board = (Board.sortDescending W.findFullRows).foldl Board.clearRow W ∧
      (W.findFullRows = [] → (hardDrop D g).m_board = W) ∧
      (hardDrop D g).m_score.score
        = wrapInt32 (g.m_score.score + 2 * g.m_board.ghostDropDistance D g.m_current
            + lineAward (W.findFullRows.length : Int) g.m_score.level g.m_score.combo) ∧
      (-2147483648 ≤ g.m_score.score + 2 * g.m_board.ghostDropDistance D g.m_current
            + lineAward (W.findFullRows.length : Int) g.m_score.level g.m_score.combo →
        g.m_score.score + 2 * g.m_board.ghostDropDistance D g.m_current
            + lineAward (W.findFullRows.length : Int) g.m_score.level g.m_score.combo
          ≤ 2147483647 →
        (hardDrop D g).m_score.score
          = g.m_score.score + 2 * g.m_board.ghostDropDistance D g.m_current
            + lineAward (W.findFullRows.length : Int) g.m_score.level g.m_score.combo)) ∧
    (hardDrop D g).m_holdUsed = false ∧
    (hardDrop D g).m_current = ⟨(drawFromBag g).1, ⟨4, 1⟩, 0⟩ ∧
    (hardDrop D g).m_bag = (drawFromBag g).2.m_bag ∧
    (hardDrop D g).m_bagIndex = (drawFromBag g).2.m_bagIndex ∧
    (∀ (input : InputHandler) (fuel : Nat) (dt : ℚ),
      input.isJustPressed Action.HardDrop = true →
      ∃ flag g', update D fuel g input dt = some (flag, g') ∧
        g'.m_gravityAccum = g.m_gravityAccum ∧
        (g'.m_lockTimer = 0 ∨ g'.m_lockTimer = g.m_lockTimer)) ∧
    (∀ (input : InputHandler) (fuel : Nat) (dt : ℚ),
      input.isJustPressed Action.Quit = false → input.isJustPressed Action.Pause = false →
      input.isJustPressed Action.HardDrop = true →
      update D fuel g input dt = some (true, hardDrop D (applyInputs D g input))) := by
  obtain ⟨g1, hg1, hb, hi, hr, hboard, hcur, -, -, -⟩ := hardDrop_form D g
  obtain ⟨g2, hg2, hboard2, hcur2, hscore⟩ := hardDrop_score D g
  have h := lockCurrent_facts D g1
  have hc := drawFromBag_congr hb hi hr
  rw [hboard, hcur, hc.1, hc.2.1, hc.2.2.1, ← hg1] at h
  rw [hboard2, hcur2] at hscore
  have hcells := Board.cells_at_ghost D g.m_board g.m_current hv
  obtain ⟨W, hW1, hW2, hW3, hW4⟩ := Board.lockPiece_written D g.m_board
    (g.m_current.setPosition
      (g.m_current.position + ⟨0, g.m_board.ghostDropDistance D g.m_current⟩))
  have hfst : (hardDrop D g).m_board
      = (Board.sortDescending W.findFullRows).foldl Board.clearRow W := by
    rw [h.1, hW3]
  have hW0 : W.findFullRows = [] → (hardDrop D g).m_board = W := by
    intro h0
    rw [h.1, hW4 h0]
  have hsc : (hardDrop D g).m_score.score
      = wrapInt32 (g.m_score.score + 2 * g.m_board.ghostDropDistance D g.m_current
          + lineAward (W.findFullRows.length : Int) g.m_score.level g.m_score.combo) := by
    rw [hscore, hW3]
  refine ⟨Board.isValidPosition_at_ghost D g.m_board g.m_current hv, hcells.1, hcells.2.1,
    ⟨W, hW1, hW2, hfst, hW0, hsc, fun hlo hhi => ?_⟩, ?_, h.2.2.1, h.2.2.2.1, h.2.2.2.2.1,
    fun input fuel dt hd => update_hardDrop_skips_timers D fuel g input dt hs hd,
    fun input fuel dt hq hp hd => update_hardDrop_of_playing D fuel g input dt hs hq hp hd⟩
  · rw [hsc, wrapInt32_of_range _ hlo hhi]
  · rw [hg1]
    exact lockCurrent_holdUsed D _

set_option maxRecDepth 100000 in
set_option maxHeartbeats 2000000 in
/-- Witness for the amended C14: in `startGame` the I piece falls 19 rows on the
empty board and clears no row; after `hardDrop` exactly columns 4 to 7 of row 21
are not empty, the score is `2 * 19`, the hold-used flag is clear and the J piece
stands at the spawn anchor. In `towerGame` the O piece falls 19 rows into the
well and completes rows 20 and 21; `hardDrop` adds `2 * 19` points and the award
for two rows at level 1, `100 + 50`; the tick in which hard-drop is pressed
leaves the gravity accumulator at 0. -/
theorem hardDrop_as_int_witness :
    startGame.m_state = GameState.Playing ∧
    (∀ (i : Fin 22) (k : Fin 10), startGame.m_board.m_cells i k = EMPTY_COLOR) ∧
    startGame.m_board.ghostDropDistance guidelineTables startGame.m_current = 19 ∧
    (startGame.m_current.setPosition (startGame.m_current.position + ⟨0, 19⟩)).worldCells
      guidelineTables = [⟨4, 21⟩, ⟨5, 21⟩, ⟨6, 21⟩, ⟨7, 21⟩] ∧
    (∀ (i : Fin 22) (k : Fin 10),
      ((hardDrop guidelineTables startGame).m_board.m_cells i k ≠ EMPTY_COLOR ↔
        (i.val = 21 ∧ 4 ≤ k.val ∧ k.val ≤ 7))) ∧
    (hardDrop guidelineTables startGame).m_score.score = 38 ∧
    (hardDrop guidelineTables startGame).m_holdUsed = false ∧
    (hardDrop guidelineTables startGame).m_current = ⟨.J, ⟨4, 1⟩, 0⟩ ∧
    towerGame.m_state = GameState.Playing ∧
    towerGame.m_board.ghostDropDistance guidelineTables towerGame.m_current = 19 ∧
    (towerGame.m_board.lockPiece guidelineTables (towerGame.m_current.setPosition
      (towerGame.m_current.position + ⟨0, 19⟩))).2 = 2 ∧
    (hardDrop guidelineTables towerGame).m_score.score = 188 ∧
    (update guidelineTables 0 towerGame (pressed [Action.HardDrop]) (1 / 60)).map
        (fun r => (r.1, r.2.m_gravityAccum, r.2.m_lockTimer, r.2.m_score.score))
      = some (true, 0, 0, 188) := by
  have h := hardDrop_locks_scores_as_int_and_spawns guidelineTables startGame (by decide!)
    (by decide!)
  exact ⟨by decide!, by decide!, by decide!, by decide!, by decide!, by decide!, h.2.2.2.2.1,
    by decide!, by decide!, by decide!, by decide!, by decide!, by decide!⟩

end Game

namespace Game

theorem reachable_floatTick (g : Game) (dt : ℚ) (h : Reachable float32Tables g) :
    Reachable float32Tables (floatTick g dt) := by
  unfold floatTick
  cases hu : update float32Tables 32 g (pressed []) dt with
  | none => exact h
  | some r => exact Reachable.step g r.2 32 (pressed []) dt r.1 h hu

theorem reachable_restingGame : Reachable float32Tables restingGame :=
  reachable_floatTick _ _ (reachable_floatTick _ _ (Reachable.construct _ _ _))

/-- C27. In an `update` call from a reachable state, `lockCurrent` is invoked
at two places only: by `hardDrop`, and by the lock-delay block on the state the
gravity loop leaves. A call that passes the phase tests is the input block
followed by one of the two; any other call returns the state it was given, the
state with the phase toggled, or the reset state. `hardDrop` hands `lockCurrent`
the piece moved down by the ghost distance, for which the placement one row
below is invalid. The lock-delay block runs with the threshold at 0.5 s: it
calls `lockCurrent`, on the same board and piece, only when the placement one
row below is invalid and the float sum of the lock timer and `dt` is at least
0.5; grounded with a smaller float sum it only stores the sum, and not grounded
it sets the timer to 0. The float sum is `D.fadd`, whatever the rounding. -/
theorem lock_only_when_grounded_and_timer_full (D : Tables) (g : Game) (h : Reachable D g)
    (fuel : Nat) (input : InputHandler) (dt : ℚ) :
    (input.isJustPressed Action.Quit = false →
      (pauseToggle g input).m_state = GameState.Playing →
      update D fuel g input dt
        = if input.isJustPressed Action.HardDrop = true then
            some (true, hardDrop D (applyInputs D (pauseToggle g input) input))
          else
            (gravityLoop D (effectiveInterval (applyInputs D (pauseToggle g input) input) input)
              fuel (beforeGravity D (applyInputs D (pauseToggle g input) input) input dt)).map
              fun x => (true, lockDelayStep D x dt)) ∧
    ((input.isJustPressed Action.Quit = true ∨
        (pauseToggle g input).m_state ≠ GameState.Playing) →
      update D fuel g input dt = some (false, g) ∨
      update D fuel g input dt = some (true, pauseToggle g input) ∨
      update D fuel g input dt = some (true, reset D (pauseToggle g input))) ∧
    (∃ s1 : Game,
      hardDrop D (applyInputs D (pauseToggle g input) input) = lockCurrent D s1 ∧
      s1.m_board = (applyInputs D (pauseToggle g input) input).m_board ∧
      s1.m_current = (applyInputs D (pauseToggle g input) input).m_current.setPosition
        ((applyInputs D (pauseToggle g input) input).m_current.position
          + ⟨0, (applyInputs D (pauseToggle g input) input).m_board.ghostDropDistance D
              (applyInputs D (pauseToggle g input) input).m_current⟩) ∧
      s1.m_board.isValidPosition D s1.m_current (s1.m_current.position + ⟨0, 1⟩)
        s1.m_current.rotationState = false) ∧
    (∀ x : Game,
      gravityLoop D (effectiveInterval (applyInputs D (pauseToggle g input) input) input)
        fuel (beforeGravity D (applyInputs D (pauseToggle g input) input) input dt) = some x →
      x.m_lockDelay = 1 / 2 ∧
      ((x.m_board.isValidPosition D x.m_current (x.m_current.position + ⟨0, 1⟩)
            x.m_current.rotationState = false ∧ 1 / 2 ≤ D.fadd x.m_lockTimer dt) →
        lockDelayStep D x dt
          = lockCurrent D
              { x with m_onGround := true, m_lockTimer := D.fadd x.m_lockTimer dt }) ∧
      ((x.m_board.isValidPosition D x.m_current (x.m_current.position + ⟨0, 1⟩)
            x.m_current.rotationState = false ∧ D.fadd x.m_lockTimer dt < 1 / 2) →
        lockDelayStep D x dt
          = { x with m_onGround := true, m_lockTimer := D.fadd x.m_lockTimer dt }) ∧
      (x.m_board.isValidPosition D x.m_current (x.m_current.position + ⟨0, 1⟩)
            x.m_current.rotationState = true →
        lockDelayStep D x dt = { x with m_onGround := false, m_lockTimer := 0 })) := by
  have hd : g.m_lockDelay = 1 / 2 := reachable_lockDelay D g h
  refine ⟨fun hq hs => update_of_running D fuel g input dt hq hs, ?_, hardDrop_lands D _, ?_⟩
  · intro hc
    cases hq : input.isJustPressed Action.Quit with
    | true => exact Or.inl (update_of_quit D fuel g input dt hq)
    | false =>
      have hs : (pauseToggle g input).m_state ≠ GameState.Playing := by
        rcases hc with hc | hc
        · rw [hq] at hc; cases hc
        · exact hc
      right
      unfold update
      simp only []
      generalize pauseToggle g input = p at hs ⊢
      rw [if_neg (by simp [hq])]
      split_ifs with h1 h2 h3
      · exact Or.inr rfl
      · exact Or.inl rfl
      · exact Or.inl rfl
      all_goals
        exfalso
        cases hp : p.m_state with
        | Playing => exact hs hp
        | Paused => exact h3 hp
        | GameOver => exact h1 hp
  · intro x hx
    have hxd : x.m_lockDelay = 1 / 2 := by
      rw [gravityLoop_lockDelay D _ fuel _ x hx, beforeGravity_lockDelay]
      exact applyInputs_lockDelay D _ input _ ((pauseToggle_lockDelay g input).trans hd)
    refine ⟨hxd, ?_, ?_, ?_⟩
    · rintro ⟨hg, ht⟩
      exact lockDelayStep_of_lock D x dt ((isOnGround_iff D x).2 hg) (by rw [hxd]; exact ht)
    · rintro ⟨hg, ht⟩
      exact lockDelayStep_of_wait D x dt ((isOnGround_iff D x).2 hg) (by rw [hxd]; exact ht)
    · intro hv
      have hg : isOnGround D x = false := by
        simp [isOnGround, hv]
      exact lockDelayStep_of_air D x dt hg

set_option maxRecDepth 100000 in
set_option maxHeartbeats 4000000 in
/-- Witness for C27, on `float32Tables`: the state `restingGame` is reachable,
its I piece rests on the floor at `(4, 20)` and its lock timer holds 0.45f, the
binary32 value 7549747 / 16777216. A frame of 0.05f, the binary32 value
13421773 / 268435456, with no key held is the gravity loop followed by the
lock-delay block; the loop leaves the piece where it is, the placement one row
below being invalid. The exact sum of timer and frame time is below 0.5, the
binary32 sum is 0.5: the block locks the piece, the cursor moves from 1 to 2 and
the J piece is spawned. With the exact sum of `guidelineTables` the same call
stores the sum and does not lock. -/
theorem lock_only_when_grounded_and_timer_full_witness :
    Reachable float32Tables restingGame ∧
    (restingGame.m_current, restingGame.m_lockTimer, restingGame.m_bagIndex)
      = (⟨.I, ⟨4, 20⟩, 0⟩, 7549747 / 16777216, 1) ∧
    float32Tables.fadd (7549747 / 16777216) (13421773 / 268435456) = 1 / 2 ∧
    (7549747 / 16777216 + 13421773 / 268435456 : ℚ) < 1 / 2 ∧
    update float32Tables 32 restingGame (pressed []) (13421773 / 268435456)
      = (gravityLoop float32Tables
          (effectiveInterval
            (applyInputs float32Tables (pauseToggle restingGame (pressed [])) (pressed []))
            (pressed []))
          32
          (beforeGravity float32Tables
            (applyInputs float32Tables (pauseToggle restingGame (pressed [])) (pressed []))
            (pressed []) (13421773 / 268435456))).map
          (fun x => (true, lockDelayStep float32Tables x (13421773 / 268435456))) ∧
    (gravityLoop float32Tables
          (effectiveInterval
            (applyInputs float32Tables (pauseToggle restingGame (pressed [])) (pressed []))
            (pressed []))
          32
          (beforeGravity float32Tables
            (applyInputs float32Tables (pauseToggle restingGame (pressed [])) (pressed []))
            (pressed []) (13421773 / 268435456))).map
        (fun x => (x.m_current, isOnGround float32Tables x, x.m_lockTimer, x.m_lockDelay))
      = some (⟨.I, ⟨4, 20⟩, 0⟩, true, 7549747 / 16777216, 1 / 2) ∧
    (update float32Tables 32 restingGame (pressed []) (13421773 / 268435456)).map
        (fun r => (r.2.m_bagIndex, r.2.m_current))
      = some (2, ⟨.J, ⟨4, 1⟩, 0⟩) ∧
    (update guidelineTables 32 restingGame (pressed []) (13421773 / 268435456)).map
        (fun r => (r.2.m_bagIndex, r.2.m_current, r.2.m_lockTimer))
      = some (1, ⟨.I, ⟨4, 20⟩, 0⟩, 134217725 / 268435456) := by
  have hr : Reachable float32Tables restingGame := reachable_restingGame
  have t := lock_only_when_grounded_and_timer_full float32Tables restingGame hr 32
    (pressed []) (13421773 / 268435456)
  exact ⟨hr, by decide!, by decide!, by decide!,
    (t.1 (by decide!) (by decide!)).trans (if_neg (by decide!)), by decide!, by decide!,
    by decide!⟩

end Game

end Tetris
